import Mathlib

/-!
# pflow metamodel: JSON codec and content identifiers

A shallow embedding of `metamodel/json.go` (the Model codec) and
`metamodel/cid/cid.go` (content identifiers), with the parts of the Go
libraries they call (`encoding/json`, `canonicaljson-go`, `go-cid`,
`go-multihash`, `go-multibase`) modelled as far as the code uses them.

Conventions of the embedding:

* Go `string` is `String` (Unicode text); Go `int` and `int64` are `Int`
  restricted to the 64-bit range where the code parses or stores them;
  a Go slice is a `List` (a nil slice and an empty slice are the same list),
  except at the canonical encoder and decoder of a byte slice, which tell them
  apart: there the nil slice is `none`.
* A Go `map[string]V` is a `GoMap V`: its entries listed in increasing key
  order without duplicate keys.  This is also the order in which the JSON
  encoder writes a map.
* JSON text is represented by the value it denotes (`Json`); an input text is
  a `JsonText`, either malformed or well-formed with a value.  A
  `json.RawMessage` is the JSON value of the captured text.
-/

/-! ## JSON values -/

/-- A JSON value.  Number literals are split into integer literals (`int`, no
fraction and no exponent) and the others (`real m e`, standing for `m * 10^e`):
`encoding/json` stores only the former into integer targets.  An object keeps
its members in document order, duplicates included. -/
inductive Json where
  | null
  | bool (b : Bool)
  | int (n : Int)
  | real (m : Int) (e : Int)
  | str (s : String)
  | arr (xs : List Json)
  | obj (kvs : List (String × Json))

/-- An input text: `malformed` when the library's syntax scan rejects it,
otherwise the JSON value it denotes. -/
inductive JsonText where
  | malformed
  | wellFormed (v : Json)

/-- Errors returned by `json.Unmarshal`. -/
inductive JsonError where
  | syntaxError
  | unmarshalTypeError
  deriving DecidableEq, Repr

/-! ## Go maps with string keys -/

/-- Lexicographic comparison of two character sequences by code point, which
is the byte-wise order of their UTF-8 encodings (Go's `<` on strings). -/
def lexLess : List Char → List Char → Bool
  | [], [] => false
  | [], _ :: _ => true
  | _ :: _, [] => false
  | a :: as, b :: bs =>
    if a.toNat < b.toNat then true
    else if a.toNat = b.toNat then lexLess as bs
    else false

/-- Go's `a < b` on strings. -/
def keyLess (a b : String) : Bool := lexLess a.data b.data

/-- A Go `map[string]V`: entries in strictly increasing key order. -/
abbrev GoMap (V : Type) := List (String × V)

namespace GoMap

/-- The assignment `m[k] = v`. -/
def insert {V : Type} : GoMap V → String → V → GoMap V
  | [], k, v => [(k, v)]
  | (k', v') :: rest, k, v =>
    if keyLess k k' then (k, v) :: (k', v') :: rest
    else if k = k' then (k, v) :: rest
    else (k', v') :: insert rest k v

/-- The lookup `v, ok := m[k]`. -/
def lookup {V : Type} : GoMap V → String → Option V
  | [], _ => none
  | (k', v') :: rest, k => if k = k' then some v' else lookup rest k

/-- A map literal `map[string]V{k1: v1, ...}`, and more generally the map
obtained by assigning the listed entries in order to `init`. -/
def assign {V : Type} (init : GoMap V) (kvs : List (String × V)) : GoMap V :=
  kvs.foldl (fun acc kv => acc.insert kv.1 kv.2) init

/-- The value of member `k` of a JSON object given by its member list, or of a
sequence of assignments: the last entry with that key. -/
def member {V : Type} : List (String × V) → String → Option V
  | [], _ => none
  | (k', v') :: rest, k =>
    match member rest k with
    | some v => some v
    | none => if k = k' then some v' else none

/-- The representation invariant: every key is less than all later keys. -/
def Sorted {V : Type} (m : GoMap V) : Prop :=
  List.Pairwise (fun a b => keyLess a.1 b.1 = true) m

instance {V : Type} (m : GoMap V) : Decidable (Sorted m) :=
  List.instDecidablePairwise m

end GoMap

/-! ## `encoding/json`: decoding a value into a typed target

Each function takes the JSON value and the target's current content and
returns the target's new content with the error `Unmarshal` reports, if any.
A JSON `null` leaves a scalar target untouched and sets a slice or map to nil;
a value of the wrong kind leaves the target untouched and reports
`unmarshalTypeError`; inside an array or object the decoder records the first
such error and goes on with the remaining elements. -/

namespace json2

/-- The range of `int64` (and of `int` on a 64-bit platform). -/
def inInt64 (n : Int) : Bool := decide (-9223372036854775808 ≤ n) && decide (n ≤ 9223372036854775807)

/-- Unmarshal into an `int` or `int64` target. -/
def UnmarshalInt (v : Json) (cur : Int) : Int × Option JsonError :=
  match v with
  | .null => (cur, none)
  | .int n => if inInt64 n then (n, none) else (cur, some .unmarshalTypeError)
  | _ => (cur, some .unmarshalTypeError)

/-- Unmarshal into a `string` target. -/
def UnmarshalString (v : Json) (cur : String) : String × Option JsonError :=
  match v with
  | .null => (cur, none)
  | .str s => (s, none)
  | _ => (cur, some .unmarshalTypeError)

/-- Unmarshal into a `bool` target. -/
def UnmarshalBool (v : Json) (cur : Bool) : Bool × Option JsonError :=
  match v with
  | .null => (cur, none)
  | .bool b => (b, none)
  | _ => (cur, some .unmarshalTypeError)

/-- The first error of a sequence of element results. -/
def firstError {α : Type} (rs : List (α × Option JsonError)) : Option JsonError :=
  rs.findSome? (fun r => r.2)

/-- Unmarshal into a `[]int64` target: an array yields one element per array
element, each decoded into a fresh zero element. -/
def UnmarshalInt64Slice (v : Json) (cur : List Int) : List Int × Option JsonError :=
  match v with
  | .null => ([], none)
  | .arr xs =>
    let rs := xs.map (fun x => UnmarshalInt x 0)
    (rs.map (fun r => r.1), firstError rs)
  | _ => (cur, some .unmarshalTypeError)

/-- Unmarshal into a `map[string]json.RawMessage` target: an object assigns
each member in document order (a repeated key overwrites). -/
def UnmarshalRawMap (v : Json) (cur : GoMap Json) : GoMap Json × Option JsonError :=
  match v with
  | .null => ([], none)
  | .obj kvs => (GoMap.assign cur kvs, none)
  | _ => (cur, some .unmarshalTypeError)

/-- Unmarshal into a nil `map[string]map[string]json.RawMessage` target: each
member is decoded into a fresh zero map element and assigned under its key. -/
def UnmarshalMapOfRawMap (v : Json) : GoMap (GoMap Json) × Option JsonError :=
  match v with
  | .null => ([], none)
  | .obj kvs =>
    let rs := kvs.map (fun kv => (kv.1, UnmarshalRawMap kv.2 []))
    (GoMap.assign [] (rs.map (fun r => (r.1, r.2.1))), firstError (rs.map (fun r => r.2)))
  | _ => ([], some .unmarshalTypeError)

/-- Unmarshal into a nil `[]map[string]json.RawMessage` target. -/
def UnmarshalRawMapSlice (v : Json) : List (GoMap Json) × Option JsonError :=
  match v with
  | .null => ([], none)
  | .arr xs =>
    let rs := xs.map (fun x => UnmarshalRawMap x [])
    (rs.map (fun r => r.1), firstError rs)
  | _ => ([], some .unmarshalTypeError)

/-- The top-level call `json.Unmarshal([]byte(jsonStr), &raw)` on a nil map. -/
def Unmarshal (jsonStr : JsonText) : GoMap Json × Option JsonError :=
  match jsonStr with
  | .malformed => ([], some .syntaxError)
  | .wellFormed v => UnmarshalRawMap v []

end json2

/-! ## The data model -/

namespace token

/-- Modelled from the spec: the `token.Token` struct is declared outside the
given sources; it wraps one `[]int64` field `Value` (an ordered sequence of
signed 64-bit integers). -/
structure Token where
  Value : List Int
  deriving DecidableEq, Repr

end token

namespace metamodel

open token

/-- Modelled from the spec: the `Place` struct is declared outside the given
sources; fields as the code reads and writes them. -/
structure Place where
  Offset : Int
  Initial : Token
  Capacity : Token
  X : Int
  Y : Int
  deriving DecidableEq, Repr

/-- Modelled from the spec: the `Transition` struct is declared outside the
given sources. -/
structure Transition where
  X : Int
  Y : Int
  deriving DecidableEq, Repr

/-- Modelled from the spec: the `Arrow` struct is declared outside the given
sources. -/
structure Arrow where
  Source : String
  Target : String
  Weight : Token
  Inhibit : Bool
  deriving DecidableEq, Repr

/-- Modelled from the spec: the `Model` struct is declared outside the given
sources: a type tag, the places and transitions by label, and the arrows in
order. -/
structure Model where
  ModelType : String
  Places : GoMap Place
  Transitions : GoMap Transition
  Arrows : List Arrow
  deriving DecidableEq, Repr

/-- Modelled from the spec: `NewModel` is declared outside the given sources;
it constructs an empty Model. -/
def NewModel : Model := { ModelType := "", Places := [], Transitions := [], Arrows := [] }

/-! ### `FromJson` -/

/-- The body of the loop over `places` in `FromJson`. -/
def FromJson.place (p : GoMap Json) : Place :=
  let offset : Int := match p.lookup "offset" with
    | some bv => (json2.UnmarshalInt bv 0).1
    | none => 0
  let x : Int := match p.lookup "x" with
    | some bv => (json2.UnmarshalInt bv 0).1
    | none => 0
  let y : Int := match p.lookup "y" with
    | some bv => (json2.UnmarshalInt bv 0).1
    | none => 0
  let initialArr : List Int := match p.lookup "initial" with
    | some bv => (json2.UnmarshalInt64Slice bv []).1
    | none => []
  let capacityArr : List Int := match p.lookup "capacity" with
    | some bv => (json2.UnmarshalInt64Slice bv []).1
    | none => []
  let init : Token := if initialArr.length > 0 then ⟨initialArr⟩ else ⟨[0]⟩
  let cap : Token := if capacityArr.length > 0 then ⟨capacityArr⟩ else ⟨[0]⟩
  { Offset := offset, Initial := init, Capacity := cap, X := x, Y := y }

/-- The body of the loop over `transitions` in `FromJson`. -/
def FromJson.transition (t : GoMap Json) : Transition :=
  let x : Int := match t.lookup "x" with
    | some bv => (json2.UnmarshalInt bv 0).1
    | none => 0
  let y : Int := match t.lookup "y" with
    | some bv => (json2.UnmarshalInt bv 0).1
    | none => 0
  { X := x, Y := y }

/-- The body of the loop over `arcs` in `FromJson`. -/
def FromJson.arc (a : GoMap Json) : Arrow :=
  let src : String := match a.lookup "source" with
    | some bv => (json2.UnmarshalString bv "").1
    | none => ""
  let tgt : String := match a.lookup "target" with
    | some bv => (json2.UnmarshalString bv "").1
    | none => ""
  let weightArr : List Int := match a.lookup "weight" with
    | some bv => (json2.UnmarshalInt64Slice bv []).1
    | none => []
  let inhibit : Bool := match a.lookup "inhibitTransition" with
    | some bv => (json2.UnmarshalBool bv false).1
    | none => false
  let w : Token := if weightArr.length > 0 then ⟨weightArr⟩ else ⟨[0]⟩
  { Source := src, Target := tgt, Weight := w, Inhibit := inhibit }

/-- The `@type` step of `FromJson`: the receiver's `ModelType` afterwards. -/
def FromJson.modelType (m : Model) (raw : GoMap Json) : String :=
  match raw.lookup "@type" with
  | some v => (json2.UnmarshalString v "").1
  | none => m.ModelType

/-- The `places` step of `FromJson`: the receiver's `Places` afterwards. -/
def FromJson.places (raw : GoMap Json) : GoMap Place :=
  match raw.lookup "places" with
  | some v =>
    match json2.UnmarshalMapOfRawMap v with
    | (places, none) => GoMap.assign [] (places.map (fun lp => (lp.1, FromJson.place lp.2)))
    | (_, some _) => []
  | none => []

/-- The `transitions` step of `FromJson`. -/
def FromJson.transitions (raw : GoMap Json) : GoMap Transition :=
  match raw.lookup "transitions" with
  | some v =>
    match json2.UnmarshalMapOfRawMap v with
    | (transitions, none) =>
      GoMap.assign [] (transitions.map (fun lt => (lt.1, FromJson.transition lt.2)))
    | (_, some _) => []
  | none => []

/-- The `arcs` step of `FromJson`: arrows are appended in the order of the
decoded sequence. -/
def FromJson.arrows (raw : GoMap Json) : List Arrow :=
  match raw.lookup "arcs" with
  | some v =>
    match json2.UnmarshalRawMapSlice v with
    | (arcs, none) => arcs.foldl (fun acc a => acc ++ [FromJson.arc a]) []
    | (_, some _) => []
  | none => []

/-- The method `(m *Model) FromJson(jsonStr string) (*Model, error)`: the
receiver `m` is updated and returned, or an error is returned. -/
def FromJson (m : Model) (jsonStr : JsonText) : Except JsonError Model :=
  match json2.Unmarshal jsonStr with
  | (_, some err) => .error err
  | (raw, none) =>
    .ok { ModelType := FromJson.modelType m raw,
          Places := FromJson.places raw,
          Transitions := FromJson.transitions raw,
          Arrows := FromJson.arrows raw }

/-! ### `ToJson`

The values stored in the `map[string]interface{}` maps are represented by the
JSON the encoder writes for them: a Go string as `Json.str`, an `int` as
`Json.int`, `[]int64` and `[]string` as arrays, `true` as `Json.bool true`, a
map as an object with its keys in increasing order. -/

/-- The first component `t.Value[0]` guarded by `len(t.Value) > 0 && t.Value[0] != 0`. -/
def ToJson.head (t : Token) : Option Int :=
  match t.Value with
  | [] => none
  | v :: _ => if v ≠ 0 then some v else none

/-- The map `pp` built for one place in `ToJson`. -/
def ToJson.place (p : Place) : GoMap Json :=
  let pp : GoMap Json := GoMap.assign []
    [("@type", .str "Place"), ("offset", .int p.Offset), ("x", .int p.X), ("y", .int p.Y)]
  let pp := match ToJson.head p.Initial with
    | some v => pp.insert "initial" (.arr [.int v])
    | none => pp
  let pp := match ToJson.head p.Capacity with
    | some v => pp.insert "capacity" (.arr [.int v])
    | none => pp
  pp

/-- The map built for one transition in `ToJson`. -/
def ToJson.transition (t : Transition) : GoMap Json :=
  GoMap.assign [] [("@type", .str "Transition"), ("x", .int t.X), ("y", .int t.Y)]

/-- The map `arc` built for one arrow in `ToJson`. -/
def ToJson.arc (a : Arrow) : GoMap Json :=
  let arc : GoMap Json := GoMap.assign []
    [("@type", .str "Arrow"), ("source", .str a.Source), ("target", .str a.Target)]
  let arc := match ToJson.head a.Weight with
    | some v => arc.insert "weight" (.arr [.int v])
    | none => arc
  let arc := if a.Inhibit then arc.insert "inhibitTransition" (.bool true) else arc
  arc

/-- The method `(m *Model) ToJson(w io.Writer)`: the JSON value written to `w`. -/
def ToJson (m : Model) : Json :=
  let out : GoMap Json := GoMap.assign []
    [("@context", .str "https://pflow.xyz/schema"),
     ("@type", .str "PetriNet"),
     ("token", .arr [.str "https://pflow.xyz/tokens/black"])]
  let places : GoMap Json :=
    GoMap.assign [] (m.Places.map (fun lp => (lp.1, Json.obj (ToJson.place lp.2))))
  let out := out.insert "places" (.obj places)
  let transitions : GoMap Json :=
    GoMap.assign [] (m.Transitions.map (fun lt => (lt.1, Json.obj (ToJson.transition lt.2))))
  let out := out.insert "transitions" (.obj transitions)
  let arcs : List Json :=
    m.Arrows.foldl (fun acc a => acc ++ [Json.obj (ToJson.arc a)]) []
  let out := out.insert "arcs" (.arr arcs)
  .obj out

end metamodel

/-! ## Well-formedness of Go values

The conditions that Go's types impose on the values of the data model: every
number fits its 64-bit type and every map lists each key once (in the
representation: in increasing order). -/

namespace token

/-- Every component of the token is an `int64`. -/
def Token.InRange (t : Token) : Prop := ∀ v ∈ t.Value, json2.inInt64 v = true

instance (t : Token) : Decidable t.InRange :=
  inferInstanceAs (Decidable (∀ v ∈ t.Value, json2.inInt64 v = true))

end token

namespace metamodel

open token

/-- The numbers of a place fit their Go types. -/
def Place.WF (p : Place) : Prop :=
  json2.inInt64 p.Offset = true ∧ json2.inInt64 p.X = true ∧ json2.inInt64 p.Y = true ∧
    p.Initial.InRange ∧ p.Capacity.InRange

instance (p : Place) : Decidable p.WF :=
  inferInstanceAs (Decidable (_ ∧ _ ∧ _ ∧ _ ∧ _))

/-- The numbers of a transition fit their Go types. -/
def Transition.WF (t : Transition) : Prop :=
  json2.inInt64 t.X = true ∧ json2.inInt64 t.Y = true

instance (t : Transition) : Decidable t.WF :=
  inferInstanceAs (Decidable (_ ∧ _))

/-- A Model as a Go value: maps list each label once, numbers fit their types. -/
def Model.WF (m : Model) : Prop :=
  GoMap.Sorted m.Places ∧ GoMap.Sorted m.Transitions ∧
    (∀ e ∈ m.Places, e.2.WF) ∧ (∀ e ∈ m.Transitions, e.2.WF) ∧
    (∀ a ∈ m.Arrows, a.Weight.InRange)

instance (m : Model) : Decidable m.WF :=
  inferInstanceAs (Decidable (_ ∧ _ ∧ _ ∧ _ ∧ _))

/-- The token is the one-component sequence `[v]`. -/
def isSingleton (t : Token) : Bool := t.Value.length == 1

end metamodel

namespace metamodel

open token

/-- The token that `FromJson` reads back from what `ToJson` writes for `t`:
the one-component sequence holding `t.Value[0]`, or zero when `t` is empty. -/
def ToJson.readBack (t : Token) : Token := ⟨[(ToJson.head t).getD 0]⟩

/-- A place with its tokens as read back after `ToJson`. -/
def Place.readBack (p : Place) : Place :=
  { p with Initial := ToJson.readBack p.Initial, Capacity := ToJson.readBack p.Capacity }

/-- An arrow with its weight as read back after `ToJson`. -/
def Arrow.readBack (a : Arrow) : Arrow :=
  { a with Weight := ToJson.readBack a.Weight }

end metamodel

/-! ## Vocabulary for statements about wire JSON -/

/-- Whether the JSON value is an object with a member named `k`. -/
def Json.hasKey (j : Json) (k : String) : Bool :=
  match j with
  | .obj kvs => kvs.any (fun kv => decide (kv.1 = k))
  | _ => false

/-- The JSON value with every member named `k` removed, when it is an object. -/
def Json.without (j : Json) (k : String) : Json :=
  match j with
  | .obj kvs => .obj (kvs.filter (fun kv => decide (kv.1 ≠ k)))
  | v => v

/-- The value is a JSON object. -/
def Json.isObject : Json → Bool
  | .obj _ => true
  | _ => false

/-- The value is the JSON literal `null`. -/
def Json.isNull : Json → Bool
  | .null => true
  | _ => false

/-- The value is an integer literal within the `int64` range. -/
def Json.isInt64 : Json → Bool
  | .int n => json2.inInt64 n
  | _ => false

/-- The value is a JSON string. -/
def Json.isString : Json → Bool
  | .str _ => true
  | _ => false

/-- The value is a JSON boolean. -/
def Json.isBool : Json → Bool
  | .bool _ => true
  | _ => false

/-- The value is a JSON array. -/
def Json.isArray : Json → Bool
  | .arr _ => true
  | _ => false

namespace token

/-- A zero-valued token: every component is zero. -/
def Token.ZeroValued (t : Token) : Prop := ∀ v ∈ t.Value, v = 0

instance (t : Token) : Decidable t.ZeroValued :=
  inferInstanceAs (Decidable (∀ v ∈ t.Value, v = 0))

end token

namespace metamodel

open token

/-! ### The strict import schema -/

/-- The struct `PlaceInt64`. -/
structure PlaceInt64 where
  Offset : Int
  Initial : Int
  Capacity : Int
  X : Int
  Y : Int
  deriving DecidableEq, Repr

/-- The struct `ArrowInt64`. -/
structure ArrowInt64 where
  Source : String
  Target : String
  Weight : Int
  Inhibit : Bool
  deriving DecidableEq, Repr

/-- The struct `importModel`. -/
structure importModel where
  ModelType : String
  Places : GoMap PlaceInt64
  Transitions : GoMap Transition
  Arrows : List ArrowInt64
  deriving DecidableEq, Repr

/-- The method `(m *importModel) ToModel() *Model`. -/
def importModel.ToModel (m : importModel) : Model :=
  let model := NewModel
  let model := { model with ModelType := m.ModelType }
  let model := { model with Places := GoMap.assign [] (m.Places.map (fun (lp : String × PlaceInt64) =>
    (lp.1, ({ Offset := lp.2.Offset,
              Initial := ⟨[lp.2.Initial]⟩,
              Capacity := ⟨[lp.2.Capacity]⟩,
              X := lp.2.X,
              Y := lp.2.Y } : Place)))) }
  let model := { model with Transitions := GoMap.assign [] (m.Transitions.map (fun (lt : String × Transition) =>
    (lt.1, ({ X := lt.2.X, Y := lt.2.Y } : Transition)))) }
  let model := { model with Arrows := m.Arrows.map (fun (arrow : ArrowInt64) =>
    ({ Source := arrow.Source,
       Target := arrow.Target,
       Weight := ⟨[arrow.Weight]⟩,
       Inhibit := arrow.Inhibit } : Arrow)) }
  model

end metamodel

namespace metamodel

open token

/-- How `ToJson` writes an optional token field: `field` is what the entry
holds under the field's key.  The key is present exactly when the token has a
first component that is not zero, and then holds the one-element array of that
component. -/
def ToJson.Emits (t : Token) (field : Option Json) : Prop :=
  (∀ v rest, t.Value = v :: rest → v ≠ 0 → field = some (.arr [.int v])) ∧
  (∀ rest, t.Value = 0 :: rest → field = none) ∧
  (t.Value = [] → field = none)

end metamodel

namespace metamodel

/-- The keys `FromJson` reads in a place entry. -/
def FromJson.placeKeys : List String := ["offset", "x", "y", "initial", "capacity"]

/-- The keys `FromJson` reads in a transition entry. -/
def FromJson.transitionKeys : List String := ["x", "y"]

/-- The keys `FromJson` reads in an arc entry. -/
def FromJson.arcKeys : List String := ["source", "target", "weight", "inhibitTransition"]

/-- Whether `v` has the JSON kind that the place field `k` is decoded from: an
integer literal in range for `offset`, `x`, `y`, an array for `initial` and
`capacity`. -/
def FromJson.placeFieldFits (k : String) (v : Json) : Bool :=
  if k = "offset" ∨ k = "x" ∨ k = "y" then v.isInt64
  else if k = "initial" ∨ k = "capacity" then v.isArray
  else true

/-- Whether `v` has the JSON kind that the transition field `k` is decoded from. -/
def FromJson.transitionFieldFits (k : String) (v : Json) : Bool :=
  if k = "x" ∨ k = "y" then v.isInt64 else true

/-- Whether `v` has the JSON kind that the arc field `k` is decoded from: a
string for `source` and `target`, an array for `weight`, a boolean for
`inhibitTransition`. -/
def FromJson.arcFieldFits (k : String) (v : Json) : Bool :=
  if k = "source" ∨ k = "target" then v.isString
  else if k = "weight" then v.isArray
  else if k = "inhibitTransition" then v.isBool
  else true

end metamodel

namespace metamodel

/-- The receiver `m` after the call `m.FromJson(jsonStr)`: on a decoding error
of the top-level text the method returns before it assigns anything; otherwise
it has assigned `ModelType` (when `@type` is present), `Places`, `Transitions`
and `Arrows`. -/
def FromJson.receiver (m : Model) (jsonStr : JsonText) : Model :=
  match json2.Unmarshal jsonStr with
  | (_, some _) => m
  | (raw, none) =>
    let m := { m with ModelType := FromJson.modelType m raw }
    let m := { m with Places := FromJson.places raw }
    let m := { m with Transitions := FromJson.transitions raw }
    let m := { m with Arrows := FromJson.arrows raw }
    m

/-- An import value as a Go value: its maps list each label once. -/
def importModel.WF (m : importModel) : Prop :=
  GoMap.Sorted m.Places ∧ GoMap.Sorted m.Transitions

instance (m : importModel) : Decidable m.WF :=
  inferInstanceAs (Decidable (_ ∧ _))

end metamodel

/-! ## Content identifiers (`metamodel/cid`)

Bytes are `Fin 256`.  The hash function, the multihash and CID framing and the
base-58 and base-64 encodings of the libraries are modelled by their published
definitions. -/

namespace cid

/-- A byte. -/
abbrev Byte := Fin 256

/-- The byte with value `n mod 256`. -/
def byte (n : Nat) : Byte := ⟨n % 256, Nat.mod_lt _ (by decide)⟩

/-! ### SHA-256 (FIPS 180-4) -/

namespace sha256

/-- Addition modulo `2^32`. -/
def add32 (x y : Nat) : Nat := (x + y) % 4294967296

/-- Rotation to the right of a 32-bit word. -/
def rotr (n x : Nat) : Nat := ((x >>> n) ||| (x <<< (32 - n))) % 4294967296

def ch (x y z : Nat) : Nat := (x &&& y) ^^^ ((4294967295 - x) &&& z)

def maj (x y z : Nat) : Nat := (x &&& y) ^^^ (x &&& z) ^^^ (y &&& z)

def bsig0 (x : Nat) : Nat := rotr 2 x ^^^ rotr 13 x ^^^ rotr 22 x

def bsig1 (x : Nat) : Nat := rotr 6 x ^^^ rotr 11 x ^^^ rotr 25 x

def ssig0 (x : Nat) : Nat := rotr 7 x ^^^ rotr 18 x ^^^ (x >>> 3)

def ssig1 (x : Nat) : Nat := rotr 17 x ^^^ rotr 19 x ^^^ (x >>> 10)

/-- The round constants. -/
def K : List Nat :=
  [0x428a2f98, 0x71374491, 0xb5c0fbcf, 0xe9b5dba5, 0x3956c25b, 0x59f111f1, 0x923f82a4, 0xab1c5ed5,
   0xd807aa98, 0x12835b01, 0x243185be, 0x550c7dc3, 0x72be5d74, 0x80deb1fe, 0x9bdc06a7, 0xc19bf174,
   0xe49b69c1, 0xefbe4786, 0x0fc19dc6, 0x240ca1cc, 0x2de92c6f, 0x4a7484aa, 0x5cb0a9dc, 0x76f988da,
   0x983e5152, 0xa831c66d, 0xb00327c8, 0xbf597fc7, 0xc6e00bf3, 0xd5a79147, 0x06ca6351, 0x14292967,
   0x27b70a85, 0x2e1b2138, 0x4d2c6dfc, 0x53380d13, 0x650a7354, 0x766a0abb, 0x81c2c92e, 0x92722c85,
   0xa2bfe8a1, 0xa81a664b, 0xc24b8b70, 0xc76c51a3, 0xd192e819, 0xd6990624, 0xf40e3585, 0x106aa070,
   0x19a4c116, 0x1e376c08, 0x2748774c, 0x34b0bcb5, 0x391c0cb3, 0x4ed8aa4a, 0x5b9cca4f, 0x682e6ff3,
   0x748f82ee, 0x78a5636f, 0x84c87814, 0x8cc70208, 0x90befffa, 0xa4506ceb, 0xbef9a3f7, 0xc67178f2]

/-- The working variables `a .. h`, also used for the hash value. -/
structure State where
  a : Nat
  b : Nat
  c : Nat
  d : Nat
  e : Nat
  f : Nat
  g : Nat
  h : Nat

/-- The initial hash value. -/
def H0 : State :=
  ⟨0x6a09e667, 0xbb67ae85, 0x3c6ef372, 0xa54ff53a, 0x510e527f, 0x9b05688c, 0x1f83d9ab, 0x5be0cd19⟩

/-- The padded message: the data, the byte `0x80`, zero bytes up to 56 modulo
64, and the bit length as a 64-bit big-endian number. -/
def pad (data : List Byte) : List Nat :=
  let n := data.length
  let zeros := (119 - n % 64) % 64
  let bits := (8 * n) % 18446744073709551616
  data.map (fun b => b.val) ++ [128] ++ List.replicate zeros 0 ++
    [(bits >>> 56) % 256, (bits >>> 48) % 256, (bits >>> 40) % 256, (bits >>> 32) % 256,
     (bits >>> 24) % 256, (bits >>> 16) % 256, (bits >>> 8) % 256, bits % 256]

/-- The big-endian 32-bit words of a byte sequence. -/
def words : List Nat → List Nat
  | b0 :: b1 :: b2 :: b3 :: rest => (((b0 * 256 + b1) * 256 + b2) * 256 + b3) :: words rest
  | _ => []

/-- The message schedule extended by `n` words. -/
def schedule : Nat → List Nat → List Nat
  | 0, w => w
  | n + 1, w =>
    let t := w.length
    schedule n (w ++ [add32 (add32 (ssig1 (w.getD (t - 2) 0)) (w.getD (t - 7) 0))
                        (add32 (ssig0 (w.getD (t - 15) 0)) (w.getD (t - 16) 0))])

/-- One round with constant `k` and schedule word `w`. -/
def round (s : State) (k w : Nat) : State :=
  let t1 := add32 (add32 (add32 s.h (bsig1 s.e)) (add32 (ch s.e s.f s.g) k)) w
  let t2 := add32 (bsig0 s.a) (maj s.a s.b s.c)
  ⟨add32 t1 t2, s.a, s.b, s.c, add32 s.d t1, s.e, s.f, s.g⟩

/-- The 64 rounds over the constants and the schedule. -/
def rounds : State → List Nat → List Nat → State
  | s, k :: ks, w :: ws => rounds (round s k w) ks ws
  | s, _, _ => s

/-- The compression of one 16-word block into the hash value. -/
def compress (hv : State) (block : List Nat) : State :=
  let s := rounds hv K (schedule 48 block)
  ⟨add32 hv.a s.a, add32 hv.b s.b, add32 hv.c s.c, add32 hv.d s.d,
   add32 hv.e s.e, add32 hv.f s.f, add32 hv.g s.g, add32 hv.h s.h⟩

/-- The hash value after the blocks of `ws`, 16 words at a time; `n` bounds the
number of blocks. -/
def blocks : Nat → State → List Nat → State
  | 0, hv, _ => hv
  | n + 1, hv, ws =>
    if ws.length < 16 then hv else blocks n (compress hv (ws.take 16)) (ws.drop 16)

/-- The four big-endian bytes of a 32-bit word. -/
def wordBytes (x : Nat) : List Byte :=
  [byte (x >>> 24), byte (x >>> 16), byte (x >>> 8), byte x]

/-- The 32-byte SHA-256 digest. -/
def sum (data : List Byte) : List Byte :=
  let ws := words (pad data)
  let s := blocks ws.length H0 ws
  wordBytes s.a ++ wordBytes s.b ++ wordBytes s.c ++ wordBytes s.d ++
    wordBytes s.e ++ wordBytes s.f ++ wordBytes s.g ++ wordBytes s.h

end sha256

/-! ### Varints, multihash, CID -/

/-- The unsigned varint (LEB128) of `n`, at most `fuel + 1` bytes. -/
def varintAux : Nat → Nat → List Byte
  | 0, n => [byte n]
  | fuel + 1, n => if n < 128 then [byte n] else byte (n % 128 + 128) :: varintAux fuel (n / 128)

/-- The unsigned varint of `n`. -/
def varint (n : Nat) : List Byte := varintAux n n

/-- Errors of the CID libraries. -/
inductive CidError where
  | sumNotSupported
  | invalidCid
  | invalidLength
  deriving DecidableEq, Repr

/-- The multihash code of SHA-256. -/
def SHA2_256 : Nat := 0x12

/-- The library call `multihash.Sum(data, code, length)`: the digest under the
hash function `code`, cut to `length` bytes (all of it when `length` is
negative), framed as code, length, digest.  Of the registered hash functions
only SHA-256 is modelled. -/
def multihashSum (data : List Byte) (code : Nat) (length : Int) :
    Except CidError (List Byte) :=
  if code = SHA2_256 then
    let digest := sha256.sum data
    if length < 0 then .ok (varint code ++ varint digest.length ++ digest)
    else if length.toNat ≤ digest.length then
      .ok (varint code ++ varint length.toNat ++ digest.take length.toNat)
    else .error .invalidLength
  else .error .sumNotSupported

/-- The library struct `cid.Prefix`. -/
structure Prefix where
  Version : Nat
  Codec : Nat
  MhType : Nat
  MhLength : Int

/-- A CID: its binary form (the content of the library's `cid.Cid`, which the
wrapper struct `Cid` points to).  The undefined CID is the empty sequence. -/
structure Cid where
  bytes : List Byte
  deriving DecidableEq, Repr

/-- The library method `Prefix.Sum`: a version-1 CID is version, codec,
multihash; a version-0 CID is the bare SHA-256 multihash. -/
def Prefix.Sum (p : Prefix) (data : List Byte) : Cid × Option CidError :=
  if p.Version = 0 ∧ (p.MhType ≠ SHA2_256 ∨ (p.MhLength ≠ 32 ∧ p.MhLength ≠ -1)) then
    (⟨[]⟩, some .invalidCid)
  else
    match multihashSum data p.MhType p.MhLength with
    | .error e => (⟨[]⟩, some e)
    | .ok hash =>
      if p.Version = 0 then (⟨hash⟩, none)
      else if p.Version = 1 then (⟨varint 1 ++ varint p.Codec ++ hash⟩, none)
      else (⟨[]⟩, some .invalidCid)

/-! ### Base 58 (Bitcoin alphabet) and multibase -/

/-- The Bitcoin base-58 alphabet. -/
def b58Alphabet : List Char :=
  "123456789ABCDEFGHJKLMNPQRSTUVWXYZabcdefghijkmnopqrstuvwxyz".data

/-- The base-58 digits of `n`, most significant first, put in front of `acc`;
at most `fuel` digits. -/
def b58Digits : Nat → Nat → List Nat → List Nat
  | 0, _, acc => acc
  | fuel + 1, n, acc => if n = 0 then acc else b58Digits fuel (n / 58) (n % 58 :: acc)

/-- The number a byte sequence denotes, big-endian. -/
def bigEndian (bs : List Byte) : Nat := bs.foldl (fun acc b => acc * 256 + b.val) 0

/-- The base-58 text of a byte sequence: one `1` for each leading zero byte,
then the base-58 digits of the number the bytes denote.  Two digits per byte
are enough. -/
def base58 (bs : List Byte) : List Char :=
  List.replicate (bs.takeWhile (fun b => b.val = 0)).length '1' ++
    (b58Digits (2 * bs.length) (bigEndian bs) []).map (fun d => b58Alphabet.getD d '1')

/-- The multibase encoder `base58btc`: the marker `z`, then base 58. -/
def encoder (bs : List Byte) : String := String.mk ('z' :: base58 bs)

/-- The library method `Cid.Version`: 0 for a bare 34-byte SHA-256 multihash. -/
def Cid.Version (c : Cid) : Nat :=
  match c.bytes with
  | b0 :: b1 :: _ => if c.bytes.length = 34 ∧ b0.val = 0x12 ∧ b1.val = 32 then 0 else 1
  | _ => 1

/-- The method `(c Cid) String()`, `c.Encode(encoder)`: a version-0 CID is
written in bare base 58, a version-1 CID with the encoder. -/
def Cid.String (c : Cid) : String :=
  if c.Version = 0 then String.mk (base58 c.bytes) else encoder c.bytes

/-! ### `cid.go` -/

/-- The function `toCid`. -/
def toCid (data : List Byte) : Cid × Option CidError :=
  Prefix.Sum { Version := 1, Codec := 0x0129, MhType := SHA2_256, MhLength := -1 } data

/-- The function `ToCid(b ...[]byte)`; an error stands for the panic. -/
def ToCid (b : List (List Byte)) : Except CidError Cid :=
  let data := b.foldl (fun data v => data ++ v) []
  match toCid data with
  | (_, some err) => .error err
  | (newCid, none) => .ok newCid

end cid

namespace cid

/-! ### Base 64 (standard alphabet, padded) -/

namespace base64

/-- The standard base-64 alphabet. -/
def alphabet : List Char :=
  "ABCDEFGHIJKLMNOPQRSTUVWXYZabcdefghijklmnopqrstuvwxyz0123456789+/".data

/-- The character of the 6-bit value `n`. -/
def encodeChar (n : Nat) : Char := alphabet.getD n 'A'

/-- The 6-bit value of a character of the alphabet. -/
def decodeChar (c : Char) : Option Nat :=
  let n := c.toNat
  if 65 ≤ n ∧ n ≤ 90 then some (n - 65)
  else if 97 ≤ n ∧ n ≤ 122 then some (n - 71)
  else if 48 ≤ n ∧ n ≤ 57 then some (n + 4)
  else if n = 43 then some 62
  else if n = 47 then some 63
  else none

/-- The library call `StdEncoding.EncodeToString`: three bytes give four
characters; a final group of one or two bytes is padded with `=`. -/
def encode : List Byte → List Char
  | [] => []
  | [a] => [encodeChar (a.val / 4), encodeChar (a.val % 4 * 16), '=', '=']
  | [a, b] =>
    [encodeChar (a.val / 4), encodeChar (a.val % 4 * 16 + b.val / 16),
     encodeChar (b.val % 16 * 4), '=']
  | a :: b :: c :: rest =>
    encodeChar (a.val / 4) :: encodeChar (a.val % 4 * 16 + b.val / 16) ::
      encodeChar (b.val % 16 * 4 + c.val / 64) :: encodeChar (c.val % 64) :: encode rest

/-- Decoding of a text without line breaks, four characters at a time; padding
is accepted only in the last group. -/
def decodeGroups : List Char → Option (List Byte)
  | [] => some []
  | c1 :: c2 :: c3 :: c4 :: rest =>
    match decodeChar c1, decodeChar c2 with
    | some s1, some s2 =>
      if c3 = '=' then
        if c4 = '=' ∧ rest.isEmpty then some [byte (s1 * 4 + s2 / 16)] else none
      else
        match decodeChar c3 with
        | none => none
        | some s3 =>
          if c4 = '=' then
            if rest.isEmpty then some [byte (s1 * 4 + s2 / 16), byte (s2 % 16 * 16 + s3 / 4)]
            else none
          else
            match decodeChar c4 with
            | none => none
            | some s4 =>
              (decodeGroups rest).map (fun bs =>
                byte (s1 * 4 + s2 / 16) :: byte (s2 % 16 * 16 + s3 / 4) ::
                  byte (s3 % 4 * 64 + s4) :: bs)
    | _, _ => none
  | _ => none

/-- The library call `StdEncoding.Decode`: carriage returns and line feeds are
skipped; `none` stands for a corrupt input. -/
def decode (s : List Char) : Option (List Byte) :=
  decodeGroups (s.filter (fun c => !(c = '\r' || c = '\n')))

end base64

/-! ### The canonical JSON encoder and decoder at a `[]byte` value -/

/-- JSON white space. -/
def isSpace (c : Char) : Bool := c = ' ' || c = '\t' || c = '\r' || c = '\n'

/-- The value of a hexadecimal digit. -/
def hexVal (c : Char) : Option Nat :=
  let n := c.toNat
  if 48 ≤ n ∧ n ≤ 57 then some (n - 48)
  else if 97 ≤ n ∧ n ≤ 102 then some (n - 87)
  else if 65 ≤ n ∧ n ≤ 70 then some (n - 55)
  else none

/-- The value of four hexadecimal digits. -/
def hex4 (h1 h2 h3 h4 : Char) : Option Nat :=
  match hexVal h1, hexVal h2, hexVal h3, hexVal h4 with
  | some a, some b, some c, some d => some (((a * 16 + b) * 16 + c) * 16 + d)
  | _, _, _, _ => none

/-- The character a one-letter escape stands for. -/
def escapeChar (e : Char) : Option Char :=
  if e = '"' then some '"'
  else if e = '\\' then some '\\'
  else if e = '/' then some '/'
  else if e = 'b' then some (Char.ofNat 8)
  else if e = 'f' then some (Char.ofNat 12)
  else if e = 'n' then some '\n'
  else if e = 'r' then some '\r'
  else if e = 't' then some '\t'
  else none

/-- The character of a `\u` escape with value `v`, given the value of a
directly following `\u` escape if there is one: a surrogate pair is combined, a
lone surrogate becomes U+FFFD.  The flag tells whether the following escape was
consumed. -/
def unicodeEscape (v : Nat) (next : Option Nat) : Char × Bool :=
  if 0xD800 ≤ v ∧ v < 0xE000 then
    match next with
    | some lo =>
      if v < 0xDC00 ∧ 0xDC00 ≤ lo ∧ lo < 0xE000 then
        (Char.ofNat (0x10000 + (v - 0xD800) * 1024 + (lo - 0xDC00)), true)
      else (Char.ofNat 0xFFFD, false)
    | none => (Char.ofNat 0xFFFD, false)
  else (Char.ofNat v, false)

/-- The value of a `\u` escape at the head of the input, if there is one. -/
def peekEscape : List Char → Option Nat
  | '\\' :: 'u' :: h1 :: h2 :: h3 :: h4 :: _ => hex4 h1 h2 h3 h4
  | _ => none

/-- The scan of a JSON string literal after its opening quote, with at most
`fuel` steps: the characters it denotes and the input after the closing quote;
`none` when the literal is not well formed. -/
def unquote : Nat → List Char → Option (List Char × List Char)
  | 0, _ => none
  | _ + 1, [] => none
  | fuel + 1, c :: rest =>
    if c = '"' then some ([], rest)
    else if c = '\\' then
      match rest with
      | 'u' :: h1 :: h2 :: h3 :: h4 :: rest' =>
        match hex4 h1 h2 h3 h4 with
        | none => none
        | some v =>
          let r := unicodeEscape v (peekEscape rest')
          (unquote fuel (if r.2 then rest'.drop 6 else rest')).map (fun p => (r.1 :: p.1, p.2))
      | e :: rest' =>
        match escapeChar e with
        | none => none
        | some ch => (unquote fuel rest').map (fun p => (ch :: p.1, p.2))
      | [] => none
    else if c.toNat < 32 then none
    else (unquote fuel rest).map (fun p => (c :: p.1, p.2))

/-- Errors of `Unmarshal` into a byte sequence. -/
inductive UnmarshalError where
  | invalidText
  | corruptInput
  deriving DecidableEq, Repr

/-- The function `Marshal` at a `[]byte` argument, `none` being the nil
slice: the canonical encoder writes a nil slice as `null` and any other byte
sequence, the empty one included, as its base-64 text between quotes. -/
def Marshal (i : Option (List Byte)) : String :=
  match i with
  | none => String.mk ['n', 'u', 'l', 'l']
  | some b => String.mk ('"' :: (base64.encode b ++ ['"']))

/-- The function `Unmarshal` at a `*[]byte` target holding `cur` (`none` being
the nil slice): a string literal is decoded from base 64 into a non-nil slice,
`null` sets the target to nil; any other text, malformed or of another JSON
kind, is an error and leaves the target as it was. -/
def Unmarshal (data : String) (cur : Option (List Byte)) :
    Option (List Byte) × Option UnmarshalError :=
  match data.data.dropWhile isSpace with
  | '"' :: rest =>
    match unquote rest.length rest with
    | some (s, trailing) =>
      if trailing.all isSpace then
        match base64.decode s with
        | some bs => (some bs, none)
        | none => (cur, some .corruptInput)
      else (cur, some .invalidText)
    | none => (cur, some .invalidText)
  | 'n' :: 'u' :: 'l' :: 'l' :: trailing =>
    if trailing.all isSpace then (none, none) else (cur, some .invalidText)
  | _ => (cur, some .invalidText)

end cid

namespace cid

/-! ### The canonical JSON encoder at an arbitrary value -/

/-- A Go value that the canonical encoder can represent.  A map is given by
its entries in the order in which the runtime happens to iterate over it, which
Go leaves unspecified; its keys are distinct.  A nil slice, a nil map and a nil
pointer are `null`, which is what the encoder writes for them. -/
inductive Value where
  | null
  | bool (b : Bool)
  | int (n : Int)
  | str (s : String)
  | bytes (b : List Byte)
  | list (xs : List Value)
  | map (entries : List (String × Value))

/-- An upper-case hexadecimal digit. -/
def hexDigit (n : Nat) : Char := "0123456789ABCDEF".data.getD n '0'

/-- The canonical text of one character of a string: quotation mark, reverse
solidus and control characters are escaped, everything else stands for
itself. -/
def escape (c : Char) : List Char :=
  if c = '"' then ['\\', '"']
  else if c = '\\' then ['\\', '\\']
  else if c.toNat = 8 then ['\\', 'b']
  else if c.toNat = 9 then ['\\', 't']
  else if c.toNat = 10 then ['\\', 'n']
  else if c.toNat = 12 then ['\\', 'f']
  else if c.toNat = 13 then ['\\', 'r']
  else if c.toNat < 32 then ['\\', 'u', '0', '0', hexDigit (c.toNat / 16), hexDigit (c.toNat % 16)]
  else [c]

/-- The canonical text of a string: its characters between quotes. -/
def quote (s : String) : List Char := '"' :: (s.data.flatMap escape ++ ['"'])

/-- The texts joined by commas, with nothing else between them. -/
def joinComma : List (List Char) → List Char
  | [] => []
  | [x] => x
  | x :: y :: rest => x ++ ',' :: joinComma (y :: rest)

/-- The decimal digit `d`. -/
def digitChar (d : Nat) : Char := Char.ofNat (48 + d)

/-- The decimal digits of `n` put in front of `acc`, most significant first,
without leading zeros; at most `fuel` digits. -/
def decDigits : Nat → Nat → List Char → List Char
  | 0, _, acc => acc
  | fuel + 1, n, acc =>
    if n < 10 then digitChar n :: acc else decDigits fuel (n / 10) (digitChar (n % 10) :: acc)

/-- The decimal text of a natural number. -/
def natText (n : Nat) : List Char := decDigits (n + 1) n []

/-- The decimal text of an integer: no leading zeros, no exponent, a minus
sign for a negative number. -/
def intText : Int → List Char
  | .ofNat n => natText n
  | .negSucc n => '-' :: natText (n + 1)

/-- The text of one object member: the quoted key, a colon, the value text. -/
def memberText (e : String × List Char) : List Char := quote e.1 ++ ':' :: e.2

mutual
/-- The canonical JSON text of a value.  An integer is written in decimal, a
byte sequence as its base-64 text between quotes, a sequence between brackets,
a map between braces with its members put in increasing key order. -/
def Value.encode : Value → List Char
  | .null => ['n', 'u', 'l', 'l']
  | .bool b => if b then ['t', 'r', 'u', 'e'] else ['f', 'a', 'l', 's', 'e']
  | .int n => intText n
  | .str s => quote s
  | .bytes b => '"' :: (base64.encode b ++ ['"'])
  | .list xs => '[' :: (joinComma (Value.encodeList xs) ++ [']'])
  | .map es => '{' :: (joinComma ((GoMap.assign [] (Value.encodeMembers es)).map memberText) ++ ['}'])
/-- The texts of the elements of a sequence. -/
def Value.encodeList : List Value → List (List Char)
  | [] => []
  | v :: vs => Value.encode v :: Value.encodeList vs
/-- The keys of a map with the texts of their values. -/
def Value.encodeMembers : List (String × Value) → List (String × List Char)
  | [] => []
  | e :: es => (e.1, Value.encode e.2) :: Value.encodeMembers es
end

mutual
/-- No string and no map key in the value holds a space character. -/
def Value.spaceFree : Value → Bool
  | .null => true
  | .bool _ => true
  | .int _ => true
  | .str s => s.data.all (fun c => decide (c ≠ ' '))
  | .bytes _ => true
  | .list xs => Value.spaceFreeList xs
  | .map es => Value.spaceFreeMembers es
/-- The elements of a sequence are free of space characters. -/
def Value.spaceFreeList : List Value → Bool
  | [] => true
  | v :: vs => Value.spaceFree v && Value.spaceFreeList vs
/-- The keys and values of a map are free of space characters. -/
def Value.spaceFreeMembers : List (String × Value) → Bool
  | [] => true
  | e :: es => e.1.data.all (fun c => decide (c ≠ ' ')) && Value.spaceFree e.2 &&
      Value.spaceFreeMembers es
end

/-- The UTF-8 bytes of a text. -/
def utf8 (cs : List Char) : List Byte :=
  cs.flatMap (fun c => (String.utf8EncodeChar c).map (fun u => byte u.toNat))

/-- The byte is one of the four JSON white-space bytes: space, tab, line feed,
carriage return. -/
def isSpaceByte (b : Byte) : Bool :=
  decide (b.val = 32) || decide (b.val = 9) || decide (b.val = 10) || decide (b.val = 13)

/-- The function `Marshal` at a value the encoder can represent: the bytes of
its canonical JSON text (the panic branch is not taken for such a value). -/
def MarshalValue (i : Value) : List Byte := utf8 (Value.encode i)

/-- The argument `i interface{}` of `NewCid`, by the case its type switch
takes: an identifier, a raw byte sequence, or any other value. -/
inductive Any where
  | cid (c : Cid)
  | bytes (b : List Byte)
  | other (v : Value)

/-- The function `NewCid`. -/
def NewCid (i : Any) : Except CidError Cid :=
  match i with
  | .cid c => .ok c
  | .bytes c => ToCid [c]
  | .other v => ToCid [MarshalValue v]

/-- The identifier text of a result of `ToCid` or `NewCid`. -/
def text (r : Except CidError Cid) : Option String :=
  match r with
  | .ok c => some c.String
  | .error _ => none

end cid

/-! ## Example values -/

namespace metamodel

open token

/-- A Model with type tag "Workflow" and nothing else. -/
def exampleWorkflow : Model :=
  { ModelType := "Workflow", Places := [], Transitions := [], Arrows := [] }

/-- A "PetriNet" Model with one place whose tokens are the two-component zero. -/
def exampleWideZero : Model :=
  { ModelType := "PetriNet"
    Places := [("p", { Offset := 0, Initial := ⟨[0, 0]⟩, Capacity := ⟨[0, 0]⟩, X := 1, Y := 2 })]
    Transitions := []
    Arrows := [] }

/-- A "PetriNet" Model with zero tokens `[0]` and no inhibitor arrows. -/
def exampleZeroNet : Model :=
  { ModelType := "PetriNet"
    Places := [("p0", { Offset := 0, Initial := ⟨[0]⟩, Capacity := ⟨[0]⟩, X := 10, Y := -20 }),
               ("p1", { Offset := 1, Initial := ⟨[0]⟩, Capacity := ⟨[0]⟩, X := 30, Y := 40 })]
    Transitions := [("t0", { X := 5, Y := 6 })]
    Arrows := [{ Source := "p0", Target := "t0", Weight := ⟨[0]⟩, Inhibit := false },
               { Source := "t0", Target := "p1", Weight := ⟨[0]⟩, Inhibit := false }] }

/-- A net with a weighted arrow and an inhibitor arrow. -/
def exampleNet : Model :=
  { ModelType := "PetriNet"
    Places := [("a", { Offset := 0, Initial := ⟨[1]⟩, Capacity := ⟨[0]⟩, X := 3, Y := -4 }),
               ("b", { Offset := 1, Initial := ⟨[0]⟩, Capacity := ⟨[7]⟩, X := 3, Y := 4 })]
    Transitions := [("t", { X := 1, Y := 2 })]
    Arrows := [{ Source := "a", Target := "t", Weight := ⟨[2]⟩, Inhibit := false },
               { Source := "b", Target := "t", Weight := ⟨[0]⟩, Inhibit := true }] }

/-- A wire object with one place that has only `x` and one arc that has only
`source`. -/
def exampleSparseWire : Json :=
  .obj [("places", .obj [("p", .obj [("x", .int 7)])]),
        ("arcs", .arr [.obj [("source", .str "p")]])]

/-- A Model whose place has two-component tokens: Initial with a zero first
component, Capacity with a non-zero one. -/
def exampleWideToken : Model :=
  { ModelType := "PetriNet"
    Places := [("p", { Offset := 0, Initial := ⟨[0, 5]⟩, Capacity := ⟨[3, 4]⟩, X := 1, Y := 2 })]
    Transitions := []
    Arrows := [] }

/-- A wire object whose place `p` has `initial: [5, "x"]`. -/
def exampleMixedArray : Json :=
  .obj [("places", .obj [("p", .obj [("initial", .arr [.int 5, .str "x"])])])]

/-- The same wire object with the `initial` key of `p` absent. -/
def exampleMixedArrayAbsent : Json :=
  .obj [("places", .obj [("p", .obj [])])]

/-- A "Workflow" Model with an empty token, a two-component token and an arrow
whose two-component weight starts with zero. -/
def exampleOddTokens : Model :=
  { ModelType := "Workflow"
    Places := [("p", { Offset := 2, Initial := ⟨[]⟩, Capacity := ⟨[3, 4]⟩, X := 1, Y := 2 })]
    Transitions := [("t", { X := 0, Y := 9 })]
    Arrows := [{ Source := "p", Target := "t", Weight := ⟨[0, 9]⟩, Inhibit := true }] }

/-- An import value with two places, one transition and two arcs. -/
def exampleImport : importModel :=
  { ModelType := "petriNet"
    Places := [("p0", { Offset := 0, Initial := 1, Capacity := 0, X := 10, Y := 20 }),
               ("p1", { Offset := 1, Initial := 0, Capacity := 3, X := 30, Y := 40 })]
    Transitions := [("t0", { X := 5, Y := 6 })]
    Arrows := [{ Source := "p0", Target := "t0", Weight := 1, Inhibit := false },
               { Source := "p1", Target := "t0", Weight := 2, Inhibit := true }] }

end metamodel

namespace cid

/-- The bytes of the text `hello`. -/
def helloBytes : List Byte := [104, 101, 108, 108, 111]

/-- The bytes of the text `a`. -/
def aBytes : List Byte := [97]

/-- The bytes of the text `ab`. -/
def abBytes : List Byte := [97, 98]

/-- The bytes of the text `bc`. -/
def bcBytes : List Byte := [98, 99]

/-- The bytes of the text `c`. -/
def cBytes : List Byte := [99]

/-- The map with entries `b: 2` and `a: 1`, iterated in that order. -/
def exampleMapBA : List (String × Value) := [("b", .int 2), ("a", .int 1)]

/-- The same map iterated in the other order. -/
def exampleMapAB : List (String × Value) := [("a", .int 1), ("b", .int 2)]

end cid

/-! ## Facts about string order and Go maps -/

theorem lexLess_irrefl (a : List Char) : lexLess a a = false := by
  induction a with
  | nil => rfl
  | cons c cs ih => simp [lexLess, ih]

theorem lexLess_trans : ∀ (a b c : List Char),
    lexLess a b = true → lexLess b c = true → lexLess a c = true
  | [], [], _, h, _ => by simp [lexLess] at h
  | [], _ :: _, [], _, h => by simp [lexLess] at h
  | [], _ :: _, _ :: _, _, _ => by simp [lexLess]
  | _ :: _, [], _, h, _ => by simp [lexLess] at h
  | _ :: _, _ :: _, [], _, h => by simp [lexLess] at h
  | x :: xs, y :: ys, z :: zs, h1, h2 => by
    simp only [lexLess] at h1 h2 ⊢
    by_cases hxy : x.toNat < y.toNat
    · by_cases hyz : y.toNat < z.toNat
      · have : x.toNat < z.toNat := by omega
        simp [this]
      · by_cases hyz2 : y.toNat = z.toNat
        · have : x.toNat < z.toNat := by omega
          simp [this]
        · simp [hyz, hyz2] at h2
    · by_cases hxy2 : x.toNat = y.toNat
      · rw [if_neg hxy, if_pos hxy2] at h1
        by_cases hyz : y.toNat < z.toNat
        · have : x.toNat < z.toNat := by omega
          simp [this]
        · by_cases hyz2 : y.toNat = z.toNat
          · rw [if_neg hyz, if_pos hyz2] at h2
            have h3 : ¬ x.toNat < z.toNat := by omega
            have h4 : x.toNat = z.toNat := by omega
            rw [if_neg h3, if_pos h4]
            exact lexLess_trans xs ys zs h1 h2
          · simp [hyz, hyz2] at h2
      · simp [hxy, hxy2] at h1

theorem lexLess_total : ∀ (a b : List Char),
    lexLess a b = true ∨ a = b ∨ lexLess b a = true
  | [], [] => by simp
  | [], _ :: _ => by simp [lexLess]
  | _ :: _, [] => by simp [lexLess]
  | x :: xs, y :: ys => by
    simp only [lexLess]
    rcases Nat.lt_trichotomy x.toNat y.toNat with h | h | h
    · simp [h]
    · have hxy : x = y := by
        rw [← Char.ofNat_toNat x, ← Char.ofNat_toNat y, h]
      subst hxy
      rcases lexLess_total xs ys with h1 | h1 | h1
      · simp [h1]
      · simp [h1]
      · simp [h1]
    · have h2 : ¬ x.toNat < y.toNat := by omega
      have h3 : ¬ x.toNat = y.toNat := by omega
      simp [h, h2, h3]

theorem keyLess_irrefl (a : String) : keyLess a a = false := lexLess_irrefl a.data

theorem keyLess_trans {a b c : String} (h1 : keyLess a b = true) (h2 : keyLess b c = true) :
    keyLess a c = true := lexLess_trans _ _ _ h1 h2

theorem keyLess_total (a b : String) : keyLess a b = true ∨ a = b ∨ keyLess b a = true := by
  rcases lexLess_total a.data b.data with h | h | h
  · exact Or.inl h
  · exact Or.inr (Or.inl (String.ext h))
  · exact Or.inr (Or.inr h)

theorem keyLess_asymm {a b : String} (h : keyLess a b = true) : keyLess b a = false := by
  cases hba : keyLess b a with
  | false => rfl
  | true => have := keyLess_trans h hba; rw [keyLess_irrefl] at this; cases this

theorem keyLess_ne {a b : String} (h : keyLess a b = true) : a ≠ b := by
  intro hab; subst hab; rw [keyLess_irrefl] at h; cases h

namespace GoMap

theorem mem_insert {V : Type} (m : GoMap V) (k : String) (v : V) (b : String × V)
    (hb : b ∈ insert m k v) : b = (k, v) ∨ b ∈ m := by
  induction m with
  | nil => simpa [insert] using hb
  | cons hd tl ih =>
    obtain ⟨k', v'⟩ := hd
    simp only [insert] at hb
    split_ifs at hb with h1 h2
    · simpa using hb
    · rcases List.mem_cons.mp hb with h | h
      · exact Or.inl h
      · exact Or.inr (List.mem_cons_of_mem _ h)
    · rcases List.mem_cons.mp hb with h | h
      · exact Or.inr (h ▸ List.mem_cons_self _ _)
      · rcases ih h with h | h
        · exact Or.inl h
        · exact Or.inr (List.mem_cons_of_mem _ h)

theorem sorted_insert {V : Type} (m : GoMap V) (k : String) (v : V) (hm : Sorted m) :
    Sorted (insert m k v) := by
  induction m with
  | nil => simp [insert, Sorted]
  | cons hd tl ih =>
    obtain ⟨k', v'⟩ := hd
    have hm' := List.pairwise_cons.mp hm
    simp only [insert]
    split_ifs with h1 h2
    · refine List.pairwise_cons.mpr ⟨?_, hm⟩
      intro b hb
      rcases List.mem_cons.mp hb with h | h
      · subst h; exact h1
      · exact keyLess_trans h1 (hm'.1 b h)
    · subst h2
      exact List.pairwise_cons.mpr ⟨hm'.1, hm'.2⟩
    · refine List.pairwise_cons.mpr ⟨?_, ih hm'.2⟩
      intro b hb
      have hk : keyLess k' k = true := by
        rcases keyLess_total k k' with h | h | h
        · exact absurd h h1
        · exact absurd h h2
        · exact h
      rcases mem_insert tl k v b hb with h | h
      · subst h; exact hk
      · exact hm'.1 b h

theorem sorted_assign {V : Type} (l : List (String × V)) (init : GoMap V) (h : Sorted init) :
    Sorted (assign init l) := by
  induction l generalizing init with
  | nil => exact h
  | cons hd tl ih => exact ih _ (sorted_insert init hd.1 hd.2 h)

theorem insert_last {V : Type} (m : GoMap V) (k : String) (v : V)
    (h : ∀ b ∈ m, keyLess b.1 k = true) : insert m k v = m ++ [(k, v)] := by
  induction m with
  | nil => rfl
  | cons hd tl ih =>
    obtain ⟨k', v'⟩ := hd
    have hk : keyLess k' k = true := h (k', v') (List.mem_cons_self _ _)
    have h1 : keyLess k k' = false := keyLess_asymm hk
    have h2 : k ≠ k' := fun e => keyLess_ne hk e.symm
    simp only [insert, h1, h2, if_false, List.cons_append, Bool.false_eq_true]
    rw [ih (fun b hb => h b (List.mem_cons_of_mem _ hb))]

theorem assign_append_sorted {V : Type} (l : List (String × V)) (init : GoMap V)
    (h : Sorted (init ++ l)) : assign init l = init ++ l := by
  induction l generalizing init with
  | nil => simp [assign]
  | cons hd tl ih =>
    have h' := List.pairwise_append.mp h
    have hlast : insert init hd.1 hd.2 = init ++ [hd] :=
      insert_last init hd.1 hd.2 (fun b hb => h'.2.2 b hb hd (List.mem_cons_self _ _))
    show assign (insert init hd.1 hd.2) tl = init ++ hd :: tl
    rw [hlast, ih (init ++ [hd]) (by simpa using h)]
    simp

theorem assign_of_sorted {V : Type} (l : GoMap V) (h : Sorted l) : assign [] l = l := by
  simpa using assign_append_sorted l [] (by simpa using h)

theorem assign_assign {V : Type} (l : List (String × V)) :
    assign [] (assign [] l) = assign [] l :=
  assign_of_sorted _ (sorted_assign l [] List.Pairwise.nil)

theorem map_insert {V W : Type} (f : V → W) (m : GoMap V) (k : String) (v : V) :
    (insert m k v).map (fun e => (e.1, f e.2)) = insert (m.map (fun e => (e.1, f e.2))) k (f v) := by
  induction m with
  | nil => rfl
  | cons hd tl ih =>
    obtain ⟨k', v'⟩ := hd
    simp only [insert, List.map_cons]
    split_ifs with h1 h2
    · rfl
    · rfl
    · simp [ih]

theorem map_assign {V W : Type} (f : V → W) (l : List (String × V)) (init : GoMap V) :
    (assign init l).map (fun e => (e.1, f e.2))
      = assign (init.map (fun e => (e.1, f e.2))) (l.map (fun e => (e.1, f e.2))) := by
  induction l generalizing init with
  | nil => rfl
  | cons hd tl ih =>
    show (assign (insert init hd.1 hd.2) tl).map _ = _
    rw [ih, map_insert]
    rfl

theorem lookup_insert {V : Type} (m : GoMap V) (k : String) (v : V) (k' : String) :
    lookup (insert m k v) k' = if k' = k then some v else lookup m k' := by
  induction m with
  | nil => simp [insert, lookup]
  | cons hd tl ih =>
    obtain ⟨k1, v1⟩ := hd
    simp only [insert]
    split_ifs <;> simp_all [lookup]

theorem lookup_assign {V : Type} (l : List (String × V)) (init : GoMap V) (k : String) :
    lookup (assign init l) k = (member l k).orElse (fun _ => lookup init k) := by
  induction l generalizing init with
  | nil => simp [assign, member]
  | cons hd tl ih =>
    show lookup (assign (insert init hd.1 hd.2) tl) k = _
    rw [ih, lookup_insert]
    simp only [member]
    cases member tl k with
    | some w => simp
    | none => by_cases hk : k = hd.1 <;> simp [hk]

end GoMap

/-! ## Closed forms of the decoding and encoding steps -/

namespace json2

theorem firstError_eq_none {α : Type} (rs : List (α × Option JsonError)) :
    firstError rs = none ↔ ∀ r ∈ rs, r.2 = none := by
  induction rs with
  | nil => simp [firstError]
  | cons hd tl ih =>
    unfold firstError at ih ⊢
    rw [List.findSome?_cons]
    cases h : hd.2 with
    | none => simp [ih, h]
    | some e => simp [h]

theorem Unmarshal_obj (kvs : List (String × Json)) :
    Unmarshal (.wellFormed (.obj kvs)) = (GoMap.assign [] kvs, none) := rfl

end json2

namespace GoMap

theorem lookup_assign_nil {V : Type} (l : List (String × V)) (k : String) :
    lookup (assign [] l) k = member l k := by
  rw [lookup_assign]; cases member l k <;> rfl

theorem sorted_map {V W : Type} (f : V → W) (m : GoMap V) (h : Sorted m) :
    Sorted (m.map (fun e => (e.1, f e.2))) := by
  unfold Sorted at *
  exact List.pairwise_map.mpr h

end GoMap

namespace metamodel

open token json2

theorem foldl_append_map {α β : Type} (f : α → β) (l : List α) (init : List β) :
    l.foldl (fun acc a => acc ++ [f a]) init = init ++ l.map f := by
  induction l generalizing init with
  | nil => simp
  | cons hd tl ih => simp [ih]

theorem ToJson_eq (m : Model) :
    ToJson m = .obj
      [("@context", .str "https://pflow.xyz/schema"),
       ("@type", .str "PetriNet"),
       ("arcs", .arr (m.Arrows.map (fun a => Json.obj (ToJson.arc a)))),
       ("places", .obj (GoMap.assign [] (m.Places.map (fun lp => (lp.1, Json.obj (ToJson.place lp.2)))))),
       ("token", .arr [.str "https://pflow.xyz/tokens/black"]),
       ("transitions", .obj (GoMap.assign []
          (m.Transitions.map (fun lt => (lt.1, Json.obj (ToJson.transition lt.2))))))] := by
  have h := foldl_append_map (fun a => Json.obj (ToJson.arc a)) m.Arrows []
  simp only [List.nil_append] at h
  show Json.obj _ = _
  simp only [h]
  rfl

theorem FromJson_obj (m : Model) (kvs : List (String × Json)) :
    FromJson m (.wellFormed (.obj kvs)) = .ok
      { ModelType := FromJson.modelType m (GoMap.assign [] kvs),
        Places := FromJson.places (GoMap.assign [] kvs),
        Transitions := FromJson.transitions (GoMap.assign [] kvs),
        Arrows := FromJson.arrows (GoMap.assign [] kvs) } := rfl

theorem UnmarshalMapOfRawMap_obj (ps : List (String × Json)) :
    UnmarshalMapOfRawMap (.obj ps)
      = (GoMap.assign [] (ps.map (fun kv => (kv.1, (UnmarshalRawMap kv.2 []).1))),
         firstError (ps.map (fun kv => UnmarshalRawMap kv.2 []))) := by
  simp [UnmarshalMapOfRawMap, List.map_map, Function.comp_def]

/-- The `places` step on an object all of whose members decode into maps. -/
theorem places_of_obj (raw : GoMap Json) (ps : List (String × Json))
    (h : raw.lookup "places" = some (.obj ps))
    (hok : ∀ kv ∈ ps, (UnmarshalRawMap kv.2 []).2 = none) :
    FromJson.places raw
      = GoMap.assign [] (ps.map (fun kv => (kv.1, FromJson.place (UnmarshalRawMap kv.2 []).1))) := by
  have herr : firstError (ps.map (fun kv => UnmarshalRawMap kv.2 [])) = none := by
    rw [firstError_eq_none]
    intro r hr
    obtain ⟨kv, hkv, rfl⟩ := List.mem_map.mp hr
    exact hok kv hkv
  simp only [FromJson.places, h, UnmarshalMapOfRawMap_obj, herr]
  have := GoMap.map_assign FromJson.place
    (ps.map (fun kv => (kv.1, (UnmarshalRawMap kv.2 []).1))) []
  simp only [List.map_nil, List.map_map, Function.comp_def] at this
  rw [this, GoMap.assign_assign]

/-- The `transitions` step on an object all of whose members decode into maps. -/
theorem transitions_of_obj (raw : GoMap Json) (ts : List (String × Json))
    (h : raw.lookup "transitions" = some (.obj ts))
    (hok : ∀ kv ∈ ts, (UnmarshalRawMap kv.2 []).2 = none) :
    FromJson.transitions raw
      = GoMap.assign []
          (ts.map (fun kv => (kv.1, FromJson.transition (UnmarshalRawMap kv.2 []).1))) := by
  have herr : firstError (ts.map (fun kv => UnmarshalRawMap kv.2 [])) = none := by
    rw [firstError_eq_none]
    intro r hr
    obtain ⟨kv, hkv, rfl⟩ := List.mem_map.mp hr
    exact hok kv hkv
  simp only [FromJson.transitions, h, UnmarshalMapOfRawMap_obj, herr]
  have := GoMap.map_assign FromJson.transition
    (ts.map (fun kv => (kv.1, (UnmarshalRawMap kv.2 []).1))) []
  simp only [List.map_nil, List.map_map, Function.comp_def] at this
  rw [this, GoMap.assign_assign]

/-- The `arcs` step on an array all of whose elements decode into maps. -/
theorem arrows_of_arr (raw : GoMap Json) (xs : List Json)
    (h : raw.lookup "arcs" = some (.arr xs))
    (hok : ∀ x ∈ xs, (UnmarshalRawMap x []).2 = none) :
    FromJson.arrows raw = xs.map (fun x => FromJson.arc (UnmarshalRawMap x []).1) := by
  have herr : firstError (xs.map (fun x => UnmarshalRawMap x [])) = none := by
    rw [firstError_eq_none]
    intro r hr
    obtain ⟨x, hx, rfl⟩ := List.mem_map.mp hr
    exact hok x hx
  simp only [FromJson.arrows, h, UnmarshalRawMapSlice, herr, foldl_append_map,
    List.nil_append, List.map_map, Function.comp_def]

/-! ## What `ToJson` writes for one entry -/

theorem sorted_ToJson_place (p : Place) : GoMap.Sorted (ToJson.place p) := by
  unfold ToJson.place
  have h0 : GoMap.Sorted (GoMap.assign ([] : GoMap Json)
      [("@type", .str "Place"), ("offset", .int p.Offset), ("x", .int p.X), ("y", .int p.Y)]) :=
    GoMap.sorted_assign _ _ List.Pairwise.nil
  cases ToJson.head p.Initial <;> cases ToJson.head p.Capacity <;>
    simp only <;> first
      | exact h0
      | exact GoMap.sorted_insert _ _ _ h0
      | exact GoMap.sorted_insert _ _ _ (GoMap.sorted_insert _ _ _ h0)

theorem sorted_ToJson_transition (t : Transition) : GoMap.Sorted (ToJson.transition t) :=
  GoMap.sorted_assign _ _ List.Pairwise.nil

theorem sorted_ToJson_arc (a : Arrow) : GoMap.Sorted (ToJson.arc a) := by
  unfold ToJson.arc
  have h0 : GoMap.Sorted (GoMap.assign ([] : GoMap Json)
      [("@type", .str "Arrow"), ("source", .str a.Source), ("target", .str a.Target)]) :=
    GoMap.sorted_assign _ _ List.Pairwise.nil
  cases ToJson.head a.Weight <;> cases a.Inhibit <;>
    simp only <;> first
      | exact h0
      | exact GoMap.sorted_insert _ _ _ h0
      | exact GoMap.sorted_insert _ _ _ (GoMap.sorted_insert _ _ _ h0)

theorem lookup_place_offset (p : Place) :
    (ToJson.place p).lookup "offset" = some (.int p.Offset) := by
  unfold ToJson.place
  cases ToJson.head p.Initial <;> cases ToJson.head p.Capacity <;>
    simp [GoMap.lookup_insert, GoMap.lookup_assign_nil, GoMap.member]

theorem lookup_place_x (p : Place) : (ToJson.place p).lookup "x" = some (.int p.X) := by
  unfold ToJson.place
  cases ToJson.head p.Initial <;> cases ToJson.head p.Capacity <;>
    simp [GoMap.lookup_insert, GoMap.lookup_assign_nil, GoMap.member]

theorem lookup_place_y (p : Place) : (ToJson.place p).lookup "y" = some (.int p.Y) := by
  unfold ToJson.place
  cases ToJson.head p.Initial <;> cases ToJson.head p.Capacity <;>
    simp [GoMap.lookup_insert, GoMap.lookup_assign_nil, GoMap.member]

theorem lookup_place_initial (p : Place) :
    (ToJson.place p).lookup "initial"
      = (ToJson.head p.Initial).map (fun v => Json.arr [.int v]) := by
  unfold ToJson.place
  cases ToJson.head p.Initial <;> cases ToJson.head p.Capacity <;>
    simp [GoMap.lookup_insert, GoMap.lookup_assign_nil, GoMap.member]

theorem lookup_place_capacity (p : Place) :
    (ToJson.place p).lookup "capacity"
      = (ToJson.head p.Capacity).map (fun v => Json.arr [.int v]) := by
  unfold ToJson.place
  cases ToJson.head p.Initial <;> cases ToJson.head p.Capacity <;>
    simp [GoMap.lookup_insert, GoMap.lookup_assign_nil, GoMap.member]

theorem lookup_transition_x (t : Transition) :
    (ToJson.transition t).lookup "x" = some (.int t.X) := by
  simp [ToJson.transition, GoMap.lookup_assign_nil, GoMap.member]

theorem lookup_transition_y (t : Transition) :
    (ToJson.transition t).lookup "y" = some (.int t.Y) := by
  simp [ToJson.transition, GoMap.lookup_assign_nil, GoMap.member]

theorem lookup_arc_source (a : Arrow) :
    (ToJson.arc a).lookup "source" = some (.str a.Source) := by
  unfold ToJson.arc
  cases ToJson.head a.Weight <;> cases a.Inhibit <;>
    simp [GoMap.lookup_insert, GoMap.lookup_assign_nil, GoMap.member]

theorem lookup_arc_target (a : Arrow) :
    (ToJson.arc a).lookup "target" = some (.str a.Target) := by
  unfold ToJson.arc
  cases ToJson.head a.Weight <;> cases a.Inhibit <;>
    simp [GoMap.lookup_insert, GoMap.lookup_assign_nil, GoMap.member]

theorem lookup_arc_weight (a : Arrow) :
    (ToJson.arc a).lookup "weight"
      = (ToJson.head a.Weight).map (fun v => Json.arr [.int v]) := by
  unfold ToJson.arc
  cases ToJson.head a.Weight <;> cases a.Inhibit <;>
    simp [GoMap.lookup_insert, GoMap.lookup_assign_nil, GoMap.member]

theorem lookup_arc_inhibit (a : Arrow) :
    (ToJson.arc a).lookup "inhibitTransition"
      = if a.Inhibit then some (.bool true) else none := by
  unfold ToJson.arc
  cases ToJson.head a.Weight <;> cases a.Inhibit <;>
    simp [GoMap.lookup_insert, GoMap.lookup_assign_nil, GoMap.member]

/-! ## Decoding what `ToJson` wrote for one entry -/

theorem head_mem (t : Token) (v : Int) (h : ToJson.head t = some v) : v ∈ t.Value ∧ v ≠ 0 := by
  unfold ToJson.head at h
  cases hv : t.Value with
  | nil => rw [hv] at h; cases h
  | cons a as =>
    rw [hv] at h
    simp only at h
    split_ifs at h with h0
    cases h
    exact ⟨List.mem_cons_self _ _, h0⟩

/-- The token read back from what `ToJson` writes for `t`: its first component
when that is non-zero, else zero. -/
theorem token_decode_encode (t : Token) (h : t.InRange) :
    (if ((match (ToJson.head t).map (fun v => Json.arr [.int v]) with
          | some bv => (UnmarshalInt64Slice bv []).1
          | none => []) : List Int).length > 0
     then (⟨match (ToJson.head t).map (fun v => Json.arr [.int v]) with
          | some bv => (UnmarshalInt64Slice bv []).1
          | none => []⟩ : Token)
     else ⟨[0]⟩) = ⟨[(ToJson.head t).getD 0]⟩ := by
  cases hh : ToJson.head t with
  | none => simp
  | some v =>
    have hv := h v (head_mem t v hh).1
    simp [UnmarshalInt64Slice, UnmarshalInt, hv]

theorem place_decode_encode (p : Place) (h : p.WF) :
    FromJson.place (ToJson.place p)
      = { p with Initial := ⟨[(ToJson.head p.Initial).getD 0]⟩,
                 Capacity := ⟨[(ToJson.head p.Capacity).getD 0]⟩ } := by
  obtain ⟨ho, hx, hy, hi, hc⟩ := h
  unfold FromJson.place
  simp only [lookup_place_offset, lookup_place_x, lookup_place_y, lookup_place_initial,
    lookup_place_capacity, token_decode_encode _ hi, token_decode_encode _ hc]
  simp [UnmarshalInt, ho, hx, hy]

theorem transition_decode_encode (t : Transition) (h : t.WF) :
    FromJson.transition (ToJson.transition t) = t := by
  obtain ⟨hx, hy⟩ := h
  unfold FromJson.transition
  simp [lookup_transition_x, lookup_transition_y, UnmarshalInt, hx, hy]

theorem arc_decode_encode (a : Arrow) (h : a.Weight.InRange) :
    FromJson.arc (ToJson.arc a) = { a with Weight := ⟨[(ToJson.head a.Weight).getD 0]⟩ } := by
  unfold FromJson.arc
  simp only [lookup_arc_source, lookup_arc_target, lookup_arc_weight, lookup_arc_inhibit,
    token_decode_encode _ h]
  cases hI : a.Inhibit <;> simp [UnmarshalString, UnmarshalBool, hI]

theorem head_singleton (t : Token) (h : isSingleton t = true) :
    (⟨[(ToJson.head t).getD 0]⟩ : Token) = t := by
  obtain ⟨vs⟩ := t
  match vs, h with
  | [v], _ =>
    by_cases hv : v = 0 <;> simp [ToJson.head, hv]

/-! ## Decoding what `ToJson` wrote for a Model -/

theorem lookup_out (m : Model) (k : String) :
    (GoMap.assign []
      [("@context", Json.str "https://pflow.xyz/schema"),
       ("@type", .str "PetriNet"),
       ("arcs", .arr (m.Arrows.map (fun a => Json.obj (ToJson.arc a)))),
       ("places", .obj (GoMap.assign [] (m.Places.map (fun lp => (lp.1, Json.obj (ToJson.place lp.2)))))),
       ("token", .arr [.str "https://pflow.xyz/tokens/black"]),
       ("transitions", .obj (GoMap.assign []
          (m.Transitions.map (fun lt => (lt.1, Json.obj (ToJson.transition lt.2))))))]).lookup k
    = if k = "transitions" then some (.obj (GoMap.assign []
          (m.Transitions.map (fun lt => (lt.1, Json.obj (ToJson.transition lt.2))))))
      else if k = "token" then some (.arr [.str "https://pflow.xyz/tokens/black"])
      else if k = "places" then some (.obj (GoMap.assign []
          (m.Places.map (fun lp => (lp.1, Json.obj (ToJson.place lp.2))))))
      else if k = "arcs" then some (.arr (m.Arrows.map (fun a => Json.obj (ToJson.arc a))))
      else if k = "@type" then some (.str "PetriNet")
      else if k = "@context" then some (.str "https://pflow.xyz/schema")
      else none := by
  rw [GoMap.lookup_assign_nil]
  simp only [GoMap.member]
  split_ifs <;> rfl

theorem arrows_decode_encode (m : Model) (kvs : List (String × Json))
    (h : ToJson m = .obj kvs) :
    FromJson.arrows (GoMap.assign [] kvs)
      = m.Arrows.map (fun a => FromJson.arc (ToJson.arc a)) := by
  rw [ToJson_eq] at h
  cases h
  rw [arrows_of_arr _ (m.Arrows.map (fun a => Json.obj (ToJson.arc a)))
        (by rw [lookup_out]; simp)
        (by intro x hx; obtain ⟨a, _, rfl⟩ := List.mem_map.mp hx; rfl)]
  rw [List.map_map]
  apply List.map_congr_left
  intro a _
  show FromJson.arc (GoMap.assign [] (ToJson.arc a)) = _
  rw [GoMap.assign_of_sorted _ (sorted_ToJson_arc a)]

theorem places_decode_encode (m : Model) (kvs : List (String × Json))
    (h : ToJson m = .obj kvs) (hs : GoMap.Sorted m.Places) :
    FromJson.places (GoMap.assign [] kvs)
      = m.Places.map (fun e => (e.1, FromJson.place (ToJson.place e.2))) := by
  rw [ToJson_eq] at h
  cases h
  rw [places_of_obj _ (GoMap.assign [] (m.Places.map (fun lp => (lp.1, Json.obj (ToJson.place lp.2)))))
        (by rw [lookup_out]; simp)
        (by
          rw [GoMap.assign_of_sorted _ (GoMap.sorted_map (fun p => Json.obj (ToJson.place p)) _ hs)]
          intro x hx; obtain ⟨a, _, rfl⟩ := List.mem_map.mp hx; rfl)]
  rw [GoMap.assign_of_sorted _ (GoMap.sorted_map (fun p => Json.obj (ToJson.place p)) _ hs),
    List.map_map]
  have : (fun kv : String × Json => (kv.1, FromJson.place (UnmarshalRawMap kv.2 []).1)) ∘
      (fun lp : String × Place => (lp.1, Json.obj (ToJson.place lp.2)))
      = fun e => (e.1, FromJson.place (ToJson.place e.2)) := by
    funext e
    show (e.1, FromJson.place (GoMap.assign [] (ToJson.place e.2))) = _
    rw [GoMap.assign_of_sorted _ (sorted_ToJson_place e.2)]
  rw [this]
  exact GoMap.assign_of_sorted _
    (GoMap.sorted_map (fun p => FromJson.place (ToJson.place p)) _ hs)

theorem transitions_decode_encode (m : Model) (kvs : List (String × Json))
    (h : ToJson m = .obj kvs) (hs : GoMap.Sorted m.Transitions) :
    FromJson.transitions (GoMap.assign [] kvs)
      = m.Transitions.map (fun e => (e.1, FromJson.transition (ToJson.transition e.2))) := by
  rw [ToJson_eq] at h
  cases h
  rw [transitions_of_obj _
        (GoMap.assign [] (m.Transitions.map (fun lt => (lt.1, Json.obj (ToJson.transition lt.2)))))
        (by rw [lookup_out]; simp)
        (by
          rw [GoMap.assign_of_sorted _ (GoMap.sorted_map (fun t => Json.obj (ToJson.transition t)) _ hs)]
          intro x hx; obtain ⟨a, _, rfl⟩ := List.mem_map.mp hx; rfl)]
  rw [GoMap.assign_of_sorted _ (GoMap.sorted_map (fun t => Json.obj (ToJson.transition t)) _ hs),
    List.map_map]
  have : (fun kv : String × Json => (kv.1, FromJson.transition (UnmarshalRawMap kv.2 []).1)) ∘
      (fun lp : String × Transition => (lp.1, Json.obj (ToJson.transition lp.2)))
      = fun e => (e.1, FromJson.transition (ToJson.transition e.2)) := by
    funext e
    show (e.1, FromJson.transition (GoMap.assign [] (ToJson.transition e.2))) = _
    rw [GoMap.assign_of_sorted _ (sorted_ToJson_transition e.2)]
  rw [this]
  exact GoMap.assign_of_sorted _
    (GoMap.sorted_map (fun t => FromJson.transition (ToJson.transition t)) _ hs)

/-- Decoding the output of `ToJson` for a well-formed Model, into any receiver. -/
theorem decode_encode (m r : Model) (h : m.WF) :
    FromJson r (.wellFormed (ToJson m)) = .ok
      { ModelType := "PetriNet",
        Places := m.Places.map (fun e => (e.1, e.2.readBack)),
        Transitions := m.Transitions,
        Arrows := m.Arrows.map Arrow.readBack } := by
  obtain ⟨hsp, hst, hp, ht, ha⟩ := h
  obtain ⟨kvs, hk⟩ : ∃ kvs, ToJson m = .obj kvs := ⟨_, ToJson_eq m⟩
  rw [hk, FromJson_obj, places_decode_encode m kvs hk hsp, transitions_decode_encode m kvs hk hst,
    arrows_decode_encode m kvs hk]
  have hty : FromJson.modelType r (GoMap.assign [] kvs) = "PetriNet" := by
    rw [ToJson_eq] at hk
    cases hk
    unfold FromJson.modelType
    rw [lookup_out]
    simp [UnmarshalString]
  have hpl : m.Places.map (fun e => (e.1, FromJson.place (ToJson.place e.2)))
      = m.Places.map (fun e => (e.1, e.2.readBack)) :=
    List.map_congr_left (fun e he => by rw [place_decode_encode e.2 (hp e he)]; rfl)
  have htr : m.Transitions.map (fun e => (e.1, FromJson.transition (ToJson.transition e.2)))
      = m.Transitions := by
    conv_rhs => rw [← List.map_id m.Transitions]
    exact List.map_congr_left (fun e he => by rw [transition_decode_encode e.2 (ht e he)]; rfl)
  have har : m.Arrows.map (fun a => FromJson.arc (ToJson.arc a)) = m.Arrows.map Arrow.readBack :=
    List.map_congr_left (fun a ha' => by rw [arc_decode_encode a (ha a ha')]; rfl)
  rw [hty, hpl, htr, har]

/-! ## Decoding an arbitrary wire object -/

theorem member_map {V W : Type} (f : V → W) (l : List (String × V)) (k : String) :
    GoMap.member (l.map (fun e => (e.1, f e.2))) k = (GoMap.member l k).map f := by
  induction l with
  | nil => rfl
  | cons hd tl ih =>
    simp only [List.map_cons, GoMap.member, ih]
    cases GoMap.member tl k with
    | some w => rfl
    | none => by_cases hk : k = hd.1 <;> simp [hk]

theorem member_eq_none_of_any {V : Type} (l : List (String × V)) (k : String)
    (h : l.any (fun kv => decide (kv.1 = k)) = false) : GoMap.member l k = none := by
  induction l with
  | nil => rfl
  | cons hd tl ih =>
    simp only [List.any_cons, Bool.or_eq_false_iff, decide_eq_false_iff_not] at h
    have hne : ¬ k = hd.1 := fun e => h.1 e.symm
    simp [GoMap.member, ih h.2, hne]

theorem lookup_unmarshal_none (entry : Json) (k : String) (h : entry.hasKey k = false) :
    (UnmarshalRawMap entry []).1.lookup k = none := by
  cases entry with
  | obj kvs =>
    show (GoMap.assign [] kvs).lookup k = none
    rw [GoMap.lookup_assign_nil]
    exact member_eq_none_of_any kvs k h
  | _ => rfl

theorem places_of_obj_err (raw : GoMap Json) (ps : List (String × Json))
    (h : raw.lookup "places" = some (.obj ps))
    (hbad : ¬ ∀ kv ∈ ps, (UnmarshalRawMap kv.2 []).2 = none) :
    FromJson.places raw = [] := by
  cases hfe : firstError (ps.map (fun kv => UnmarshalRawMap kv.2 [])) with
  | none =>
    exfalso
    apply hbad
    intro kv hkv
    exact (firstError_eq_none _).mp hfe _ (List.mem_map.mpr ⟨kv, hkv, rfl⟩)
  | some e => simp only [FromJson.places, h, UnmarshalMapOfRawMap_obj, hfe]

theorem transitions_of_obj_err (raw : GoMap Json) (ts : List (String × Json))
    (h : raw.lookup "transitions" = some (.obj ts))
    (hbad : ¬ ∀ kv ∈ ts, (UnmarshalRawMap kv.2 []).2 = none) :
    FromJson.transitions raw = [] := by
  cases hfe : firstError (ts.map (fun kv => UnmarshalRawMap kv.2 [])) with
  | none =>
    exfalso
    apply hbad
    intro kv hkv
    exact (firstError_eq_none _).mp hfe _ (List.mem_map.mpr ⟨kv, hkv, rfl⟩)
  | some e => simp only [FromJson.transitions, h, UnmarshalMapOfRawMap_obj, hfe]

theorem arrows_of_arr_err (raw : GoMap Json) (xs : List Json)
    (h : raw.lookup "arcs" = some (.arr xs))
    (hbad : ¬ ∀ x ∈ xs, (UnmarshalRawMap x []).2 = none) :
    FromJson.arrows raw = [] := by
  cases hfe : firstError (xs.map (fun x => UnmarshalRawMap x [])) with
  | none =>
    exfalso
    apply hbad
    intro x hx
    exact (firstError_eq_none _).mp hfe _ (List.mem_map.mpr ⟨x, hx, rfl⟩)
  | some e => simp only [FromJson.arrows, h, UnmarshalRawMapSlice, hfe]

/-- Every decoded place comes from the member of that label in the wire object. -/
theorem places_lookup (raw : GoMap Json) (ps : List (String × Json))
    (h : raw.lookup "places" = some (.obj ps)) (label : String) (pl : Place)
    (hl : (FromJson.places raw).lookup label = some pl) :
    ∃ entry, GoMap.member ps label = some entry ∧
      pl = FromJson.place (UnmarshalRawMap entry []).1 := by
  by_cases hok : ∀ kv ∈ ps, (UnmarshalRawMap kv.2 []).2 = none
  · rw [places_of_obj raw ps h hok, GoMap.lookup_assign_nil,
      member_map (fun j => FromJson.place (UnmarshalRawMap j []).1)] at hl
    cases hm : GoMap.member ps label with
    | none => rw [hm] at hl; cases hl
    | some entry =>
      rw [hm] at hl
      exact ⟨entry, rfl, by simpa using hl.symm⟩
  · rw [places_of_obj_err raw ps h hok] at hl
    cases hl

/-- Every decoded arrow comes from the array element at its index. -/
theorem arrows_get (raw : GoMap Json) (xs : List Json)
    (h : raw.lookup "arcs" = some (.arr xs)) (i : Nat) (a : Arrow)
    (hl : (FromJson.arrows raw)[i]? = some a) :
    ∃ entry, xs[i]? = some entry ∧ a = FromJson.arc (UnmarshalRawMap entry []).1 := by
  by_cases hok : ∀ x ∈ xs, (UnmarshalRawMap x []).2 = none
  · rw [arrows_of_arr raw xs h hok, List.getElem?_map] at hl
    cases hm : xs[i]? with
    | none => rw [hm] at hl; cases hl
    | some entry =>
      rw [hm] at hl
      exact ⟨entry, rfl, by simpa using hl.symm⟩
  · rw [arrows_of_arr_err raw xs h hok] at hl
    cases hl

theorem place_initial_default (p : GoMap Json) (h : p.lookup "initial" = none) :
    (FromJson.place p).Initial = ⟨[0]⟩ := by
  simp [FromJson.place, h]

theorem place_capacity_default (p : GoMap Json) (h : p.lookup "capacity" = none) :
    (FromJson.place p).Capacity = ⟨[0]⟩ := by
  simp [FromJson.place, h]

theorem arc_weight_default (a : GoMap Json) (h : a.lookup "weight" = none) :
    (FromJson.arc a).Weight = ⟨[0]⟩ := by
  simp [FromJson.arc, h]

theorem arc_inhibit_default (a : GoMap Json) (h : a.lookup "inhibitTransition" = none) :
    (FromJson.arc a).Inhibit = false := by
  simp [FromJson.arc, h]

/-! ## Fields that the decoder does not take into account -/

theorem member_filter {V : Type} (l : List (String × V)) (k k' : String) :
    GoMap.member (l.filter (fun kv => decide (kv.1 ≠ k))) k'
      = if k' = k then none else GoMap.member l k' := by
  induction l with
  | nil => simp [GoMap.member]
  | cons hd tl ih =>
    by_cases hk : hd.1 = k
    · have : (hd :: tl).filter (fun kv => decide (kv.1 ≠ k)) = tl.filter (fun kv => decide (kv.1 ≠ k)) := by
        simp [List.filter_cons, hk]
      rw [this, ih]
      by_cases hk' : k' = k
      · simp [hk']
      · have hne : ¬ k' = hd.1 := fun e => hk' (e.trans hk)
        simp only [hk', if_false, GoMap.member, hne]
        cases GoMap.member tl k' <;> rfl
    · have : (hd :: tl).filter (fun kv => decide (kv.1 ≠ k))
          = hd :: tl.filter (fun kv => decide (kv.1 ≠ k)) := by
        simp [List.filter_cons, hk]
      rw [this]
      simp only [GoMap.member, ih]
      by_cases hk' : k' = k
      · subst hk'
        have hne : ¬ k' = hd.1 := fun e => hk e.symm
        simp [hne]
      · simp [hk']

theorem lookup_without (fields : List (String × Json)) (k k' : String) :
    (UnmarshalRawMap ((Json.obj fields).without k) []).1.lookup k'
      = if k' = k then none else (UnmarshalRawMap (.obj fields) []).1.lookup k' := by
  show (GoMap.assign [] (fields.filter (fun kv => decide (kv.1 ≠ k)))).lookup k'
    = if k' = k then none else (GoMap.assign [] fields).lookup k'
  rw [GoMap.lookup_assign_nil, GoMap.lookup_assign_nil, member_filter]

theorem lookup_unmarshal_obj (fields : List (String × Json)) (k : String) :
    (UnmarshalRawMap (.obj fields) []).1.lookup k = GoMap.member fields k :=
  GoMap.lookup_assign_nil fields k

theorem error_without (entry : Json) (k : String) :
    (UnmarshalRawMap (entry.without k) []).2 = (UnmarshalRawMap entry []).2 := by
  cases entry <;> rfl

theorem unmarshalInt_misfit (v : Json) (h : v.isInt64 = false) : (UnmarshalInt v 0).1 = 0 := by
  cases v <;> first | rfl | (simp only [Json.isInt64] at h; simp [UnmarshalInt, h])

theorem unmarshalSlice_misfit (v : Json) (h : v.isArray = false) :
    (UnmarshalInt64Slice v []).1 = [] := by
  cases v <;> first | rfl | cases h

theorem unmarshalString_misfit (v : Json) (h : v.isString = false) :
    (UnmarshalString v "").1 = "" := by
  cases v <;> first | rfl | cases h

theorem unmarshalBool_misfit (v : Json) (h : v.isBool = false) :
    (UnmarshalBool v false).1 = false := by
  cases v <;> first | rfl | cases h

/-- A place entry decodes the same with and without the key `k` when `k` is
not a key the decoder reads, or when its value does not fit the field. -/
theorem place_without (fields : List (String × Json)) (k : String)
    (h : k ∉ FromJson.placeKeys ∨
      ∃ bad, GoMap.member fields k = some bad ∧ FromJson.placeFieldFits k bad = false) :
    FromJson.place (UnmarshalRawMap ((Json.obj fields).without k) []).1
      = FromJson.place (UnmarshalRawMap (.obj fields) []).1 := by
  unfold FromJson.place
  simp only [lookup_without]
  rcases h with h | ⟨bad, hb, hfit⟩
  · simp only [FromJson.placeKeys, List.mem_cons, List.mem_singleton, List.not_mem_nil,
      or_false, not_or] at h
    obtain ⟨h1, h2, h3, h4, h5⟩ := h
    simp [Ne.symm h1, Ne.symm h2, Ne.symm h3, Ne.symm h4, Ne.symm h5]
  · have hl := lookup_unmarshal_obj fields k
    rw [hb] at hl
    unfold FromJson.placeFieldFits at hfit
    by_cases k1 : k = "offset"
    · subst k1
      simp only [true_or, if_true] at hfit
      simp [hl, unmarshalInt_misfit bad hfit]
    by_cases k2 : k = "x"
    · subst k2
      simp only [true_or, or_true, if_true] at hfit
      simp [hl, unmarshalInt_misfit bad hfit]
    by_cases k3 : k = "y"
    · subst k3
      simp only [or_true, if_true] at hfit
      simp [hl, unmarshalInt_misfit bad hfit]
    by_cases k4 : k = "initial"
    · subst k4
      simp at hfit
      simp [hl, unmarshalSlice_misfit bad hfit]
    by_cases k5 : k = "capacity"
    · subst k5
      simp at hfit
      simp [hl, unmarshalSlice_misfit bad hfit]
    simp [k1, k2, k3, k4, k5] at hfit

theorem transition_without (fields : List (String × Json)) (k : String)
    (h : k ∉ FromJson.transitionKeys ∨
      ∃ bad, GoMap.member fields k = some bad ∧ FromJson.transitionFieldFits k bad = false) :
    FromJson.transition (UnmarshalRawMap ((Json.obj fields).without k) []).1
      = FromJson.transition (UnmarshalRawMap (.obj fields) []).1 := by
  unfold FromJson.transition
  simp only [lookup_without]
  rcases h with h | ⟨bad, hb, hfit⟩
  · simp only [FromJson.transitionKeys, List.mem_cons, List.mem_singleton, List.not_mem_nil,
      or_false, not_or] at h
    obtain ⟨h1, h2⟩ := h
    simp [Ne.symm h1, Ne.symm h2]
  · have hl := lookup_unmarshal_obj fields k
    rw [hb] at hl
    unfold FromJson.transitionFieldFits at hfit
    by_cases k1 : k = "x"
    · subst k1
      simp only [true_or, if_true] at hfit
      simp [hl, unmarshalInt_misfit bad hfit]
    by_cases k2 : k = "y"
    · subst k2
      simp only [or_true, if_true] at hfit
      simp [hl, unmarshalInt_misfit bad hfit]
    simp [k1, k2] at hfit

theorem arc_without (fields : List (String × Json)) (k : String)
    (h : k ∉ FromJson.arcKeys ∨
      ∃ bad, GoMap.member fields k = some bad ∧ FromJson.arcFieldFits k bad = false) :
    FromJson.arc (UnmarshalRawMap ((Json.obj fields).without k) []).1
      = FromJson.arc (UnmarshalRawMap (.obj fields) []).1 := by
  unfold FromJson.arc
  simp only [lookup_without]
  rcases h with h | ⟨bad, hb, hfit⟩
  · simp only [FromJson.arcKeys, List.mem_cons, List.mem_singleton, List.not_mem_nil,
      or_false, not_or] at h
    obtain ⟨h1, h2, h3, h4⟩ := h
    simp [Ne.symm h1, Ne.symm h2, Ne.symm h3, Ne.symm h4]
  · have hl := lookup_unmarshal_obj fields k
    rw [hb] at hl
    unfold FromJson.arcFieldFits at hfit
    by_cases k1 : k = "source"
    · subst k1
      simp only [true_or, if_true] at hfit
      simp [hl, unmarshalString_misfit bad hfit]
    by_cases k2 : k = "target"
    · subst k2
      simp only [or_true, if_true] at hfit
      simp [hl, unmarshalString_misfit bad hfit]
    by_cases k3 : k = "weight"
    · subst k3
      simp at hfit
      simp [hl, unmarshalSlice_misfit bad hfit]
    by_cases k4 : k = "inhibitTransition"
    · subst k4
      simp at hfit
      simp [hl, unmarshalBool_misfit bad hfit]
    simp [k1, k2, k3, k4] at hfit

/-! ## Replacing one entry of the wire object -/

theorem FromJson_congr (m : Model) (top top' : List (String × Json))
    (hty : GoMap.member top' "@type" = GoMap.member top "@type")
    (hp : FromJson.places (GoMap.assign [] top') = FromJson.places (GoMap.assign [] top))
    (ht : FromJson.transitions (GoMap.assign [] top') = FromJson.transitions (GoMap.assign [] top))
    (ha : FromJson.arrows (GoMap.assign [] top') = FromJson.arrows (GoMap.assign [] top)) :
    FromJson m (.wellFormed (.obj top')) = FromJson m (.wellFormed (.obj top)) := by
  rw [FromJson_obj, FromJson_obj, hp, ht, ha]
  have : FromJson.modelType m (GoMap.assign [] top') = FromJson.modelType m (GoMap.assign [] top) := by
    unfold FromJson.modelType
    rw [GoMap.lookup_assign_nil, GoMap.lookup_assign_nil, hty]
  rw [this]

theorem places_of_member (top top' : List (String × Json))
    (h : GoMap.member top' "places" = GoMap.member top "places") :
    FromJson.places (GoMap.assign [] top') = FromJson.places (GoMap.assign [] top) := by
  unfold FromJson.places
  rw [GoMap.lookup_assign_nil, GoMap.lookup_assign_nil, h]

theorem transitions_of_member (top top' : List (String × Json))
    (h : GoMap.member top' "transitions" = GoMap.member top "transitions") :
    FromJson.transitions (GoMap.assign [] top') = FromJson.transitions (GoMap.assign [] top) := by
  unfold FromJson.transitions
  rw [GoMap.lookup_assign_nil, GoMap.lookup_assign_nil, h]

theorem arrows_of_member (top top' : List (String × Json))
    (h : GoMap.member top' "arcs" = GoMap.member top "arcs") :
    FromJson.arrows (GoMap.assign [] top') = FromJson.arrows (GoMap.assign [] top) := by
  unfold FromJson.arrows
  rw [GoMap.lookup_assign_nil, GoMap.lookup_assign_nil, h]

/-- The `places` step gives the same result when one member of `places` is
replaced by a value that decodes to the same place with the same error. -/
theorem places_replace (raw raw' : GoMap Json) (pre post : List (String × Json))
    (label : String) (entry entry' : Json)
    (h : raw.lookup "places" = some (.obj (pre ++ (label, entry) :: post)))
    (h' : raw'.lookup "places" = some (.obj (pre ++ (label, entry') :: post)))
    (herr : (UnmarshalRawMap entry' []).2 = (UnmarshalRawMap entry []).2)
    (hpl : FromJson.place (UnmarshalRawMap entry' []).1
      = FromJson.place (UnmarshalRawMap entry []).1) :
    FromJson.places raw' = FromJson.places raw := by
  by_cases hok : ∀ kv ∈ pre ++ (label, entry) :: post, (UnmarshalRawMap kv.2 []).2 = none
  · have hok' : ∀ kv ∈ pre ++ (label, entry') :: post, (UnmarshalRawMap kv.2 []).2 = none := by
      intro kv hkv
      rcases List.mem_append.mp hkv with hm | hm
      · exact hok kv (List.mem_append_left _ hm)
      · rcases List.mem_cons.mp hm with hm | hm
        · subst hm
          rw [herr]
          exact hok (label, entry) (List.mem_append_right _ (List.mem_cons_self _ _))
        · exact hok kv (List.mem_append_right _ (List.mem_cons_of_mem _ hm))
    rw [places_of_obj raw _ h hok, places_of_obj raw' _ h' hok']
    simp only [List.map_append, List.map_cons, hpl]
  · have hok' : ¬ ∀ kv ∈ pre ++ (label, entry') :: post, (UnmarshalRawMap kv.2 []).2 = none := by
      intro hall
      apply hok
      intro kv hkv
      rcases List.mem_append.mp hkv with hm | hm
      · exact hall kv (List.mem_append_left _ hm)
      · rcases List.mem_cons.mp hm with hm | hm
        · subst hm
          rw [← herr]
          exact hall (label, entry') (List.mem_append_right _ (List.mem_cons_self _ _))
        · exact hall kv (List.mem_append_right _ (List.mem_cons_of_mem _ hm))
    rw [places_of_obj_err raw _ h hok, places_of_obj_err raw' _ h' hok']

theorem transitions_replace (raw raw' : GoMap Json) (pre post : List (String × Json))
    (label : String) (entry entry' : Json)
    (h : raw.lookup "transitions" = some (.obj (pre ++ (label, entry) :: post)))
    (h' : raw'.lookup "transitions" = some (.obj (pre ++ (label, entry') :: post)))
    (herr : (UnmarshalRawMap entry' []).2 = (UnmarshalRawMap entry []).2)
    (hpl : FromJson.transition (UnmarshalRawMap entry' []).1
      = FromJson.transition (UnmarshalRawMap entry []).1) :
    FromJson.transitions raw' = FromJson.transitions raw := by
  by_cases hok : ∀ kv ∈ pre ++ (label, entry) :: post, (UnmarshalRawMap kv.2 []).2 = none
  · have hok' : ∀ kv ∈ pre ++ (label, entry') :: post, (UnmarshalRawMap kv.2 []).2 = none := by
      intro kv hkv
      rcases List.mem_append.mp hkv with hm | hm
      · exact hok kv (List.mem_append_left _ hm)
      · rcases List.mem_cons.mp hm with hm | hm
        · subst hm
          rw [herr]
          exact hok (label, entry) (List.mem_append_right _ (List.mem_cons_self _ _))
        · exact hok kv (List.mem_append_right _ (List.mem_cons_of_mem _ hm))
    rw [transitions_of_obj raw _ h hok, transitions_of_obj raw' _ h' hok']
    simp only [List.map_append, List.map_cons, hpl]
  · have hok' : ¬ ∀ kv ∈ pre ++ (label, entry') :: post, (UnmarshalRawMap kv.2 []).2 = none := by
      intro hall
      apply hok
      intro kv hkv
      rcases List.mem_append.mp hkv with hm | hm
      · exact hall kv (List.mem_append_left _ hm)
      · rcases List.mem_cons.mp hm with hm | hm
        · subst hm
          rw [← herr]
          exact hall (label, entry') (List.mem_append_right _ (List.mem_cons_self _ _))
        · exact hall kv (List.mem_append_right _ (List.mem_cons_of_mem _ hm))
    rw [transitions_of_obj_err raw _ h hok, transitions_of_obj_err raw' _ h' hok']

theorem arrows_replace (raw raw' : GoMap Json) (pre post : List Json) (entry entry' : Json)
    (h : raw.lookup "arcs" = some (.arr (pre ++ entry :: post)))
    (h' : raw'.lookup "arcs" = some (.arr (pre ++ entry' :: post)))
    (herr : (UnmarshalRawMap entry' []).2 = (UnmarshalRawMap entry []).2)
    (hpl : FromJson.arc (UnmarshalRawMap entry' []).1 = FromJson.arc (UnmarshalRawMap entry []).1) :
    FromJson.arrows raw' = FromJson.arrows raw := by
  by_cases hok : ∀ x ∈ pre ++ entry :: post, (UnmarshalRawMap x []).2 = none
  · have hok' : ∀ x ∈ pre ++ entry' :: post, (UnmarshalRawMap x []).2 = none := by
      intro x hx
      rcases List.mem_append.mp hx with hm | hm
      · exact hok x (List.mem_append_left _ hm)
      · rcases List.mem_cons.mp hm with hm | hm
        · subst hm
          rw [herr]
          exact hok entry (List.mem_append_right _ (List.mem_cons_self _ _))
        · exact hok x (List.mem_append_right _ (List.mem_cons_of_mem _ hm))
    rw [arrows_of_arr raw _ h hok, arrows_of_arr raw' _ h' hok']
    simp only [List.map_append, List.map_cons, hpl]
  · have hok' : ¬ ∀ x ∈ pre ++ entry' :: post, (UnmarshalRawMap x []).2 = none := by
      intro hall
      apply hok
      intro x hx
      rcases List.mem_append.mp hx with hm | hm
      · exact hall x (List.mem_append_left _ hm)
      · rcases List.mem_cons.mp hm with hm | hm
        · subst hm
          rw [← herr]
          exact hall entry' (List.mem_append_right _ (List.mem_cons_self _ _))
        · exact hall x (List.mem_append_right _ (List.mem_cons_of_mem _ hm))
    rw [arrows_of_arr_err raw _ h hok, arrows_of_arr_err raw' _ h' hok']

/-- Removing from one place entry a key that the decoder does not read, or
whose value does not fit the field, does not change what `FromJson` returns. -/
theorem FromJson_place_without (m : Model) (top top' : List (String × Json))
    (pre post : List (String × Json)) (label : String) (fields : List (String × Json))
    (k : String)
    (hk : k ∉ FromJson.placeKeys ∨
      ∃ bad, GoMap.member fields k = some bad ∧ FromJson.placeFieldFits k bad = false)
    (hp : GoMap.member top "places" = some (.obj (pre ++ (label, .obj fields) :: post)))
    (hp' : GoMap.member top' "places"
      = some (.obj (pre ++ (label, (Json.obj fields).without k) :: post)))
    (hrest : ∀ key, key ≠ "places" → GoMap.member top' key = GoMap.member top key) :
    FromJson m (.wellFormed (.obj top')) = FromJson m (.wellFormed (.obj top)) := by
  apply FromJson_congr m top top' (hrest _ (by decide))
  · exact places_replace _ _ pre post label (.obj fields) ((Json.obj fields).without k)
      (by rw [GoMap.lookup_assign_nil]; exact hp) (by rw [GoMap.lookup_assign_nil]; exact hp')
      (error_without _ k) (place_without fields k hk)
  · exact transitions_of_member top top' (hrest _ (by decide))
  · exact arrows_of_member top top' (hrest _ (by decide))

theorem FromJson_transition_without (m : Model) (top top' : List (String × Json))
    (pre post : List (String × Json)) (label : String) (fields : List (String × Json))
    (k : String)
    (hk : k ∉ FromJson.transitionKeys ∨
      ∃ bad, GoMap.member fields k = some bad ∧ FromJson.transitionFieldFits k bad = false)
    (hp : GoMap.member top "transitions" = some (.obj (pre ++ (label, .obj fields) :: post)))
    (hp' : GoMap.member top' "transitions"
      = some (.obj (pre ++ (label, (Json.obj fields).without k) :: post)))
    (hrest : ∀ key, key ≠ "transitions" → GoMap.member top' key = GoMap.member top key) :
    FromJson m (.wellFormed (.obj top')) = FromJson m (.wellFormed (.obj top)) := by
  apply FromJson_congr m top top' (hrest _ (by decide))
  · exact places_of_member top top' (hrest _ (by decide))
  · exact transitions_replace _ _ pre post label (.obj fields) ((Json.obj fields).without k)
      (by rw [GoMap.lookup_assign_nil]; exact hp) (by rw [GoMap.lookup_assign_nil]; exact hp')
      (error_without _ k) (transition_without fields k hk)
  · exact arrows_of_member top top' (hrest _ (by decide))

theorem FromJson_arc_without (m : Model) (top top' : List (String × Json))
    (pre post : List Json) (fields : List (String × Json)) (k : String)
    (hk : k ∉ FromJson.arcKeys ∨
      ∃ bad, GoMap.member fields k = some bad ∧ FromJson.arcFieldFits k bad = false)
    (hp : GoMap.member top "arcs" = some (.arr (pre ++ .obj fields :: post)))
    (hp' : GoMap.member top' "arcs" = some (.arr (pre ++ (Json.obj fields).without k :: post)))
    (hrest : ∀ key, key ≠ "arcs" → GoMap.member top' key = GoMap.member top key) :
    FromJson m (.wellFormed (.obj top')) = FromJson m (.wellFormed (.obj top)) := by
  apply FromJson_congr m top top' (hrest _ (by decide))
  · exact places_of_member top top' (hrest _ (by decide))
  · exact transitions_of_member top top' (hrest _ (by decide))
  · exact arrows_replace _ _ pre post (.obj fields) ((Json.obj fields).without k)
      (by rw [GoMap.lookup_assign_nil]; exact hp) (by rw [GoMap.lookup_assign_nil]; exact hp')
      (error_without _ k) (arc_without fields k hk)

/-! ## The codec claims -/

/-- C1, counterexample: two well-formed Models with zero-valued tokens and no
inhibit flag that do not come back from `ToJson` then `FromJson`, whatever the
receiver: one whose ModelType is not "PetriNet", one whose zero tokens have two
components. -/
theorem C1_counterexample :
    (exampleWorkflow.WF ∧
      (∀ e ∈ exampleWorkflow.Places, e.2.Initial.ZeroValued ∧ e.2.Capacity.ZeroValued) ∧
      (∀ a ∈ exampleWorkflow.Arrows, a.Weight.ZeroValued ∧ a.Inhibit = false) ∧
      ∀ r, FromJson r (.wellFormed (ToJson exampleWorkflow)) ≠ .ok exampleWorkflow) ∧
    (exampleWideZero.WF ∧
      (∀ e ∈ exampleWideZero.Places, e.2.Initial.ZeroValued ∧ e.2.Capacity.ZeroValued) ∧
      (∀ a ∈ exampleWideZero.Arrows, a.Weight.ZeroValued ∧ a.Inhibit = false) ∧
      ∀ r, FromJson r (.wellFormed (ToJson exampleWideZero)) ≠ .ok exampleWideZero) := by
  refine ⟨⟨by decide, by decide, by decide, ?_⟩, ⟨by decide, by decide, by decide, ?_⟩⟩
  · intro r h
    rw [decode_encode _ r (by decide)] at h
    injection h with h
    have := congrArg Model.ModelType h
    revert this
    decide
  · intro r h
    rw [decode_encode _ r (by decide)] at h
    injection h with h
    have := congrArg Model.Places h
    revert this
    decide

/-- C1 (amended): for every well-formed Model whose ModelType is "PetriNet",
whose Initial, Capacity and Weight Tokens are all the one-component zero token
`[0]` and whose Inhibit flags are all false, `ToJson` followed by `FromJson`
into any receiver returns, without error, a Model equal to the original. -/
theorem C1_zero_elision_roundtrip (m r : Model) (hwf : m.WF)
    (hty : m.ModelType = "PetriNet")
    (hp : ∀ e ∈ m.Places, e.2.Initial = ⟨[0]⟩ ∧ e.2.Capacity = ⟨[0]⟩)
    (ha : ∀ a ∈ m.Arrows, a.Weight = ⟨[0]⟩ ∧ a.Inhibit = false) :
    FromJson r (.wellFormed (ToJson m)) = .ok m := by
  rw [decode_encode m r hwf]
  obtain ⟨ty, places, transitions, arrows⟩ := m
  simp only at hty hp ha
  subst hty
  have h1 : places.map (fun e => (e.1, e.2.readBack)) = places := by
    conv_rhs => rw [← List.map_id places]
    apply List.map_congr_left
    intro e he
    obtain ⟨hi, hc⟩ := hp e he
    obtain ⟨l, ⟨o, i, c, x, y⟩⟩ := e
    simp only at hi hc
    subst hi hc
    rfl
  have h2 : arrows.map Arrow.readBack = arrows := by
    conv_rhs => rw [← List.map_id arrows]
    apply List.map_congr_left
    intro a ha'
    obtain ⟨hw, _⟩ := ha a ha'
    obtain ⟨s, t, w, i⟩ := a
    simp only at hw
    subst hw
    rfl
  simp only [h1, h2]

/-- C1, witness: the amended round trip at a concrete two-place net. -/
theorem C1_zero_elision_roundtrip_witness :
    FromJson NewModel (.wellFormed (ToJson exampleZeroNet)) = .ok exampleZeroNet :=
  C1_zero_elision_roundtrip exampleZeroNet NewModel (by decide) rfl (by decide) (by decide)

theorem arc_source_target (a : Arrow) :
    (FromJson.arc (ToJson.arc a)).Source = a.Source ∧
      (FromJson.arc (ToJson.arc a)).Target = a.Target := by
  unfold FromJson.arc
  simp [lookup_arc_source, lookup_arc_target, UnmarshalString]

/-- C4: for every Model and every receiver, `FromJson` applied to the output of
`ToJson` succeeds with an arrow sequence of the same length whose i-th arrow has
the source and the target of the i-th arrow of the original, for every i. -/
theorem C4_arrow_order_preserved (m r : Model) :
    ∃ m', FromJson r (.wellFormed (ToJson m)) = .ok m' ∧
      m'.Arrows.length = m.Arrows.length ∧
      ∀ i : Nat, (m'.Arrows[i]?).map (fun a => (a.Source, a.Target))
        = (m.Arrows[i]?).map (fun a => (a.Source, a.Target)) := by
  obtain ⟨kvs, hk⟩ : ∃ kvs, ToJson m = .obj kvs := ⟨_, ToJson_eq m⟩
  refine ⟨_, by rw [hk, FromJson_obj], ?_, ?_⟩
  · simp [arrows_decode_encode m kvs hk]
  · intro i
    simp only [arrows_decode_encode m kvs hk, List.getElem?_map, Option.map_map]
    cases m.Arrows[i]? with
    | none => rfl
    | some a =>
      simp only [Option.map_some', Function.comp_apply]
      rw [(arc_source_target a).1, (arc_source_target a).2]

/-- C5, counterexample: the input text `null` is not a JSON object, yet
`FromJson` returns no error and hands back the receiver with empty places,
transitions and arrows. -/
theorem C5_counterexample :
    Json.isObject .null = false ∧
    FromJson exampleNet (.wellFormed .null)
      = .ok { ModelType := "PetriNet", Places := [], Transitions := [], Arrows := [] } :=
  ⟨rfl, rfl⟩

/-- C5 (amended): `FromJson` returns an error exactly when the input text is
not well-formed JSON or its top-level value is a boolean, number, string or
array; for every input whose top level is a JSON object, and for the literal
`null`, it returns a Model and no error. -/
theorem C5_error_iff_not_object_or_null (m : Model) (t : JsonText) :
    (FromJson m .malformed = .error .syntaxError) ∧
    (∀ v, Json.isObject v = false → Json.isNull v = false →
      FromJson m (.wellFormed v) = .error .unmarshalTypeError) ∧
    (∀ v, Json.isObject v = true ∨ Json.isNull v = true →
      ∃ m', FromJson m (.wellFormed v) = .ok m') ∧
    ((∃ e, FromJson m t = .error e) ↔
      (t = .malformed ∨ ∃ v, t = .wellFormed v ∧ Json.isObject v = false ∧ Json.isNull v = false)) := by
  have h2 : ∀ v, Json.isObject v = false → Json.isNull v = false →
      FromJson m (.wellFormed v) = .error .unmarshalTypeError := by
    intro v ho hn
    cases v with
    | null => cases hn
    | obj kvs => cases ho
    | _ => rfl
  have h3 : ∀ v, Json.isObject v = true ∨ Json.isNull v = true →
      ∃ m', FromJson m (.wellFormed v) = .ok m' := by
    intro v h
    cases v with
    | null => exact ⟨_, rfl⟩
    | obj kvs => exact ⟨_, rfl⟩
    | _ => rcases h with h | h <;> cases h
  refine ⟨rfl, h2, h3, ?_⟩
  constructor
  · rintro ⟨e, he⟩
    cases t with
    | malformed => exact Or.inl rfl
    | wellFormed v =>
      refine Or.inr ⟨v, rfl, ?_⟩
      cases ho : Json.isObject v with
      | true => obtain ⟨m', hm'⟩ := h3 v (Or.inl ho); rw [hm'] at he; cases he
      | false =>
        cases hn : Json.isNull v with
        | true => obtain ⟨m', hm'⟩ := h3 v (Or.inr hn); rw [hm'] at he; cases he
        | false => exact ⟨rfl, rfl⟩
  · rintro (h | ⟨v, rfl, ho, hn⟩)
    · subst h; exact ⟨_, rfl⟩
    · exact ⟨_, h2 v ho hn⟩

/-- C5, witness: the amended statement at the array text `[]`, which is
rejected, and at the empty object, which is accepted. -/
theorem C5_error_iff_not_object_or_null_witness :
    FromJson NewModel (.wellFormed (.arr [])) = .error .unmarshalTypeError ∧
    ∃ m', FromJson NewModel (.wellFormed (.obj [])) = .ok m' :=
  ⟨(C5_error_iff_not_object_or_null NewModel .malformed).2.1 (.arr []) rfl rfl,
   (C5_error_iff_not_object_or_null NewModel .malformed).2.2.1 (.obj []) (Or.inl rfl)⟩

/-- C6: for every wire JSON object `FromJson` raises no decode failure, and in
the decoded Model every place whose wire entry has no `initial` key has Initial
= Token [0], every place whose entry has no `capacity` key has Capacity =
Token [0], every arrow whose wire entry has no `weight` key has Weight =
Token [0], and every arrow whose entry has no `inhibitTransition` key has
Inhibit = false. -/
theorem C6_omitted_fields_default (m : Model) (kvs : List (String × Json)) :
    ∃ m', FromJson m (.wellFormed (.obj kvs)) = .ok m' ∧
      (∀ (ps : List (String × Json)) (label : String) (entry : Json) (pl : Place),
        GoMap.member kvs "places" = some (.obj ps) →
        GoMap.member ps label = some entry →
        m'.Places.lookup label = some pl →
          (entry.hasKey "initial" = false → pl.Initial = ⟨[0]⟩) ∧
          (entry.hasKey "capacity" = false → pl.Capacity = ⟨[0]⟩)) ∧
      (∀ (xs : List Json) (i : Nat) (entry : Json) (a : Arrow),
        GoMap.member kvs "arcs" = some (.arr xs) →
        xs[i]? = some entry →
        m'.Arrows[i]? = some a →
          (entry.hasKey "weight" = false → a.Weight = ⟨[0]⟩) ∧
          (entry.hasKey "inhibitTransition" = false → a.Inhibit = false)) := by
  refine ⟨_, FromJson_obj m kvs, ?_, ?_⟩
  · intro ps label entry pl hps hentry hpl
    have hraw : (GoMap.assign [] kvs).lookup "places" = some (.obj ps) := by
      rw [GoMap.lookup_assign_nil]; exact hps
    have hpl' : (FromJson.places (GoMap.assign [] kvs)).lookup label = some pl := hpl
    obtain ⟨entry', he', rfl⟩ := places_lookup _ ps hraw label pl hpl'
    rw [hentry] at he'
    cases he'
    exact ⟨fun hk => place_initial_default _ (lookup_unmarshal_none entry _ hk),
           fun hk => place_capacity_default _ (lookup_unmarshal_none entry _ hk)⟩
  · intro xs i entry a hxs hentry ha
    have hraw : (GoMap.assign [] kvs).lookup "arcs" = some (.arr xs) := by
      rw [GoMap.lookup_assign_nil]; exact hxs
    have ha' : (FromJson.arrows (GoMap.assign [] kvs))[i]? = some a := ha
    obtain ⟨entry', he', rfl⟩ := arrows_get _ xs hraw i a ha'
    rw [hentry] at he'
    cases he'
    exact ⟨fun hk => arc_weight_default _ (lookup_unmarshal_none entry _ hk),
           fun hk => arc_inhibit_default _ (lookup_unmarshal_none entry _ hk)⟩

/-- C6, witness: a wire object with one place that has only `x` and one arc
that has only `source` decodes to a place with Initial = Capacity = [0] and an
arrow with Weight = [0] and Inhibit = false. -/
theorem C6_omitted_fields_default_witness :
    ∃ m' pl a, FromJson NewModel (.wellFormed exampleSparseWire) = .ok m' ∧
      m'.Places.lookup "p" = some pl ∧ pl.Initial = ⟨[0]⟩ ∧ pl.Capacity = ⟨[0]⟩ ∧
      m'.Arrows[0]? = some a ∧ a.Weight = ⟨[0]⟩ ∧ a.Inhibit = false := by
  obtain ⟨m', hm', hp, ha⟩ := C6_omitted_fields_default NewModel
    [("places", .obj [("p", .obj [("x", .int 7)])]), ("arcs", .arr [.obj [("source", .str "p")]])]
  have h : m' = { ModelType := "",
                  Places := [("p", { Offset := 0, Initial := ⟨[0]⟩, Capacity := ⟨[0]⟩, X := 7, Y := 0 })],
                  Transitions := [],
                  Arrows := [{ Source := "p", Target := "", Weight := ⟨[0]⟩, Inhibit := false }] } :=
    Except.ok.inj (hm'.symm.trans rfl)
  have hl : m'.Places.lookup "p"
      = some { Offset := 0, Initial := ⟨[0]⟩, Capacity := ⟨[0]⟩, X := 7, Y := 0 } := by
    rw [h]; rfl
  have hg : m'.Arrows[0]? = some { Source := "p", Target := "", Weight := ⟨[0]⟩, Inhibit := false } := by
    rw [h]; rfl
  have h1 := hp [("p", .obj [("x", .int 7)])] "p" (.obj [("x", .int 7)]) _ rfl rfl hl
  have h2 := ha [.obj [("source", .str "p")]] 0 (.obj [("source", .str "p")]) _ rfl rfl hg
  exact ⟨m', _, _, hm', hl, h1.1 rfl, h1.2 rfl, hg, h2.1 rfl, h2.2 rfl⟩

/-- C8, counterexample: decoding the empty object `{}`, which has no `@type`
key, into a receiver whose ModelType is "Workflow" leaves ModelType at
"Workflow", not at the empty string. -/
theorem C8_counterexample :
    GoMap.member ([] : List (String × Json)) "@type" = none ∧
    ∃ m', FromJson exampleWorkflow (.wellFormed (.obj [])) = .ok m' ∧
      m'.ModelType = "Workflow" ∧ m'.ModelType ≠ "" :=
  ⟨rfl, _, rfl, rfl, by decide⟩

/-- C8 (amended): after `FromJson` on a wire object the ModelType is the value
of `@type` when that key is present with a JSON string, the empty string when
the key is present with any other value, and the receiver's previous ModelType
when the key is absent; `importModel.ToModel` returns a Model whose ModelType
is the ModelType field of the import value. -/
theorem C8_model_type (m : Model) (kvs : List (String × Json)) (im : importModel) :
    (∃ m', FromJson m (.wellFormed (.obj kvs)) = .ok m' ∧
      (∀ s, GoMap.member kvs "@type" = some (.str s) → m'.ModelType = s) ∧
      (∀ v, GoMap.member kvs "@type" = some v → v.isString = false → m'.ModelType = "") ∧
      (GoMap.member kvs "@type" = none → m'.ModelType = m.ModelType)) ∧
    im.ToModel.ModelType = im.ModelType := by
  refine ⟨⟨_, FromJson_obj m kvs, ?_, ?_, ?_⟩, rfl⟩
  · intro s hs
    show FromJson.modelType m (GoMap.assign [] kvs) = s
    simp [FromJson.modelType, GoMap.lookup_assign_nil, hs, UnmarshalString]
  · intro v hv hns
    show FromJson.modelType m (GoMap.assign [] kvs) = ""
    cases v with
    | str s => cases hns
    | _ => simp [FromJson.modelType, GoMap.lookup_assign_nil, hv, UnmarshalString]
  · intro hn
    show FromJson.modelType m (GoMap.assign [] kvs) = m.ModelType
    simp [FromJson.modelType, GoMap.lookup_assign_nil, hn]

/-- C8, witness: `@type` given as a string is captured, `@type` given as a
number yields the empty string, and without `@type` the receiver keeps its
ModelType. -/
theorem C8_model_type_witness :
    (∃ m', FromJson exampleWorkflow (.wellFormed (.obj [("@type", .str "PetriNet")])) = .ok m' ∧
      m'.ModelType = "PetriNet") ∧
    (∃ m', FromJson exampleWorkflow (.wellFormed (.obj [("@type", .int 5)])) = .ok m' ∧
      m'.ModelType = "") ∧
    (∃ m', FromJson exampleWorkflow (.wellFormed (.obj [("places", .obj [])])) = .ok m' ∧
      m'.ModelType = "Workflow") := by
  refine ⟨?_, ?_, ?_⟩
  · obtain ⟨m', h, h1, _, _⟩ :=
      (C8_model_type exampleWorkflow [("@type", .str "PetriNet")] ⟨"", [], [], []⟩).1
    exact ⟨m', h, h1 "PetriNet" rfl⟩
  · obtain ⟨m', h, _, h2, _⟩ :=
      (C8_model_type exampleWorkflow [("@type", .int 5)] ⟨"", [], [], []⟩).1
    exact ⟨m', h, h2 (.int 5) rfl rfl⟩
  · obtain ⟨m', h, _, _, h3⟩ :=
      (C8_model_type exampleWorkflow [("places", .obj [])] ⟨"", [], [], []⟩).1
    exact ⟨m', h, h3 rfl⟩

theorem emits_of_head (t : Token) (field : Option Json)
    (h : field = (ToJson.head t).map (fun v => Json.arr [.int v])) : ToJson.Emits t field := by
  subst h
  refine ⟨?_, ?_, ?_⟩
  · intro v rest hv hne
    simp [ToJson.head, hv, hne]
  · intro rest hv
    simp [ToJson.head, hv]
  · intro hv
    simp [ToJson.head, hv]

/-- C9, counterexample: a place whose Initial Token [0, 5] is not zero-valued
gets no `initial` key, and its Capacity Token [3, 4] is written as `[3]`,
which is not the Token's value. -/
theorem C9_counterexample :
    ¬ (⟨[0, 5]⟩ : Token).ZeroValued ∧
    ToJson exampleWideToken = .obj
      [("@context", .str "https://pflow.xyz/schema"),
       ("@type", .str "PetriNet"),
       ("arcs", .arr []),
       ("places", .obj [("p", .obj [("@type", .str "Place"), ("capacity", .arr [.int 3]),
                                     ("offset", .int 0), ("x", .int 1), ("y", .int 2)])]),
       ("token", .arr [.str "https://pflow.xyz/tokens/black"]),
       ("transitions", .obj [])] :=
  ⟨by decide, rfl⟩

/-- C9 (amended): in the JSON produced by `ToJson` for any Model, the arcs are
the arrows' entries in order and the places are the places' entries by label;
a place entry has an `initial` (resp. `capacity`) key exactly when the Initial
(resp. Capacity) Token has a first component that is not zero, an arc entry has
a `weight` key exactly when the Weight Token has a first component that is not
zero, and the key then holds the one-element array of that first component; an
arc entry has an `inhibitTransition` key, holding `true`, exactly when Inhibit
is true.  For a one-component Token the key is therefore present exactly when
the Token is non-zero and holds the Token's value. -/
theorem C9_zero_fields_elided (m : Model) :
    (∃ ctx ty tok trs, ToJson m = .obj
      [("@context", ctx), ("@type", ty),
       ("arcs", .arr (m.Arrows.map (fun a => Json.obj (ToJson.arc a)))),
       ("places", .obj (GoMap.assign [] (m.Places.map (fun e => (e.1, Json.obj (ToJson.place e.2)))))),
       ("token", tok), ("transitions", trs)]) ∧
    (∀ p : Place,
      ToJson.Emits p.Initial ((ToJson.place p).lookup "initial") ∧
      ToJson.Emits p.Capacity ((ToJson.place p).lookup "capacity")) ∧
    (∀ a : Arrow,
      ToJson.Emits a.Weight ((ToJson.arc a).lookup "weight") ∧
      (ToJson.arc a).lookup "inhibitTransition" = if a.Inhibit then some (.bool true) else none) ∧
    (∀ (t : Token) (field : Option Json), ToJson.Emits t field → isSingleton t = true →
      (field = none ↔ t.ZeroValued) ∧ (∀ j, field = some j → j = .arr (t.Value.map Json.int))) := by
  refine ⟨⟨_, _, _, _, ToJson_eq m⟩, ?_, ?_, ?_⟩
  · intro p
    exact ⟨emits_of_head _ _ (lookup_place_initial p), emits_of_head _ _ (lookup_place_capacity p)⟩
  · intro a
    exact ⟨emits_of_head _ _ (lookup_arc_weight a), lookup_arc_inhibit a⟩
  · intro t field ⟨h1, h2, _⟩ hs
    obtain ⟨vs⟩ := t
    match vs, hs with
    | [v], _ =>
      by_cases hv : v = 0
      · subst hv
        have := h2 [] rfl
        subst this
        simp [Token.ZeroValued]
      · have := h1 v [] rfl hv
        subst this
        simp [Token.ZeroValued, hv]

/-- C9, witness: in the output for a concrete net, the place with Initial [1]
has `initial: [1]` and no `capacity`, and the inhibitor arrow with Weight [0]
has `inhibitTransition: true` and no `weight`. -/
theorem C9_zero_fields_elided_witness :
    (ToJson.place { Offset := 0, Initial := ⟨[1]⟩, Capacity := ⟨[0]⟩, X := 3, Y := -4 }).lookup "initial"
      = some (.arr [.int 1]) ∧
    (ToJson.place { Offset := 0, Initial := ⟨[1]⟩, Capacity := ⟨[0]⟩, X := 3, Y := -4 }).lookup "capacity"
      = none ∧
    (ToJson.arc { Source := "b", Target := "t", Weight := ⟨[0]⟩, Inhibit := true }).lookup "weight"
      = none := by
  have h := (C9_zero_fields_elided exampleNet).2
  refine ⟨?_, ?_, ?_⟩
  · exact (h.1 { Offset := 0, Initial := ⟨[1]⟩, Capacity := ⟨[0]⟩, X := 3, Y := -4 }).1.1 1 [] rfl
      (by decide)
  · exact (h.1 { Offset := 0, Initial := ⟨[1]⟩, Capacity := ⟨[0]⟩, X := 3, Y := -4 }).2.2.1 [] rfl
  · exact (h.2.1 { Source := "b", Target := "t", Weight := ⟨[0]⟩, Inhibit := true }).1.2.1 [] rfl

/-- C7, counterexample: `initial: [5, "x"]` has the wrong shape for a token
(the decoder reports a type error for it), yet the place decodes with Initial =
[5, 0], whereas with the key absent it decodes with Initial = [0]. -/
theorem C7_counterexample :
    (UnmarshalInt64Slice (.arr [.int 5, .str "x"]) []).2 = some .unmarshalTypeError ∧
    FromJson NewModel (.wellFormed exampleMixedArray) = .ok
      { ModelType := "",
        Places := [("p", { Offset := 0, Initial := ⟨[5, 0]⟩, Capacity := ⟨[0]⟩, X := 0, Y := 0 })],
        Transitions := [], Arrows := [] } ∧
    FromJson NewModel (.wellFormed exampleMixedArrayAbsent) = .ok
      { ModelType := "",
        Places := [("p", { Offset := 0, Initial := ⟨[0]⟩, Capacity := ⟨[0]⟩, X := 0, Y := 0 })],
        Transitions := [], Arrows := [] } :=
  ⟨rfl, rfl, rfl⟩

/-- C7 (amended): for every wire JSON object in which a field of a place entry
(offset, x, y, initial, capacity), of a transition entry (x, y) or of an arc
entry (source, target, weight, inhibitTransition) holds a value of the wrong
JSON kind (not an in-range integer literal for offset, x, y; not an array for
initial, capacity, weight; not a string for source, target; not a boolean for
inhibitTransition), `FromJson` returns no error and returns exactly the Model
it returns for the same object with that key removed from the entry. -/
theorem C7_wrong_kind_as_absent (m : Model) (top top' : List (String × Json)) :
    (∀ (pre post : List (String × Json)) (label : String) (fields : List (String × Json))
        (k : String) (bad : Json),
      GoMap.member fields k = some bad → FromJson.placeFieldFits k bad = false →
      GoMap.member top "places" = some (.obj (pre ++ (label, .obj fields) :: post)) →
      GoMap.member top' "places"
        = some (.obj (pre ++ (label, (Json.obj fields).without k) :: post)) →
      (∀ key, key ≠ "places" → GoMap.member top' key = GoMap.member top key) →
      ∃ m', FromJson m (.wellFormed (.obj top)) = .ok m' ∧
            FromJson m (.wellFormed (.obj top')) = .ok m') ∧
    (∀ (pre post : List (String × Json)) (label : String) (fields : List (String × Json))
        (k : String) (bad : Json),
      GoMap.member fields k = some bad → FromJson.transitionFieldFits k bad = false →
      GoMap.member top "transitions" = some (.obj (pre ++ (label, .obj fields) :: post)) →
      GoMap.member top' "transitions"
        = some (.obj (pre ++ (label, (Json.obj fields).without k) :: post)) →
      (∀ key, key ≠ "transitions" → GoMap.member top' key = GoMap.member top key) →
      ∃ m', FromJson m (.wellFormed (.obj top)) = .ok m' ∧
            FromJson m (.wellFormed (.obj top')) = .ok m') ∧
    (∀ (pre post : List Json) (fields : List (String × Json)) (k : String) (bad : Json),
      GoMap.member fields k = some bad → FromJson.arcFieldFits k bad = false →
      GoMap.member top "arcs" = some (.arr (pre ++ .obj fields :: post)) →
      GoMap.member top' "arcs" = some (.arr (pre ++ (Json.obj fields).without k :: post)) →
      (∀ key, key ≠ "arcs" → GoMap.member top' key = GoMap.member top key) →
      ∃ m', FromJson m (.wellFormed (.obj top)) = .ok m' ∧
            FromJson m (.wellFormed (.obj top')) = .ok m') := by
  refine ⟨?_, ?_, ?_⟩
  · intro pre post label fields k bad hb hfit hp hp' hrest
    refine ⟨_, FromJson_obj m top, ?_⟩
    rw [FromJson_place_without m top top' pre post label fields k (Or.inr ⟨bad, hb, hfit⟩)
      hp hp' hrest]
    exact FromJson_obj m top
  · intro pre post label fields k bad hb hfit hp hp' hrest
    refine ⟨_, FromJson_obj m top, ?_⟩
    rw [FromJson_transition_without m top top' pre post label fields k (Or.inr ⟨bad, hb, hfit⟩)
      hp hp' hrest]
    exact FromJson_obj m top
  · intro pre post fields k bad hb hfit hp hp' hrest
    refine ⟨_, FromJson_obj m top, ?_⟩
    rw [FromJson_arc_without m top top' pre post fields k (Or.inr ⟨bad, hb, hfit⟩) hp hp' hrest]
    exact FromJson_obj m top

/-- C7, witness: a place with `offset: "abc"` decodes as the same place
without `offset`, and an arc with `inhibitTransition: 1` as the same arc
without `inhibitTransition`. -/
theorem C7_wrong_kind_as_absent_witness :
    (∃ m', FromJson NewModel (.wellFormed (.obj
        [("places", .obj [("p", .obj [("offset", .str "abc"), ("x", .int 7)])])])) = .ok m' ∧
      FromJson NewModel (.wellFormed (.obj
        [("places", .obj [("p", .obj [("x", .int 7)])])])) = .ok m') ∧
    (∃ m', FromJson NewModel (.wellFormed (.obj
        [("arcs", .arr [.obj [("source", .str "p"), ("inhibitTransition", .int 1)]])])) = .ok m' ∧
      FromJson NewModel (.wellFormed (.obj
        [("arcs", .arr [.obj [("source", .str "p")]])])) = .ok m') :=
  ⟨(C7_wrong_kind_as_absent NewModel
      [("places", .obj [("p", .obj [("offset", .str "abc"), ("x", .int 7)])])]
      [("places", .obj [("p", .obj [("x", .int 7)])])]).1
      [] [] "p" [("offset", .str "abc"), ("x", .int 7)] "offset" (.str "abc") rfl rfl rfl rfl
      (fun key hne => by simp [GoMap.member, hne]),
   (C7_wrong_kind_as_absent NewModel
      [("arcs", .arr [.obj [("source", .str "p"), ("inhibitTransition", .int 1)]])]
      [("arcs", .arr [.obj [("source", .str "p")]])]).2.2
      [] [] [("source", .str "p"), ("inhibitTransition", .int 1)] "inhibitTransition" (.int 1)
      rfl rfl rfl rfl (fun key hne => by simp [GoMap.member, hne])⟩

/-- C10: for any two wire JSON objects with the same values under `@type`,
`places`, `transitions` and `arcs`, whatever their other top-level keys,
`FromJson` succeeds on both with equal Models; and removing from a place,
transition or arc entry a key that is not one of the keys read for that kind
of entry does not change the Model `FromJson` returns. -/
theorem C10_unrecognized_keys_ignored (m : Model) (top top' : List (String × Json)) :
    ((∀ key ∈ ["@type", "places", "transitions", "arcs"],
        GoMap.member top' key = GoMap.member top key) →
      ∃ m', FromJson m (.wellFormed (.obj top)) = .ok m' ∧
            FromJson m (.wellFormed (.obj top')) = .ok m') ∧
    (∀ (pre post : List (String × Json)) (label : String) (fields : List (String × Json))
        (k : String),
      k ∉ FromJson.placeKeys →
      GoMap.member top "places" = some (.obj (pre ++ (label, .obj fields) :: post)) →
      GoMap.member top' "places"
        = some (.obj (pre ++ (label, (Json.obj fields).without k) :: post)) →
      (∀ key, key ≠ "places" → GoMap.member top' key = GoMap.member top key) →
      ∃ m', FromJson m (.wellFormed (.obj top)) = .ok m' ∧
            FromJson m (.wellFormed (.obj top')) = .ok m') ∧
    (∀ (pre post : List (String × Json)) (label : String) (fields : List (String × Json))
        (k : String),
      k ∉ FromJson.transitionKeys →
      GoMap.member top "transitions" = some (.obj (pre ++ (label, .obj fields) :: post)) →
      GoMap.member top' "transitions"
        = some (.obj (pre ++ (label, (Json.obj fields).without k) :: post)) →
      (∀ key, key ≠ "transitions" → GoMap.member top' key = GoMap.member top key) →
      ∃ m', FromJson m (.wellFormed (.obj top)) = .ok m' ∧
            FromJson m (.wellFormed (.obj top')) = .ok m') ∧
    (∀ (pre post : List Json) (fields : List (String × Json)) (k : String),
      k ∉ FromJson.arcKeys →
      GoMap.member top "arcs" = some (.arr (pre ++ .obj fields :: post)) →
      GoMap.member top' "arcs" = some (.arr (pre ++ (Json.obj fields).without k :: post)) →
      (∀ key, key ≠ "arcs" → GoMap.member top' key = GoMap.member top key) →
      ∃ m', FromJson m (.wellFormed (.obj top)) = .ok m' ∧
            FromJson m (.wellFormed (.obj top')) = .ok m') := by
  refine ⟨?_, ?_, ?_, ?_⟩
  · intro h
    refine ⟨_, FromJson_obj m top, ?_⟩
    rw [FromJson_congr m top top' (h _ (by simp))
      (places_of_member top top' (h _ (by simp)))
      (transitions_of_member top top' (h _ (by simp)))
      (arrows_of_member top top' (h _ (by simp)))]
    exact FromJson_obj m top
  · intro pre post label fields k hk hp hp' hrest
    refine ⟨_, FromJson_obj m top, ?_⟩
    rw [FromJson_place_without m top top' pre post label fields k (Or.inl hk) hp hp' hrest]
    exact FromJson_obj m top
  · intro pre post label fields k hk hp hp' hrest
    refine ⟨_, FromJson_obj m top, ?_⟩
    rw [FromJson_transition_without m top top' pre post label fields k (Or.inl hk) hp hp' hrest]
    exact FromJson_obj m top
  · intro pre post fields k hk hp hp' hrest
    refine ⟨_, FromJson_obj m top, ?_⟩
    rw [FromJson_arc_without m top top' pre post fields k (Or.inl hk) hp hp' hrest]
    exact FromJson_obj m top

/-- C10, witness: an added top-level `version` key, and an added `color` key
inside a place entry, leave the decoded Model unchanged. -/
theorem C10_unrecognized_keys_ignored_witness :
    (∃ m', FromJson NewModel (.wellFormed (.obj
        [("places", .obj [("p", .obj [("x", .int 7)])])])) = .ok m' ∧
      FromJson NewModel (.wellFormed (.obj
        [("version", .str "v0"), ("places", .obj [("p", .obj [("x", .int 7)])])])) = .ok m') ∧
    (∃ m', FromJson NewModel (.wellFormed (.obj
        [("places", .obj [("p", .obj [("color", .str "red"), ("x", .int 7)])])])) = .ok m' ∧
      FromJson NewModel (.wellFormed (.obj
        [("places", .obj [("p", .obj [("x", .int 7)])])])) = .ok m') :=
  ⟨(C10_unrecognized_keys_ignored NewModel
      [("places", .obj [("p", .obj [("x", .int 7)])])]
      [("version", .str "v0"), ("places", .obj [("p", .obj [("x", .int 7)])])]).1
      (fun key hk => by
        simp only [List.mem_cons, List.mem_singleton, List.not_mem_nil, or_false] at hk
        rcases hk with rfl | rfl | rfl | rfl <;> rfl),
   (C10_unrecognized_keys_ignored NewModel
      [("places", .obj [("p", .obj [("color", .str "red"), ("x", .int 7)])])]
      [("places", .obj [("p", .obj [("x", .int 7)])])]).2.1
      [] [] "p" [("color", .str "red"), ("x", .int 7)] "color" (by decide) rfl rfl
      (fun key hne => by simp [GoMap.member, hne])⟩

/-- C16: for every strict-import value, `ToModel` returns a Model with the
same ModelType; the same place labels, each place with Offset, X, Y copied and
Initial and Capacity the one-component Tokens of the imported numbers; the same
transition labels, each with X and Y copied; and an arrow sequence of the same
length and order with Source, Target and Inhibit copied and Weight the
one-component Token of the imported number. -/
theorem C16_ToModel (im : importModel) (h : im.WF) :
    im.ToModel.ModelType = im.ModelType ∧
    im.ToModel.Places = im.Places.map (fun e =>
      (e.1, ({ Offset := e.2.Offset, Initial := ⟨[e.2.Initial]⟩,
               Capacity := ⟨[e.2.Capacity]⟩, X := e.2.X, Y := e.2.Y } : Place))) ∧
    im.ToModel.Places.map Prod.fst = im.Places.map Prod.fst ∧
    im.ToModel.Transitions = im.Transitions ∧
    im.ToModel.Arrows.length = im.Arrows.length ∧
    im.ToModel.Arrows = im.Arrows.map (fun a =>
      ({ Source := a.Source, Target := a.Target, Weight := ⟨[a.Weight]⟩,
         Inhibit := a.Inhibit } : Arrow)) := by
  obtain ⟨hp, ht⟩ := h
  have hpl : im.ToModel.Places = im.Places.map (fun e =>
      (e.1, ({ Offset := e.2.Offset, Initial := ⟨[e.2.Initial]⟩,
               Capacity := ⟨[e.2.Capacity]⟩, X := e.2.X, Y := e.2.Y } : Place))) :=
    GoMap.assign_of_sorted _ (GoMap.sorted_map (fun (p : PlaceInt64) =>
      ({ Offset := p.Offset, Initial := ⟨[p.Initial]⟩,
         Capacity := ⟨[p.Capacity]⟩, X := p.X, Y := p.Y } : Place)) _ hp)
  have htr : im.ToModel.Transitions = im.Transitions := by
    have := GoMap.assign_of_sorted _ (GoMap.sorted_map (fun (t : Transition) =>
      ({ X := t.X, Y := t.Y } : Transition)) _ ht)
    show GoMap.assign [] (im.Transitions.map
      (fun (lt : String × Transition) => (lt.1, ({ X := lt.2.X, Y := lt.2.Y } : Transition)))) = _
    rw [this]
    conv_rhs => rw [← List.map_id im.Transitions]
    exact List.map_congr_left (fun e _ => rfl)
  refine ⟨rfl, hpl, ?_, htr, ?_, rfl⟩
  · rw [hpl, List.map_map]; rfl
  · show (im.Arrows.map _).length = _
    simp

/-- C16, witness: `ToModel` at a concrete import value with two places, one
transition and two arcs. -/
theorem C16_ToModel_witness :
    exampleImport.ToModel.ModelType = "petriNet" ∧
    exampleImport.ToModel.Places =
      [("p0", { Offset := 0, Initial := ⟨[1]⟩, Capacity := ⟨[0]⟩, X := 10, Y := 20 }),
       ("p1", { Offset := 1, Initial := ⟨[0]⟩, Capacity := ⟨[3]⟩, X := 30, Y := 40 })] ∧
    exampleImport.ToModel.Transitions = [("t0", { X := 5, Y := 6 })] ∧
    exampleImport.ToModel.Arrows =
      [{ Source := "p0", Target := "t0", Weight := ⟨[1]⟩, Inhibit := false },
       { Source := "p1", Target := "t0", Weight := ⟨[2]⟩, Inhibit := true }] :=
  ⟨(C16_ToModel exampleImport (by decide)).1,
   (C16_ToModel exampleImport (by decide)).2.1.trans rfl,
   (C16_ToModel exampleImport (by decide)).2.2.2.1.trans rfl,
   (C16_ToModel exampleImport (by decide)).2.2.2.2.2.trans rfl⟩

/-- C17: for every well-formed Model whose ModelType is "PetriNet" and whose
Initial, Capacity and Weight Tokens are all one-component sequences (zero or
not), with any Inhibit flags, `FromJson` applied to the output of `ToJson`
returns, without error, a Model equal to the original, whatever the receiver. -/
theorem C17_singleton_roundtrip (m r : Model) (hwf : m.WF)
    (hty : m.ModelType = "PetriNet")
    (hp : ∀ e ∈ m.Places, isSingleton e.2.Initial = true ∧ isSingleton e.2.Capacity = true)
    (ha : ∀ a ∈ m.Arrows, isSingleton a.Weight = true) :
    FromJson r (.wellFormed (ToJson m)) = .ok m := by
  rw [decode_encode m r hwf]
  obtain ⟨ty, places, transitions, arrows⟩ := m
  simp only at hty hp ha
  subst hty
  have h1 : places.map (fun e => (e.1, e.2.readBack)) = places := by
    conv_rhs => rw [← List.map_id places]
    apply List.map_congr_left
    intro e he
    obtain ⟨hi, hc⟩ := hp e he
    obtain ⟨l, ⟨o, i, c, x, y⟩⟩ := e
    simp only at hi hc
    simp only [Place.readBack, ToJson.readBack, head_singleton i hi, head_singleton c hc, id]
  have h2 : arrows.map Arrow.readBack = arrows := by
    conv_rhs => rw [← List.map_id arrows]
    apply List.map_congr_left
    intro a ha'
    have hw := ha a ha'
    obtain ⟨s, t, w, i⟩ := a
    simp only at hw
    simp only [Arrow.readBack, ToJson.readBack, head_singleton w hw, id]
  simp only [h1, h2]

/-- C17, witness: the round trip at a net with non-zero tokens, a weighted
arrow and an inhibitor arrow. -/
theorem C17_singleton_roundtrip_witness :
    FromJson NewModel (.wellFormed (ToJson exampleNet)) = .ok exampleNet :=
  C17_singleton_roundtrip exampleNet NewModel (by decide) rfl (by decide) (by decide)

theorem head_readBack (t : Token) : ToJson.head (ToJson.readBack t) = ToJson.head t := by
  unfold ToJson.readBack
  cases h : ToJson.head t with
  | none => simp [ToJson.head]
  | some v =>
    have hv := (head_mem t v h).2
    simp [ToJson.head, hv]

theorem place_readBack (p : Place) : ToJson.place p.readBack = ToJson.place p := by
  unfold ToJson.place Place.readBack
  simp only [head_readBack]

theorem arc_readBack (a : Arrow) : ToJson.arc a.readBack = ToJson.arc a := by
  unfold ToJson.arc Arrow.readBack
  simp only [head_readBack]

/-- C18: for every well-formed Model, with any ModelType and any Tokens (empty
and multi-component ones included), `FromJson` succeeds on the output of
`ToJson`, and `ToJson` of the decoded Model is the same JSON value as `ToJson`
of the original. -/
theorem C18_encode_decode_normalises (m r : Model) (hwf : m.WF) :
    ∃ m', FromJson r (.wellFormed (ToJson m)) = .ok m' ∧ ToJson m' = ToJson m := by
  refine ⟨_, decode_encode m r hwf, ?_⟩
  rw [ToJson_eq, ToJson_eq]
  simp only [List.map_map, Function.comp_def, place_readBack, arc_readBack]

/-- C18, witness: the normalisation at a "Workflow" Model with an empty token
and two-component tokens. -/
theorem C18_encode_decode_normalises_witness :
    ∃ m', FromJson NewModel (.wellFormed (ToJson exampleOddTokens)) = .ok m' ∧
      ToJson m' = ToJson exampleOddTokens :=
  C18_encode_decode_normalises exampleOddTokens NewModel (by decide)

/-- What a successful call returns: the four fields as the steps compute them
from the decoded top-level map. -/
theorem FromJson_ok (m m' : Model) (t : JsonText) (h : FromJson m t = .ok m') :
    ∃ raw, Unmarshal t = (raw, none) ∧
      m' = { ModelType := FromJson.modelType m raw,
             Places := FromJson.places raw,
             Transitions := FromJson.transitions raw,
             Arrows := FromJson.arrows raw } := by
  unfold FromJson at h
  cases hu : Unmarshal t with
  | mk raw err =>
    rw [hu] at h
    cases err with
    | none => exact ⟨raw, rfl, (Except.ok.inj h).symm⟩
    | some e => cases h

theorem FromJson_error (m : Model) (t : JsonText) (e : JsonError) (h : FromJson m t = .error e) :
    ∃ raw, Unmarshal t = (raw, some e) := by
  unfold FromJson at h
  cases hu : Unmarshal t with
  | mk raw err =>
    rw [hu] at h
    cases err with
    | none => cases h
    | some e' => exact ⟨raw, by rw [Except.error.inj h]⟩

/-- C20: `FromJson` replaces rather than merges.  On success the receiver is
the returned Model, and its Places, Transitions and Arrows are the same
whatever the receiver held before; a key absent from the input leaves the
corresponding collection empty, and without `@type` the ModelType is the
receiver's previous one; on error the receiver is left as it was. -/
theorem C20_FromJson_replaces (m1 m2 : Model) (t : JsonText) :
    (∀ m', FromJson m1 t = .ok m' → FromJson.receiver m1 t = m') ∧
    (∀ m1' m2', FromJson m1 t = .ok m1' → FromJson m2 t = .ok m2' →
      m1'.Places = m2'.Places ∧ m1'.Transitions = m2'.Transitions ∧ m1'.Arrows = m2'.Arrows) ∧
    (∀ v m', t = .wellFormed v → FromJson m1 t = .ok m' →
      (v.hasKey "places" = false → m'.Places = []) ∧
      (v.hasKey "transitions" = false → m'.Transitions = []) ∧
      (v.hasKey "arcs" = false → m'.Arrows = []) ∧
      (v.hasKey "@type" = false → m'.ModelType = m1.ModelType)) ∧
    (∀ e, FromJson m1 t = .error e → FromJson.receiver m1 t = m1) := by
  refine ⟨?_, ?_, ?_, ?_⟩
  · intro m' h
    obtain ⟨raw, hu, rfl⟩ := FromJson_ok m1 m' t h
    simp only [FromJson.receiver, hu]
  · intro m1' m2' h1 h2
    obtain ⟨raw1, hu1, rfl⟩ := FromJson_ok m1 m1' t h1
    obtain ⟨raw2, hu2, rfl⟩ := FromJson_ok m2 m2' t h2
    rw [hu1] at hu2
    cases hu2
    exact ⟨rfl, rfl, rfl⟩
  · intro v m' ht h
    subst ht
    obtain ⟨raw, hu, rfl⟩ := FromJson_ok m1 m' _ h
    have hraw : raw = (UnmarshalRawMap v []).1 := by
      have : Unmarshal (.wellFormed v) = UnmarshalRawMap v [] := rfl
      rw [this] at hu
      rw [hu]
    subst hraw
    refine ⟨?_, ?_, ?_, ?_⟩
    · intro hk
      simp only [FromJson.places, lookup_unmarshal_none v _ hk]
    · intro hk
      simp only [FromJson.transitions, lookup_unmarshal_none v _ hk]
    · intro hk
      simp only [FromJson.arrows, lookup_unmarshal_none v _ hk]
    · intro hk
      simp only [FromJson.modelType, lookup_unmarshal_none v _ hk]
  · intro e h
    obtain ⟨raw, hu⟩ := FromJson_error m1 t e h
    simp only [FromJson.receiver, hu]

/-- C20, witness: decoding an object that has only `arcs` into a receiver that
holds places and transitions empties them and keeps the ModelType; decoding an
array leaves the receiver as it was. -/
theorem C20_FromJson_replaces_witness :
    (∃ m', FromJson exampleNet (.wellFormed (.obj [("arcs", .arr [])])) = .ok m' ∧
      FromJson.receiver exampleNet (.wellFormed (.obj [("arcs", .arr [])])) = m' ∧
      m'.Places = [] ∧ m'.Transitions = [] ∧ m'.ModelType = "PetriNet") ∧
    FromJson.receiver exampleNet (.wellFormed (.arr [])) = exampleNet := by
  have h := C20_FromJson_replaces exampleNet NewModel (.wellFormed (.obj [("arcs", .arr [])]))
  have h3 := h.2.2.1 (.obj [("arcs", .arr [])]) _ rfl rfl
  exact ⟨⟨_, rfl, h.1 _ rfl, h3.1 rfl, h3.2.1 rfl, h3.2.2.2 rfl⟩,
    (C20_FromJson_replaces exampleNet NewModel (.wellFormed (.arr []))).2.2.2 _ rfl⟩

end metamodel

/-! ## Content identifier claims -/

namespace cid

theorem sha256_sum_length (data : List Byte) : (sha256.sum data).length = 32 := by
  simp [sha256.sum, sha256.wordBytes]

theorem foldl_append_single (b : List Byte) :
    [b].foldl (fun data v => data ++ v) [] = b := by
  simp

/-- C2: for every byte sequence `b`, `ToCid(b)` succeeds, its binary form is
version 1, the two-byte varint `a9 02` of `0x0129`, the SHA-256 multihash tag
`0x12`, the length `0x20` and the 32-byte SHA-256 digest of `b`, and its
`String()` is the character `z` followed by the base-58 (Bitcoin alphabet) text
of these bytes; for `b = "hello"` that text is
`z4EBG9j39DX8pJ5CjucFtnPRYvvKgDPPZ522KvJGCLJ9cB7AFwh`. -/
theorem C2_cid_text_form (b : List Byte) :
    (∃ c, ToCid [b] = .ok c ∧
      c.bytes = [1] ++ varint 0x0129 ++ [0x12, 0x20] ++ sha256.sum b ∧
      varint 0x0129 = [0xa9, 0x02] ∧
      (sha256.sum b).length = 32 ∧
      c.String = String.mk ('z' :: base58 ([1] ++ varint 0x0129 ++ [0x12, 0x20] ++ sha256.sum b))) ∧
    (∃ c, ToCid [helloBytes] = .ok c ∧
      c.String = "z4EBG9j39DX8pJ5CjucFtnPRYvvKgDPPZ522KvJGCLJ9cB7AFwh") := by
  have hlen := sha256_sum_length b
  have hv1 : varint 1 = [1] := by decide
  have hv12 : varint SHA2_256 = [0x12] := by decide
  have hv32 : varint 32 = [0x20] := by decide
  have hvc : varint 0x0129 = [0xa9, 0x02] := by decide
  have hto : ToCid [b] = .ok ⟨[1] ++ varint 0x0129 ++ [0x12, 0x20] ++ sha256.sum b⟩ := by
    simp only [ToCid, foldl_append_single, toCid, Prefix.Sum, multihashSum, hlen, hv1, hv12, hv32]
    simp
  refine ⟨⟨_, hto, rfl, hvc, hlen, ?_⟩, ?_⟩
  · simp [Cid.String, Cid.Version, hvc, encoder]
  · refine ⟨⟨[1] ++ varint 0x0129 ++ [0x12, 0x20] ++ sha256.sum helloBytes⟩, ?_, ?_⟩
    · have hlen' := sha256_sum_length helloBytes
      simp only [ToCid, foldl_append_single, toCid, Prefix.Sum, multihashSum, hlen', hv1, hv12, hv32]
      simp
    · decide!

end cid

namespace cid

/-- Each character of the alphabet decodes to its index, is not the padding
character and stands for itself in a JSON string literal. -/
theorem encodeChar_facts : ∀ n < 64,
    base64.decodeChar (base64.encodeChar n) = some n ∧
    base64.encodeChar n ≠ '=' ∧ base64.encodeChar n ≠ '"' ∧ base64.encodeChar n ≠ '\\' ∧
    ¬ (base64.encodeChar n).toNat < 32 ∧
    base64.encodeChar n ≠ '\r' ∧ base64.encodeChar n ≠ '\n' := by
  decide

theorem byte_val (x : Byte) : byte x.val = x := by
  apply Fin.ext
  show x.val % 256 = x.val
  exact Nat.mod_eq_of_lt x.isLt

theorem decodeGroups_encode : ∀ b : List Byte, base64.decodeGroups (base64.encode b) = some b
  | [] => rfl
  | [a] => by
    have ha := a.isLt
    obtain ⟨h1, _⟩ := encodeChar_facts (a.val / 4) (by omega)
    obtain ⟨h2, _⟩ := encodeChar_facts (a.val % 4 * 16) (by omega)
    simp only [base64.encode, base64.decodeGroups, h1, h2]
    have e1 : a.val / 4 * 4 + a.val % 4 * 16 / 16 = a.val := by omega
    rw [e1]
    simp [byte_val]
  | [a, b] => by
    have ha := a.isLt
    have hb := b.isLt
    obtain ⟨h1, _⟩ := encodeChar_facts (a.val / 4) (by omega)
    obtain ⟨h2, _⟩ := encodeChar_facts (a.val % 4 * 16 + b.val / 16) (by omega)
    obtain ⟨h3, h3e, _⟩ := encodeChar_facts (b.val % 16 * 4) (by omega)
    simp only [base64.encode, base64.decodeGroups, h1, h2, h3, h3e, if_false]
    have e1 : a.val / 4 * 4 + (a.val % 4 * 16 + b.val / 16) / 16 = a.val := by omega
    have e2 : (a.val % 4 * 16 + b.val / 16) % 16 * 16 + b.val % 16 * 4 / 4 = b.val := by omega
    rw [e1, e2]
    simp [byte_val]
  | a :: b :: c :: rest => by
    have ha := a.isLt
    have hb := b.isLt
    have hc := c.isLt
    obtain ⟨h1, _⟩ := encodeChar_facts (a.val / 4) (by omega)
    obtain ⟨h2, _⟩ := encodeChar_facts (a.val % 4 * 16 + b.val / 16) (by omega)
    obtain ⟨h3, h3e, _⟩ := encodeChar_facts (b.val % 16 * 4 + c.val / 64) (by omega)
    obtain ⟨h4, h4e, _⟩ := encodeChar_facts (c.val % 64) (by omega)
    have ih := decodeGroups_encode rest
    simp only [base64.encode, base64.decodeGroups, h1, h2, h3, h3e, h4, h4e, if_false, ih]
    have e1 : a.val / 4 * 4 + (a.val % 4 * 16 + b.val / 16) / 16 = a.val := by omega
    have e2 : (a.val % 4 * 16 + b.val / 16) % 16 * 16 + (b.val % 16 * 4 + c.val / 64) / 4
        = b.val := by omega
    have e3 : (b.val % 16 * 4 + c.val / 64) % 4 * 64 + c.val % 64 = c.val := by omega
    rw [e1, e2, e3]
    simp [byte_val]

/-- Every character of a base-64 text stands for itself in a JSON string
literal and is not a line break. -/
theorem encode_plain : ∀ (b : List Byte) (ch : Char), ch ∈ base64.encode b →
    ch ≠ '"' ∧ ch ≠ '\\' ∧ ¬ ch.toNat < 32 ∧ ch ≠ '\r' ∧ ch ≠ '\n'
  | [], ch, h => by simp [base64.encode] at h
  | [a], ch, h => by
    have ha := a.isLt
    have f1 := encodeChar_facts (a.val / 4) (by omega)
    have f2 := encodeChar_facts (a.val % 4 * 16) (by omega)
    simp only [base64.encode, List.mem_cons, List.mem_singleton, List.not_mem_nil, or_false] at h
    rcases h with rfl | rfl | rfl | rfl
    · exact ⟨f1.2.2.1, f1.2.2.2.1, f1.2.2.2.2.1, f1.2.2.2.2.2.1, f1.2.2.2.2.2.2⟩
    · exact ⟨f2.2.2.1, f2.2.2.2.1, f2.2.2.2.2.1, f2.2.2.2.2.2.1, f2.2.2.2.2.2.2⟩
    · decide
    · decide
  | [a, b], ch, h => by
    have ha := a.isLt
    have hb := b.isLt
    have f1 := encodeChar_facts (a.val / 4) (by omega)
    have f2 := encodeChar_facts (a.val % 4 * 16 + b.val / 16) (by omega)
    have f3 := encodeChar_facts (b.val % 16 * 4) (by omega)
    simp only [base64.encode, List.mem_cons, List.mem_singleton, List.not_mem_nil, or_false] at h
    rcases h with rfl | rfl | rfl | rfl
    · exact ⟨f1.2.2.1, f1.2.2.2.1, f1.2.2.2.2.1, f1.2.2.2.2.2.1, f1.2.2.2.2.2.2⟩
    · exact ⟨f2.2.2.1, f2.2.2.2.1, f2.2.2.2.2.1, f2.2.2.2.2.2.1, f2.2.2.2.2.2.2⟩
    · exact ⟨f3.2.2.1, f3.2.2.2.1, f3.2.2.2.2.1, f3.2.2.2.2.2.1, f3.2.2.2.2.2.2⟩
    · decide
  | a :: b :: c :: rest, ch, h => by
    have ha := a.isLt
    have hb := b.isLt
    have hc := c.isLt
    have f1 := encodeChar_facts (a.val / 4) (by omega)
    have f2 := encodeChar_facts (a.val % 4 * 16 + b.val / 16) (by omega)
    have f3 := encodeChar_facts (b.val % 16 * 4 + c.val / 64) (by omega)
    have f4 := encodeChar_facts (c.val % 64) (by omega)
    simp only [base64.encode, List.mem_cons] at h
    rcases h with rfl | rfl | rfl | rfl | h
    · exact ⟨f1.2.2.1, f1.2.2.2.1, f1.2.2.2.2.1, f1.2.2.2.2.2.1, f1.2.2.2.2.2.2⟩
    · exact ⟨f2.2.2.1, f2.2.2.2.1, f2.2.2.2.2.1, f2.2.2.2.2.2.1, f2.2.2.2.2.2.2⟩
    · exact ⟨f3.2.2.1, f3.2.2.2.1, f3.2.2.2.2.1, f3.2.2.2.2.2.1, f3.2.2.2.2.2.2⟩
    · exact ⟨f4.2.2.1, f4.2.2.2.1, f4.2.2.2.2.1, f4.2.2.2.2.2.1, f4.2.2.2.2.2.2⟩
    · exact encode_plain rest ch h

/-- The scan of a literal without escapes returns its characters. -/
theorem unquote_plain (s rest : List Char) (fuel : Nat)
    (hs : ∀ ch ∈ s, ch ≠ '"' ∧ ch ≠ '\\' ∧ ¬ ch.toNat < 32) (hf : s.length < fuel) :
    unquote fuel (s ++ '"' :: rest) = some (s, rest) := by
  induction s generalizing fuel with
  | nil =>
    cases fuel with
    | zero => cases hf
    | succ f => simp [unquote]
  | cons c cs ih =>
    cases fuel with
    | zero => cases hf
    | succ f =>
      obtain ⟨h1, h2, h3⟩ := hs c (List.mem_cons_self _ _)
      have := ih f (fun ch hch => hs ch (List.mem_cons_of_mem _ hch))
        (by simpa using hf)
      simp [unquote, h1, h2, h3, this]

theorem base64_decode_encode (b : List Byte) : base64.decode (base64.encode b) = some b := by
  unfold base64.decode
  have : (base64.encode b).filter (fun c => !(c = '\r' || c = '\n')) = base64.encode b := by
    apply List.filter_eq_self.mpr
    intro ch hch
    obtain ⟨_, _, _, h4, h5⟩ := encode_plain b ch hch
    simp [h4, h5]
  rw [this, decodeGroups_encode]

end cid

namespace cid

/-- The base-64 text of `n` bytes has four characters for every three bytes,
the last group padded. -/
theorem encode_length : ∀ b : List Byte, (base64.encode b).length = 4 * ((b.length + 2) / 3)
  | [] => rfl
  | [_] => by simp [base64.encode]
  | [_, _] => by simp [base64.encode]
  | _ :: _ :: _ :: rest => by
    simp only [base64.encode, List.length_cons, encode_length rest]
    omega

theorem encodeChar_mem : ∀ n < 64, base64.encodeChar n ∈ base64.alphabet := by
  decide

/-- Every character of a base-64 text is a character of the standard alphabet
or the padding character. -/
theorem encode_alphabet : ∀ (b : List Byte) (ch : Char), ch ∈ base64.encode b →
    ch ∈ base64.alphabet ∨ ch = '='
  | [], ch, h => by simp [base64.encode] at h
  | [a], ch, h => by
    have ha := a.isLt
    simp only [base64.encode, List.mem_cons, List.mem_singleton, List.not_mem_nil, or_false] at h
    rcases h with rfl | rfl | rfl | rfl
    · exact Or.inl (encodeChar_mem _ (by omega))
    · exact Or.inl (encodeChar_mem _ (by omega))
    · exact Or.inr rfl
    · exact Or.inr rfl
  | [a, b], ch, h => by
    have ha := a.isLt
    have hb := b.isLt
    simp only [base64.encode, List.mem_cons, List.mem_singleton, List.not_mem_nil, or_false] at h
    rcases h with rfl | rfl | rfl | rfl
    · exact Or.inl (encodeChar_mem _ (by omega))
    · exact Or.inl (encodeChar_mem _ (by omega))
    · exact Or.inl (encodeChar_mem _ (by omega))
    · exact Or.inr rfl
  | a :: b :: c :: rest, ch, h => by
    have ha := a.isLt
    have hb := b.isLt
    have hc := c.isLt
    simp only [base64.encode, List.mem_cons] at h
    rcases h with rfl | rfl | rfl | rfl | h
    · exact Or.inl (encodeChar_mem _ (by omega))
    · exact Or.inl (encodeChar_mem _ (by omega))
    · exact Or.inl (encodeChar_mem _ (by omega))
    · exact Or.inl (encodeChar_mem _ (by omega))
    · exact encode_alphabet rest ch h

/-- C3, counterexample: for the nil byte sequence `Marshal` writes `null`,
which is not the base-64 text of its (no) bytes between quotes. -/
theorem C3_counterexample :
    Marshal none = "null" ∧
    Marshal none ≠ String.mk (['"'] ++ base64.encode [] ++ ['"']) := by
  decide

/-- C3 (amended): for every byte sequence `b` other than the nil slice, the
empty one included, `Marshal(b)` is the padded standard base-64 text of `b`
between JSON string quotes; for the nil slice it is `null`; in both cases
`Unmarshal` of `Marshal(b)` into a byte sequence reports no error and yields
exactly `b`; for `b = "hello"` the canonical bytes are `"aGVsbG8="`, quotes
included. -/
theorem C3_marshal_bytes_roundtrip (bs : List Byte) (b cur : Option (List Byte)) :
    Marshal (some bs) = String.mk (['"'] ++ base64.encode bs ++ ['"']) ∧
    (base64.encode bs).length = 4 * ((bs.length + 2) / 3) ∧
    (∀ ch ∈ base64.encode bs, ch ∈ base64.alphabet ∨ ch = '=') ∧
    base64.decode (base64.encode bs) = some bs ∧
    Marshal none = "null" ∧
    Unmarshal (Marshal b) cur = (b, none) ∧
    Marshal (some helloBytes) = "\"aGVsbG8=\"" ∧
    Unmarshal "\"aGVsbG8=\"" none = (some helloBytes, none) := by
  refine ⟨rfl, encode_length bs, encode_alphabet bs, base64_decode_encode bs, by decide, ?_,
    by decide, by decide⟩
  cases b with
  | none => rfl
  | some b =>
    have hq := unquote_plain (base64.encode b) [] (base64.encode b ++ ['"']).length
      (fun ch hch => by
        obtain ⟨h1, h2, h3, _⟩ := encode_plain b ch hch
        exact ⟨h1, h2, h3⟩)
      (by simp)
    simp only [Unmarshal, Marshal]
    have hd : ('"' :: (base64.encode b ++ ['"'])).dropWhile isSpace
        = '"' :: (base64.encode b ++ ['"']) := by
      rw [List.dropWhile_cons_of_neg (by decide)]
    rw [hd]
    simp only [hq, base64_decode_encode]
    simp [isSpace]

end cid

namespace cid

theorem foldl_append_flatten (bs : List (List Byte)) (init : List Byte) :
    bs.foldl (fun data v => data ++ v) init = init ++ bs.flatten := by
  induction bs generalizing init with
  | nil => simp
  | cons hd tl ih => simp [ih, List.append_assoc]

/-- The function `toCid` never reports an error, and returns the version-1
identifier of the data. -/
theorem toCid_eq (data : List Byte) :
    toCid data = (⟨[1] ++ varint 0x0129 ++ [0x12, 0x20] ++ sha256.sum data⟩, none) := by
  have hlen := sha256_sum_length data
  have hv1 : varint 1 = [1] := by decide
  have hv12 : varint SHA2_256 = [0x12] := by decide
  have hv32 : varint 32 = [0x20] := by decide
  simp only [toCid, Prefix.Sum, multihashSum, hlen, hv1, hv12, hv32]
  simp

theorem ToCid_eq (bs : List (List Byte)) :
    ToCid bs = .ok ⟨[1] ++ varint 0x0129 ++ [0x12, 0x20] ++ sha256.sum bs.flatten⟩ := by
  simp only [ToCid, foldl_append_flatten, List.nil_append, toCid_eq]

/-- C11: for every sequence of byte sequences, `ToCid(b1, ..., bn)` equals
`ToCid` of the single concatenation `b1 ++ ... ++ bn`; two argument lists with
the same concatenation give the same identifier and the same identifier text;
`ToCid()` equals `ToCid` of the empty byte sequence. -/
theorem C11_ToCid_concatenation (bs bs' : List (List Byte)) :
    ToCid bs = ToCid [bs.flatten] ∧
    (∃ c, ToCid bs = .ok c) ∧
    (bs.flatten = bs'.flatten → ToCid bs = ToCid bs' ∧ text (ToCid bs) = text (ToCid bs')) ∧
    ToCid [] = ToCid [[]] := by
  refine ⟨?_, ⟨_, ToCid_eq bs⟩, ?_, ?_⟩
  · rw [ToCid_eq, ToCid_eq]; simp
  · intro h
    have : ToCid bs = ToCid bs' := by rw [ToCid_eq, ToCid_eq, h]
    exact ⟨this, by rw [this]⟩
  · rw [ToCid_eq, ToCid_eq]; simp

/-- C11, witness: `ToCid("ab", "c")` and `ToCid("a", "bc")` are the same
identifier. -/
theorem C11_ToCid_concatenation_witness :
    ToCid [abBytes, cBytes] = ToCid [aBytes, bcBytes] ∧
    text (ToCid [abBytes, cBytes]) = text (ToCid [aBytes, bcBytes]) :=
  (C11_ToCid_concatenation [abBytes, cBytes] [aBytes, bcBytes]).2.2.1 (by decide)

/-- C12: for every raw byte sequence `b`, `NewCid(b)` is `ToCid(b)`, the
identifier of `b` itself; for `b = "hello"` its text is the test vector, which
is not the identifier text of the canonical encoding `Marshal(b)`. -/
theorem C12_NewCid_raw_bytes (b : List Byte) :
    NewCid (.bytes b) = ToCid [b] ∧
    NewCid (.bytes b) = .ok ⟨[1] ++ varint 0x0129 ++ [0x12, 0x20] ++ sha256.sum b⟩ ∧
    text (NewCid (.bytes helloBytes))
      = some "z4EBG9j39DX8pJ5CjucFtnPRYvvKgDPPZ522KvJGCLJ9cB7AFwh" ∧
    text (NewCid (.bytes helloBytes)) ≠ text (ToCid [utf8 (Marshal (some helloBytes)).data]) := by
  refine ⟨rfl, ?_, ?_, ?_⟩
  · show ToCid [b] = _
    rw [ToCid_eq]; simp
  · show text (ToCid [helloBytes]) = _
    rw [ToCid_eq]
    decide!
  · show text (ToCid [helloBytes]) ≠ text (ToCid [utf8 (Marshal (some helloBytes)).data])
    rw [ToCid_eq, ToCid_eq]
    decide!

/-- C13: for every identifier `x`, `NewCid(x)` returns `x` itself, with the
same text; hence `NewCid` applied to a result of `NewCid` returns that
result. -/
theorem C13_NewCid_passthrough (x : Cid) (v : Any) :
    NewCid (.cid x) = .ok x ∧
    text (NewCid (.cid x)) = some x.String ∧
    (∃ c, NewCid v = .ok c ∧ NewCid (.cid c) = NewCid v) := by
  refine ⟨rfl, rfl, ?_⟩
  cases v with
  | cid c => exact ⟨c, rfl, rfl⟩
  | bytes b => exact ⟨_, ToCid_eq [b], (ToCid_eq [b]).symm⟩
  | other w => exact ⟨_, ToCid_eq [MarshalValue w], (ToCid_eq [MarshalValue w]).symm⟩

/-- C14: `toCid` is total: for every byte sequence, the empty one included, it
returns an identifier and no error, so `ToCid` returns an identifier, never
taking its panic branch, for every argument list. -/
theorem C14_toCid_total (data : List Byte) (bs : List (List Byte)) :
    (toCid data).2 = none ∧
    (toCid []).2 = none ∧
    (∃ c, ToCid bs = .ok c ∧ toCid bs.flatten = (c, none)) := by
  refine ⟨by rw [toCid_eq], by rw [toCid_eq], ⟨_, ToCid_eq bs, toCid_eq _⟩⟩

end cid

namespace cid

theorem foldl_bigEndian (bs : List Byte) (init : Nat) :
    bs.foldl (fun acc b => acc * 256 + b.val) init = init * 256 ^ bs.length + bigEndian bs := by
  induction bs generalizing init with
  | nil => simp [bigEndian]
  | cons hd tl ih =>
    unfold bigEndian
    simp only [List.foldl_cons, List.length_cons]
    rw [ih, ih (0 * 256 + hd.val)]
    ring

theorem bigEndian_append (a b : List Byte) :
    bigEndian (a ++ b) = bigEndian a * 256 ^ b.length + bigEndian b := by
  unfold bigEndian
  rw [List.foldl_append, foldl_bigEndian]
  rfl

theorem bigEndian_lt (bs : List Byte) : bigEndian bs < 256 ^ bs.length := by
  induction bs using List.reverseRecOn with
  | nil => simp [bigEndian]
  | append_singleton l x ih =>
    rw [bigEndian_append]
    have hx : bigEndian [x] = x.val := by simp [bigEndian]
    have := x.isLt
    rw [hx]
    simp only [List.length_append, List.length_singleton, pow_one, pow_succ]
    omega

/-- The number of base-58 digits: a number in `[58^k, 58^(k+1))` has `k + 1`
digits when the fuel allows that many. -/
theorem b58Digits_length (k : Nat) : ∀ (fuel n : Nat) (acc : List Nat),
    58 ^ k ≤ n → n < 58 ^ (k + 1) → k + 1 ≤ fuel →
    (b58Digits fuel n acc).length = acc.length + (k + 1) := by
  induction k with
  | zero =>
    intro fuel n acc h1 h2 hf
    cases fuel with
    | zero => omega
    | succ f =>
      have hn : n ≠ 0 := by simp at h1; omega
      have hq : n / 58 = 0 := by simp at h2; omega
      simp only [b58Digits, hn, if_false, hq]
      cases f <;> simp [b58Digits]
  | succ k ih =>
    intro fuel n acc h1 h2 hf
    cases fuel with
    | zero => omega
    | succ f =>
      have hpos : 0 < 58 ^ (k + 1) := by positivity
      have hn : n ≠ 0 := by omega
      have hq1 : 58 ^ k ≤ n / 58 := by
        rw [Nat.le_div_iff_mul_le (by decide)]
        calc 58 ^ k * 58 = 58 ^ (k + 1) := (pow_succ 58 k).symm
          _ ≤ n := h1
      have hq2 : n / 58 < 58 ^ (k + 1) := by
        rw [Nat.div_lt_iff_lt_mul (by decide)]
        calc n < 58 ^ (k + 1 + 1) := h2
          _ = 58 ^ (k + 1) * 58 := pow_succ 58 (k + 1)
      simp only [b58Digits, hn, if_false]
      rw [ih f (n / 58) (n % 58 :: acc) hq1 hq2 (by omega)]
      simp only [List.length_cons]
      omega

theorem b58Digits_lt : ∀ (fuel n : Nat) (acc : List Nat),
    (∀ d ∈ acc, d < 58) → ∀ d ∈ b58Digits fuel n acc, d < 58
  | 0, _, _, h => h
  | fuel + 1, n, acc, h => by
    simp only [b58Digits]
    split_ifs with hn
    · exact h
    · apply b58Digits_lt fuel (n / 58) (n % 58 :: acc)
      intro d hd
      rcases List.mem_cons.mp hd with rfl | hd
      · exact Nat.mod_lt _ (by decide)
      · exact h d hd

theorem b58Alphabet_mem : ∀ d < 58, b58Alphabet.getD d '1' ∈ b58Alphabet := by
  decide

/-- C19: for every input byte sequence, the 37 bytes of `ToCid(b)` denote a
number from `58^49` up to, not including, `58^50`, and the identifier text is
exactly 51 characters long: the marker `z` followed by exactly 50 characters of
the base-58 (Bitcoin) alphabet. -/
theorem C19_cid_text_length (b : List Byte) :
    ∃ c cs, ToCid [b] = .ok c ∧
      c.bytes.length = 37 ∧
      58 ^ 49 ≤ bigEndian c.bytes ∧ bigEndian c.bytes < 58 ^ 50 ∧
      c.String = String.mk ('z' :: cs) ∧
      cs.length = 50 ∧ (∀ ch ∈ cs, ch ∈ b58Alphabet) ∧
      c.String.length = 51 := by
  have hlen := sha256_sum_length b
  have hvc : varint 0x0129 = [0xa9, 0x02] := by decide
  have hbytes : ([1] ++ varint 0x0129 ++ [0x12, 0x20] ++ sha256.sum b : List Byte)
      = [1, 0xa9, 0x02, 0x12, 0x20] ++ sha256.sum b := by
    rw [hvc]; rfl
  have hto : ToCid [b] = .ok ⟨[1, 0xa9, 0x02, 0x12, 0x20] ++ sha256.sum b⟩ := by
    rw [ToCid_eq]; simp [hvc]
  have hl37 : ([1, 0xa9, 0x02, 0x12, 0x20] ++ sha256.sum b : List Byte).length = 37 := by
    simp [hlen]
  have hbig : bigEndian ([1, 0xa9, 0x02, 0x12, 0x20] ++ sha256.sum b)
      = 7130452512 * 256 ^ 32 + bigEndian (sha256.sum b) := by
    rw [bigEndian_append, hlen]
    rfl
  have hd := bigEndian_lt (sha256.sum b)
  rw [hlen] at hd
  have hlo : 58 ^ 49 ≤ bigEndian ([1, 0xa9, 0x02, 0x12, 0x20] ++ sha256.sum b) := by
    rw [hbig]
    have : (58 : Nat) ^ 49 ≤ 7130452512 * 256 ^ 32 := by norm_num
    omega
  have hhi : bigEndian ([1, 0xa9, 0x02, 0x12, 0x20] ++ sha256.sum b) < 58 ^ 50 := by
    rw [hbig]
    have : 7130452512 * 256 ^ 32 + 256 ^ 32 ≤ (58 : Nat) ^ 50 := by norm_num
    omega
  have hdig := b58Digits_length 49 (2 * 37)
    (bigEndian ([1, 0xa9, 0x02, 0x12, 0x20] ++ sha256.sum b)) [] hlo hhi (by decide)
  refine ⟨_, (b58Digits (2 * 37) (bigEndian ([1, 0xa9, 0x02, 0x12, 0x20] ++ sha256.sum b)) []).map
      (fun d => b58Alphabet.getD d '1'), hto, hl37, hlo, hhi, ?_, ?_, ?_, ?_⟩
  · simp only [Cid.String, Cid.Version, encoder, base58, hl37]
    simp
  · simpa using hdig
  · intro ch hch
    obtain ⟨d, hd', rfl⟩ := List.mem_map.mp hch
    exact b58Alphabet_mem d (b58Digits_lt _ _ [] (by simp) d hd')
  · simp only [Cid.String, Cid.Version, encoder, base58, hl37]
    simpa [String.length] using hdig

end cid

/-! ## Maps as sets of entries -/

namespace GoMap

theorem lookup_none_of_less {V : Type} (m : GoMap V) (k : String)
    (h : ∀ e ∈ m, keyLess k e.1 = true) : lookup m k = none := by
  induction m with
  | nil => rfl
  | cons hd tl ih =>
    obtain ⟨k', v'⟩ := hd
    have hne : k ≠ k' := keyLess_ne (h (k', v') (List.mem_cons_self _ _))
    simp only [lookup, hne, if_false]
    exact ih (fun e he => h e (List.mem_cons_of_mem _ he))

/-- Two maps with the same lookups are the same list of entries. -/
theorem sorted_ext {V : Type} : ∀ (a b : GoMap V), Sorted a → Sorted b →
    (∀ k, lookup a k = lookup b k) → a = b
  | [], [], _, _, _ => rfl
  | [], (k, v) :: _, _, _, h => by
    have := h k
    simp [lookup] at this
  | (k, v) :: _, [], _, _, h => by
    have := h k
    simp [lookup] at this
  | (k1, v1) :: a, (k2, v2) :: b, ha, hb, h => by
    have ha' := List.pairwise_cons.mp ha
    have hb' := List.pairwise_cons.mp hb
    have hk : k1 = k2 := by
      rcases keyLess_total k1 k2 with hlt | heq | hgt
      · have h1 := h k1
        have hne : k1 ≠ k2 := keyLess_ne hlt
        have hnone : lookup b k1 = none :=
          lookup_none_of_less b k1 (fun e he => keyLess_trans hlt (hb'.1 e he))
        simp [lookup, hne, hnone] at h1
      · exact heq
      · have h2 := h k2
        have hne : k2 ≠ k1 := keyLess_ne hgt
        have hnone : lookup a k2 = none :=
          lookup_none_of_less a k2 (fun e he => keyLess_trans hgt (ha'.1 e he))
        simp [lookup, hne, hnone] at h2
    subst hk
    have hv : v1 = v2 := by
      have h1 := h k1
      simpa [lookup] using h1
    subst hv
    have htl : ∀ k, lookup a k = lookup b k := by
      intro k
      by_cases hkk : k = k1
      · subst hkk
        rw [lookup_none_of_less a k ha'.1, lookup_none_of_less b k hb'.1]
      · have := h k
        simpa [lookup, hkk] using this
    rw [sorted_ext a b ha'.2 hb'.2 htl]

theorem member_mem {V : Type} (l : List (String × V)) (k : String) (v : V)
    (h : member l k = some v) : (k, v) ∈ l := by
  induction l with
  | nil => simp [member] at h
  | cons hd tl ih =>
    obtain ⟨k', v'⟩ := hd
    simp only [member] at h
    cases hm : member tl k with
    | some w =>
      rw [hm] at h
      simp only [Option.some.injEq] at h
      subst h
      exact List.mem_cons_of_mem _ (ih hm)
    | none =>
      rw [hm] at h
      by_cases hk : k = k'
      · simp only [hk, if_true, Option.some.injEq] at h
        rw [hk, h]
        exact List.mem_cons_self _ _
      · simp [hk] at h

theorem member_eq_some_iff {V : Type} (l : List (String × V))
    (hnd : (l.map Prod.fst).Nodup) (k : String) (v : V) :
    member l k = some v ↔ (k, v) ∈ l := by
  induction l with
  | nil => simp [member]
  | cons hd tl ih =>
    obtain ⟨k', v'⟩ := hd
    simp only [List.map_cons, List.nodup_cons] at hnd
    obtain ⟨hnot, hnd'⟩ := hnd
    have ih' := ih hnd'
    simp only [member, List.mem_cons, Prod.mk.injEq]
    cases hm : member tl k with
    | some w =>
      rw [hm] at ih'
      simp only [Option.some.injEq]
      constructor
      · intro hw; exact Or.inr (ih'.mp (by rw [hw]))
      · rintro (⟨hk, _⟩ | hmem)
        · exfalso
          have hw : (k, w) ∈ tl := by
            have := member_mem tl k w hm
            exact this
          apply hnot
          rw [← hk]
          exact List.mem_map.mpr ⟨(k, w), hw, rfl⟩
        · have := ih'.mpr hmem
          exact Option.some.inj this
    | none =>
      rw [hm] at ih'
      constructor
      · intro h
        by_cases hk : k = k'
        · simp only [hk, if_true, Option.some.injEq] at h
          exact Or.inl ⟨hk, h.symm⟩
        · simp [hk] at h
      · rintro (⟨hk, hv⟩ | hmem)
        · simp [hk, hv]
        · have := ih'.mpr hmem
          cases this

/-- Assigning the same entries in another order gives the same map. -/
theorem assign_perm {V : Type} (l l' : List (String × V)) (h : l.Perm l')
    (hnd : (l.map Prod.fst).Nodup) : assign [] l = assign [] l' := by
  have hnd' : (l'.map Prod.fst).Nodup := (h.map Prod.fst).nodup_iff.mp hnd
  apply sorted_ext _ _ (sorted_assign l [] List.Pairwise.nil) (sorted_assign l' [] List.Pairwise.nil)
  intro k
  rw [lookup_assign_nil, lookup_assign_nil]
  apply Option.ext
  intro v
  show member l k = some v ↔ member l' k = some v
  rw [member_eq_some_iff l hnd, member_eq_some_iff l' hnd']
  exact h.mem_iff

end GoMap

namespace GoMap

theorem mem_assign {V : Type} (l : List (String × V)) (init : GoMap V) (e : String × V)
    (h : e ∈ assign init l) : e ∈ init ∨ e ∈ l := by
  induction l generalizing init with
  | nil => exact Or.inl h
  | cons hd tl ih =>
    rcases ih (insert init hd.1 hd.2) h with h1 | h1
    · rcases mem_insert init hd.1 hd.2 e h1 with h2 | h2
      · exact Or.inr (h2 ▸ List.mem_cons_self _ _)
      · exact Or.inl h2
    · exact Or.inr (List.mem_cons_of_mem _ h1)

end GoMap

namespace cid

theorem encodeMembers_eq_map (es : List (String × Value)) :
    Value.encodeMembers es = es.map (fun e => (e.1, Value.encode e.2)) := by
  induction es with
  | nil => simp [Value.encodeMembers]
  | cons hd tl ih => simp [Value.encodeMembers, ih]

theorem encode_map (es : List (String × Value)) :
    Value.encode (.map es) = '{' :: (joinComma ((GoMap.assign []
      (es.map (fun e => (e.1, Value.encode e.2)))).map memberText) ++ ['}']) := by
  rw [Value.encode, encodeMembers_eq_map]

/-- The text of a map does not depend on the order of its entries. -/
theorem encode_map_perm (es es' : List (String × Value)) (hnd : (es.map Prod.fst).Nodup)
    (h : es.Perm es') : Value.encode (.map es) = Value.encode (.map es') := by
  rw [encode_map, encode_map]
  have hp : (es.map (fun e => (e.1, Value.encode e.2))).Perm
      (es'.map (fun e => (e.1, Value.encode e.2))) := h.map _
  have hk : ((es.map (fun e => (e.1, Value.encode e.2))).map Prod.fst).Nodup := by
    rw [List.map_map]
    exact hnd
  rw [GoMap.assign_perm _ _ hp hk]

theorem isSpace_facts :
    (∀ n < 64, isSpace (base64.encodeChar n) = false) ∧
    (∀ n < 16, isSpace (hexDigit n) = false) ∧
    (∀ d < 10, isSpace (digitChar d) = false) := by
  decide

theorem isSpace_of_toNat (c : Char) (h32 : ¬ c.toNat < 32) (hs : c ≠ ' ') :
    isSpace c = false := by
  have h1 : c ≠ '\t' := by intro h; subst h; exact h32 (by decide)
  have h2 : c ≠ '\r' := by intro h; subst h; exact h32 (by decide)
  have h3 : c ≠ '\n' := by intro h; subst h; exact h32 (by decide)
  simp [isSpace, hs, h1, h2, h3]

theorem escape_noSpace (c : Char) (hs : c ≠ ' ') : ∀ x ∈ escape c, isSpace x = false := by
  intro x hx
  unfold escape at hx
  split_ifs at hx with h1 h2 h3 h4 h5 h6 h7 h8
  all_goals first
    | (simp only [List.mem_cons, List.mem_singleton, List.not_mem_nil, or_false] at hx
       rcases hx with rfl | rfl <;> decide)
    | skip
  · simp only [List.mem_cons, List.mem_singleton, List.not_mem_nil, or_false] at hx
    have hd1 := isSpace_facts.2.1 (c.toNat / 16) (by omega)
    have hd2 := isSpace_facts.2.1 (c.toNat % 16) (by omega)
    rcases hx with rfl | rfl | rfl | rfl | rfl | rfl
    · decide
    · decide
    · decide
    · decide
    · exact hd1
    · exact hd2
  · simp only [List.mem_singleton] at hx
    subst hx
    exact isSpace_of_toNat x h8 hs

theorem quote_noSpace (s : String) (hs : s.data.all (fun c => decide (c ≠ ' ')) = true) :
    ∀ x ∈ quote s, isSpace x = false := by
  intro x hx
  unfold quote at hx
  simp only [List.mem_cons, List.mem_append, List.mem_flatMap, List.mem_singleton,
    List.not_mem_nil, or_false] at hx
  rcases hx with rfl | ⟨c, hc, hxc⟩ | rfl
  · decide
  · have hne : c ≠ ' ' := by
      have := List.all_eq_true.mp hs c hc
      simpa using this
    exact escape_noSpace c hne x hxc
  · decide

theorem decDigits_noSpace : ∀ (fuel n : Nat) (acc : List Char),
    (∀ x ∈ acc, isSpace x = false) → ∀ x ∈ decDigits fuel n acc, isSpace x = false
  | 0, _, _, h => h
  | fuel + 1, n, acc, h => by
    simp only [decDigits]
    split_ifs with hn
    · intro x hx
      rcases List.mem_cons.mp hx with rfl | hx
      · exact isSpace_facts.2.2 n hn
      · exact h x hx
    · apply decDigits_noSpace fuel (n / 10) (digitChar (n % 10) :: acc)
      intro x hx
      rcases List.mem_cons.mp hx with rfl | hx
      · exact isSpace_facts.2.2 (n % 10) (Nat.mod_lt _ (by decide))
      · exact h x hx

theorem intText_noSpace (n : Int) : ∀ x ∈ intText n, isSpace x = false := by
  intro x hx
  cases n with
  | ofNat m => exact decDigits_noSpace _ _ [] (by simp) x hx
  | negSucc m =>
    rcases List.mem_cons.mp hx with rfl | hx
    · decide
    · exact decDigits_noSpace _ _ [] (by simp) x hx

theorem base64_space_not_mem : ∀ (b : List Byte), ' ' ∉ base64.encode b
  | [] => by simp [base64.encode]
  | [a] => by
    have ha := a.isLt
    have f1 := isSpace_facts.1 (a.val / 4) (by omega)
    have f2 := isSpace_facts.1 (a.val % 4 * 16) (by omega)
    simp only [base64.encode, List.mem_cons, List.mem_singleton, List.not_mem_nil, or_false]
    rintro (h | h | h | h)
    · rw [← h] at f1; revert f1; decide
    · rw [← h] at f2; revert f2; decide
    · revert h; decide
    · revert h; decide
  | [a, b] => by
    have ha := a.isLt
    have hb := b.isLt
    have f1 := isSpace_facts.1 (a.val / 4) (by omega)
    have f2 := isSpace_facts.1 (a.val % 4 * 16 + b.val / 16) (by omega)
    have f3 := isSpace_facts.1 (b.val % 16 * 4) (by omega)
    simp only [base64.encode, List.mem_cons, List.mem_singleton, List.not_mem_nil, or_false]
    rintro (h | h | h | h)
    · rw [← h] at f1; revert f1; decide
    · rw [← h] at f2; revert f2; decide
    · rw [← h] at f3; revert f3; decide
    · revert h; decide
  | a :: b :: c :: rest => by
    have ha := a.isLt
    have hb := b.isLt
    have hc := c.isLt
    have f1 := isSpace_facts.1 (a.val / 4) (by omega)
    have f2 := isSpace_facts.1 (a.val % 4 * 16 + b.val / 16) (by omega)
    have f3 := isSpace_facts.1 (b.val % 16 * 4 + c.val / 64) (by omega)
    have f4 := isSpace_facts.1 (c.val % 64) (by omega)
    simp only [base64.encode, List.mem_cons]
    rintro (h | h | h | h | h)
    · rw [← h] at f1; revert f1; decide
    · rw [← h] at f2; revert f2; decide
    · rw [← h] at f3; revert f3; decide
    · rw [← h] at f4; revert f4; decide
    · exact base64_space_not_mem rest h

theorem base64_noSpace (b : List Byte) : ∀ x ∈ base64.encode b, isSpace x = false := by
  intro x hx
  obtain ⟨_, _, h32, _, _⟩ := encode_plain b x hx
  by_cases hs : x = ' '
  · exfalso
    subst hs
    exact base64_space_not_mem b hx
  · exact isSpace_of_toNat x h32 hs

theorem joinComma_mem : ∀ (ts : List (List Char)) (c : Char), c ∈ joinComma ts →
    c = ',' ∨ ∃ t ∈ ts, c ∈ t
  | [], c, h => by simp [joinComma] at h
  | [x], c, h => Or.inr ⟨x, List.mem_singleton.mpr rfl, h⟩
  | x :: y :: rest, c, h => by
    simp only [joinComma, List.mem_append, List.mem_cons] at h
    rcases h with h | h | h
    · exact Or.inr ⟨x, List.mem_cons_self _ _, h⟩
    · exact Or.inl h
    · rcases joinComma_mem (y :: rest) c h with h' | ⟨t, ht, hc⟩
      · exact Or.inl h'
      · exact Or.inr ⟨t, List.mem_cons_of_mem _ ht, hc⟩

end cid

namespace cid

mutual
/-- The text of a value free of space characters holds no white space. -/
theorem encode_noSpace : ∀ (v : Value), v.spaceFree = true →
    ∀ x ∈ Value.encode v, isSpace x = false
  | .null, _, x, hx => by
    simp only [Value.encode, List.mem_cons, List.mem_singleton, List.not_mem_nil, or_false] at hx
    rcases hx with rfl | rfl | rfl | rfl <;> decide
  | .bool b, _, x, hx => by
    cases b
    · simp only [Value.encode, List.mem_cons, List.mem_singleton, List.not_mem_nil, or_false,
        Bool.false_eq_true, if_false] at hx
      rcases hx with rfl | rfl | rfl | rfl | rfl <;> decide
    · simp only [Value.encode, List.mem_cons, List.mem_singleton, List.not_mem_nil, or_false,
        if_true] at hx
      rcases hx with rfl | rfl | rfl | rfl <;> decide
  | .int n, _, x, hx => by
    rw [Value.encode] at hx
    exact intText_noSpace n x hx
  | .str s, h, x, hx => by
    rw [Value.encode] at hx
    rw [Value.spaceFree] at h
    exact quote_noSpace s h x hx
  | .bytes b, _, x, hx => by
    rw [Value.encode] at hx
    simp only [List.mem_cons, List.mem_append, List.mem_singleton, List.not_mem_nil,
      or_false] at hx
    rcases hx with rfl | hx | rfl
    · decide
    · exact base64_noSpace b x hx
    · decide
  | .list xs, h, x, hx => by
    rw [Value.encode] at hx
    rw [Value.spaceFree] at h
    simp only [List.mem_cons, List.mem_append, List.mem_singleton, List.not_mem_nil,
      or_false] at hx
    rcases hx with rfl | hx | rfl
    · decide
    · rcases joinComma_mem _ x hx with rfl | ⟨t, ht, hxt⟩
      · decide
      · exact encodeList_noSpace xs h t ht x hxt
    · decide
  | .map es, h, x, hx => by
    rw [Value.encode] at hx
    rw [Value.spaceFree] at h
    simp only [List.mem_cons, List.mem_append, List.mem_singleton, List.not_mem_nil,
      or_false] at hx
    rcases hx with rfl | hx | rfl
    · decide
    · rcases joinComma_mem _ x hx with rfl | ⟨t, ht, hxt⟩
      · decide
      · obtain ⟨e, he, rfl⟩ := List.mem_map.mp ht
        rcases GoMap.mem_assign _ _ e he with he' | he'
        · cases he'
        · obtain ⟨hk, hv⟩ := encodeMembers_noSpace es h e he'
          simp only [memberText, List.mem_append, List.mem_cons] at hxt
          rcases hxt with hq | rfl | hq
          · exact quote_noSpace e.1 hk x hq
          · decide
          · exact hv x hq
    · decide
/-- The texts of the elements of a sequence free of space characters hold no
white space. -/
theorem encodeList_noSpace : ∀ (vs : List Value), Value.spaceFreeList vs = true →
    ∀ t ∈ Value.encodeList vs, ∀ x ∈ t, isSpace x = false
  | [], _, t, ht => by simp [Value.encodeList] at ht
  | v :: vs, h, t, ht => by
    rw [Value.spaceFreeList, Bool.and_eq_true] at h
    rw [Value.encodeList] at ht
    rcases List.mem_cons.mp ht with rfl | ht
    · exact encode_noSpace v h.1
    · exact encodeList_noSpace vs h.2 t ht
/-- The keys and value texts of a map free of space characters hold no white
space. -/
theorem encodeMembers_noSpace : ∀ (es : List (String × Value)),
    Value.spaceFreeMembers es = true → ∀ e ∈ Value.encodeMembers es,
      e.1.data.all (fun c => decide (c ≠ ' ')) = true ∧ ∀ x ∈ e.2, isSpace x = false
  | [], _, e, he => by simp [Value.encodeMembers] at he
  | e0 :: es, h, e, he => by
    rw [Value.spaceFreeMembers, Bool.and_eq_true, Bool.and_eq_true] at h
    rw [Value.encodeMembers] at he
    rcases List.mem_cons.mp he with rfl | he
    · exact ⟨h.1.1, encode_noSpace e0.2 h.1.2⟩
    · exact encodeMembers_noSpace es h.2 e he
end

set_option maxRecDepth 100000 in
theorem continuation_bytes : ∀ n : Fin 256,
    128 ≤ ((UInt8.ofNat n.val) &&& 0x3f ||| 0x80).toNat ∧
    128 ≤ ((UInt8.ofNat n.val) &&& 0x1f ||| 0xc0).toNat ∧
    128 ≤ ((UInt8.ofNat n.val) &&& 0x0f ||| 0xe0).toNat ∧
    128 ≤ ((UInt8.ofNat n.val) &&& 0x07 ||| 0xf0).toNat := by
  decide

theorem uint8_toNat_lt (x : UInt8) : x.toNat < 256 := by
  obtain ⟨⟨⟨n, hn⟩⟩⟩ := x
  exact hn

theorem uint8_ofNat_toNat (x : UInt8) : UInt8.ofNat x.toNat = x := by
  obtain ⟨⟨⟨n, hn⟩⟩⟩ := x
  have : n % 256 = n := Nat.mod_eq_of_lt hn
  simp [UInt8.ofNat, UInt8.toNat, BitVec.ofNat, Fin.ofNat', this]

theorem multibyte (x : UInt8) :
    128 ≤ (x &&& 0x3f ||| 0x80).toNat ∧ 128 ≤ (x &&& 0x1f ||| 0xc0).toNat ∧
    128 ≤ (x &&& 0x0f ||| 0xe0).toNat ∧ 128 ≤ (x &&& 0x07 ||| 0xf0).toNat := by
  have h := continuation_bytes ⟨x.toNat, uint8_toNat_lt x⟩
  simp only [uint8_ofNat_toNat] at h
  exact h

theorem isSpaceByte_of_large (u : UInt8) (h : 128 ≤ u.toNat) :
    isSpaceByte (byte u.toNat) = false := by
  have hlt := uint8_toNat_lt u
  have hv : (byte u.toNat).val = u.toNat := Nat.mod_eq_of_lt hlt
  simp only [isSpaceByte, hv]
  have h1 : ¬ u.toNat = 32 := by omega
  have h2 : ¬ u.toNat = 9 := by omega
  have h3 : ¬ u.toNat = 10 := by omega
  have h4 : ¬ u.toNat = 13 := by omega
  simp [h1, h2, h3, h4]

theorem char_of_toNat (c : Char) (n : Nat) (h : c.toNat = n) : c = Char.ofNat n := by
  rw [← h, Char.ofNat_toNat]

/-- The UTF-8 bytes of a character that is not white space are not white-space
bytes. -/
theorem utf8EncodeChar_noSpace (c : Char) (hc : isSpace c = false) :
    ∀ u ∈ String.utf8EncodeChar c, isSpaceByte (byte u.toNat) = false := by
  intro u hu
  unfold String.utf8EncodeChar at hu
  simp only at hu
  split_ifs at hu with h1 h2 h3
  · simp only [List.mem_singleton] at hu
    subst hu
    have hle : c.val.toNat ≤ 127 := h1
    have hn : c.val.toUInt8.toNat = c.toNat := by
      show (c.val.toNat.toUInt8).toNat = c.val.toNat
      simp [Nat.toUInt8, UInt8.ofNat, UInt8.toNat]
      omega
    have hv : (byte c.val.toUInt8.toNat).val = c.toNat := by
      rw [hn]
      exact Nat.mod_eq_of_lt (by show c.val.toNat < 256; omega)
    simp only [isSpaceByte, hv]
    have e1 : ¬ c.toNat = 32 := by
      intro h; rw [char_of_toNat c 32 h] at hc; revert hc; decide
    have e2 : ¬ c.toNat = 9 := by
      intro h; rw [char_of_toNat c 9 h] at hc; revert hc; decide
    have e3 : ¬ c.toNat = 10 := by
      intro h; rw [char_of_toNat c 10 h] at hc; revert hc; decide
    have e4 : ¬ c.toNat = 13 := by
      intro h; rw [char_of_toNat c 13 h] at hc; revert hc; decide
    simp [e1, e2, e3, e4]
  · simp only [List.mem_cons, List.mem_singleton, List.not_mem_nil, or_false] at hu
    rcases hu with rfl | rfl
    · exact isSpaceByte_of_large _ (multibyte _).2.1
    · exact isSpaceByte_of_large _ (multibyte _).1
  · simp only [List.mem_cons, List.mem_singleton, List.not_mem_nil, or_false] at hu
    rcases hu with rfl | rfl | rfl
    · exact isSpaceByte_of_large _ (multibyte _).2.2.1
    · exact isSpaceByte_of_large _ (multibyte _).1
    · exact isSpaceByte_of_large _ (multibyte _).1
  · simp only [List.mem_cons, List.mem_singleton, List.not_mem_nil, or_false] at hu
    rcases hu with rfl | rfl | rfl | rfl
    · exact isSpaceByte_of_large _ (multibyte _).2.2.2
    · exact isSpaceByte_of_large _ (multibyte _).1
    · exact isSpaceByte_of_large _ (multibyte _).1
    · exact isSpaceByte_of_large _ (multibyte _).1

theorem utf8_noSpace (cs : List Char) (h : ∀ c ∈ cs, isSpace c = false) :
    ∀ x ∈ utf8 cs, isSpaceByte x = false := by
  intro x hx
  unfold utf8 at hx
  obtain ⟨c, hc, hxc⟩ := List.mem_flatMap.mp hx
  obtain ⟨u, hu, rfl⟩ := List.mem_map.mp hxc
  exact utf8EncodeChar_noSpace c (h c hc) u hu

theorem NewCid_other (w : Value) :
    NewCid (.other w)
      = .ok ⟨[1] ++ varint 0x0129 ++ [0x12, 0x20] ++ sha256.sum (MarshalValue w)⟩ := by
  show ToCid [MarshalValue w] = _
  rw [ToCid_eq]
  simp

/-- C15: `NewCid(v)` returns one identifier for every value `v`, for a value
that is neither an identifier nor raw bytes the identifier of the bytes that
`Marshal` writes for it (computing it again gives the same text); for two maps
with the same key/value pairs, listed in different orders, `Marshal` gives
byte-identical output, so both get the same identifier; the output of `Marshal`
for a map is the UTF-8 text made of an opening brace, the members in increasing
key order separated by commas, each a quoted key, a colon and the value text,
and a closing brace; and the output of `Marshal` for a value whose strings and
keys hold no space character holds no white-space byte at all. -/
theorem C15_canonical_determinism (v : Any) (w : Value) (es es' : List (String × Value)) :
    (∃ c, NewCid v = .ok c ∧ text (NewCid v) = some c.String ∧
      ∀ s', text (NewCid v) = some s' → s' = c.String) ∧
    NewCid (.other w)
      = .ok ⟨[1] ++ varint 0x0129 ++ [0x12, 0x20] ++ sha256.sum (MarshalValue w)⟩ ∧
    ((es.map Prod.fst).Nodup → es.Perm es' →
      MarshalValue (.map es) = MarshalValue (.map es') ∧
      NewCid (.other (.map es)) = NewCid (.other (.map es')) ∧
      text (NewCid (.other (.map es))) = text (NewCid (.other (.map es')))) ∧
    (∃ sorted : GoMap (List Char), GoMap.Sorted sorted ∧
      (∀ k, sorted.lookup k = GoMap.member (es.map (fun e => (e.1, Value.encode e.2))) k) ∧
      MarshalValue (.map es) = utf8 ('{' :: (joinComma (sorted.map memberText) ++ ['}']))) ∧
    (w.spaceFree = true → ∀ x ∈ MarshalValue w, isSpaceByte x = false) := by
  refine ⟨?_, NewCid_other w, ?_, ?_, ?_⟩
  · obtain ⟨c, hc⟩ : ∃ c, NewCid v = .ok c := by
      cases v with
      | cid c => exact ⟨c, rfl⟩
      | bytes b => exact ⟨_, ToCid_eq [b]⟩
      | other u => exact ⟨_, ToCid_eq [MarshalValue u]⟩
    refine ⟨c, hc, by rw [hc]; rfl, ?_⟩
    intro s' hs'
    rw [hc] at hs'
    exact (Option.some.inj hs').symm
  · intro hnd hp
    have hm : MarshalValue (.map es) = MarshalValue (.map es') := by
      unfold MarshalValue
      rw [encode_map_perm es es' hnd hp]
    have hn : NewCid (.other (.map es)) = NewCid (.other (.map es')) := by
      rw [NewCid_other, NewCid_other, hm]
    exact ⟨hm, hn, by rw [hn]⟩
  · refine ⟨_, GoMap.sorted_assign _ [] List.Pairwise.nil,
      fun k => GoMap.lookup_assign_nil _ k, ?_⟩
    unfold MarshalValue
    rw [encode_map es]
  · intro hw
    unfold MarshalValue
    exact utf8_noSpace _ (encode_noSpace w hw)

/-- C15, witness: the map `b: 2, a: 1` and the map `a: 1, b: 2` have the same
canonical bytes, those of the text with members `a` then `b` and no white
space, and the same identifier. -/
theorem C15_canonical_determinism_witness :
    MarshalValue (.map exampleMapBA) = MarshalValue (.map exampleMapAB) ∧
    NewCid (.other (.map exampleMapBA)) = NewCid (.other (.map exampleMapAB)) ∧
    MarshalValue (.map exampleMapBA)
      = [123, 34, 97, 34, 58, 49, 44, 34, 98, 34, 58, 50, 125] ∧
    Value.encode (.map exampleMapBA) = "\x7b\"a\":1,\"b\":2\x7d".data ∧
    ∀ x ∈ MarshalValue (.map exampleMapBA), isSpaceByte x = false :=
  ⟨((C15_canonical_determinism (.bytes []) (.map exampleMapBA) exampleMapBA exampleMapAB).2.2.1
      (by decide) (List.Perm.swap _ _ _)).1,
   ((C15_canonical_determinism (.bytes []) (.map exampleMapBA) exampleMapBA exampleMapAB).2.2.1
      (by decide) (List.Perm.swap _ _ _)).2.1,
   by decide,
   by decide,
   (C15_canonical_determinism (.bytes []) (.map exampleMapBA) exampleMapBA exampleMapAB).2.2.2.2
      (by decide)⟩

end cid
